import Mathlib

/-!
# Contract validation (autobots CLI) — shallow embedding

Embeds `cli/internal/contract/validate.go`. The schema types are those of
`cli/internal/autobots/contract/types.go`: the type declarations of package
`internal/contract` are not among the sources, and its tests build contracts
of exactly this shape.

Modelling conventions
* Go `string` is Lean `String`, read as its sequence of code points
  (`String.data`); this is exact for well-formed UTF-8 text.
* A Go pointer `*T` is `Option T` (`nil` is `none`).
* A Go slice is a `List`; `map[string]struct{}` is the list of its keys,
  used only through membership. The section on the Go runtime models the
  map with its hash seed and its seed-dependent key order, and the validator
  as a call that passes the state of the runtime through.
* `errs *ValidationErrors` is threaded explicitly: every validator takes the
  collector and returns the extended collector.
* `error` is `Option GoError` (`nil` is `none`).
* `fmt.Sprintf` with `%s` and `%d` is string concatenation, `%d` of a loop
  index being its decimal numeral (`toString` of a `Nat`).
-/

namespace Autobots

/-! ## The parts of the Go standard library that the validator calls -/

namespace unicode

/-- Go `unicode.IsSpace`: the Latin-1 spaces `\t \n \v \f \r ' ' U+0085 U+00A0`
and, above Latin-1, the `White_Space` range table. -/
def IsSpace (r : Char) : Bool :=
  let n := r.toNat
  if n ≤ 0xFF then
    n == 0x09 || n == 0x0A || n == 0x0B || n == 0x0C || n == 0x0D || n == 0x20
      || n == 0x85 || n == 0xA0
  else
    n == 0x1680 || (0x2000 ≤ n && n ≤ 0x200A) || n == 0x2028 || n == 0x2029
      || n == 0x202F || n == 0x205F || n == 0x3000

end unicode

namespace strings

/-- Go `strings.TrimSpace`: the string without leading and trailing white
space (as defined by `unicode.IsSpace`). -/
def TrimSpace (s : String) : String :=
  ⟨((s.data.dropWhile unicode.IsSpace).reverse.dropWhile unicode.IsSpace).reverse⟩

/-- Go `strings.HasPrefix s p`. -/
def HasPrefix (s p : String) : Bool :=
  p.data.isPrefixOf s.data

/-- Go `strings.ContainsAny s chars`: some code point of `chars` occurs in `s`. -/
def ContainsAny (s chars : String) : Bool :=
  s.data.any (fun r => chars.data.contains r)

/-- Go `strings.Contains s substr`: `substr` occurs in `s` as a contiguous
block. -/
def Contains (s substr : String) : Bool :=
  decide (substr.data <:+: s.data)

end strings

/-- Go `error` values as far as the validator builds them: `errors.New` and
the `%w` wrapper of `fmt.Errorf`. -/
inductive GoError where
  | errorString (s : String)
  | wrapError (msg : String) (err : GoError)
deriving DecidableEq, Repr

/-- The `Error()` method of a Go error value. -/
def GoError.Error : GoError → String
  | .errorString s => s
  | .wrapError msg _ => msg

/-- The `Unwrap()` method of a Go error value. -/
def GoError.Unwrap : GoError → Option GoError
  | .errorString _ => none
  | .wrapError _ err => some err

namespace errors

/-- Go `errors.Is err target`: `err` or an error of its `Unwrap` chain is
`target`. Go compares the error values, which for `errors.New` are pointers;
here an error value is its content, so that `Is` holding in the embedding is
the same as holding in Go whenever `target` is the very value that was
wrapped. -/
def Is : GoError → GoError → Bool
  | .errorString s, target => decide (GoError.errorString s = target)
  | .wrapError msg err, target =>
    decide (GoError.wrapError msg err = target) || Is err target

end errors

/-! ## Schema types (`types.go`) -/

structure ContractMeta where
  IsDraft : Bool
  Labels : List (String × String)
deriving DecidableEq, Repr

structure ContractParty where
  Component : String
deriving DecidableEq, Repr

structure HTTPAuth where
  Scheme : String
  Scopes : List String
deriving DecidableEq, Repr

structure HTTPSurface where
  Method : String
  Path : String
  Auth : Option HTTPAuth
deriving DecidableEq, Repr

structure ContractSurface where
  Kind : String
  HTTP : Option HTTPSurface
deriving DecidableEq, Repr

structure Assertion where
  ID : String
  Text : String
deriving DecidableEq, Repr

structure TestBinding where
  ID : String
  Kind : String
  Path : String
  Required : Bool
  Covers : List String
deriving DecidableEq, Repr

structure ContractBindings where
  Tests : List TestBinding
deriving DecidableEq, Repr

structure ContractSpec where
  Consumer : ContractParty
  Provider : ContractParty
  Surface : ContractSurface
  Assertions : List Assertion
  Bindings : ContractBindings
deriving DecidableEq, Repr

structure Contract where
  APIVersion : String
  Kind : String
  Metadata : ContractMeta
  Spec : ContractSpec
deriving DecidableEq, Repr

/-! ## Findings and their rendering (`validate.go`, lines 9–54) -/

namespace contract

def ErrInvalidContract : GoError := .errorString "invalid contract"

structure ValidationError where
  Path : String
  Msg : String
deriving DecidableEq, Repr

/-- `func (e ValidationError) Error() string`. -/
def ValidationError.Error (e : ValidationError) : String :=
  if e.Path = "" then e.Msg else e.Path ++ ": " ++ e.Msg

abbrev ValidationErrors := List ValidationError

/-- `func (ve ValidationErrors) Error() string`; the builder is the fold
accumulator. -/
def ValidationErrors.Error (ve : ValidationErrors) : String :=
  if ve.length = 0 then ""
  else ve.foldl (fun b e => b ++ " - " ++ e.Error ++ "\n") "contract validation failed:\n"

/-- `func (ve ValidationErrors) AsError() error`, with
`fmt.Errorf("%w: %s", ErrInvalidContract, ve.Error())`. -/
def ValidationErrors.AsError (ve : ValidationErrors) : Option GoError :=
  if ve.length = 0 then none
  else some (.wrapError (ErrInvalidContract.Error ++ ": " ++ ValidationErrors.Error ve)
    ErrInvalidContract)

/-- `func (ve *ValidationErrors) Add(path, msg string)`. -/
def ValidationErrors.Add (ve : ValidationErrors) (path msg : String) : ValidationErrors :=
  ve ++ [{ Path := path, Msg := msg }]

/-- `func (ve *ValidationErrors) Addf(path, format string, args ...any)`; the
second argument is the formatted message `fmt.Sprintf(format, args...)`, which
the call site writes out as a concatenation. -/
def ValidationErrors.Addf (ve : ValidationErrors) (path formatted : String) :
    ValidationErrors :=
  ve ++ [{ Path := path, Msg := formatted }]

/-! ## Rule groups (`validate.go`, lines 78–255) -/

def validateTopLevel (c : Contract) (errs : ValidationErrors) : ValidationErrors :=
  let errs :=
    if strings.TrimSpace c.APIVersion = "" then errs.Add "apiVersion" "required" else errs
  if strings.TrimSpace c.Kind = "" then errs.Add "kind" "required"
  else if c.Kind ≠ "Contract" then errs.Add "kind" "must be 'Contract'"
  else errs

def validateParties (spec : ContractSpec) (errs : ValidationErrors) : ValidationErrors :=
  let errs :=
    if strings.TrimSpace spec.Consumer.Component = "" then
      errs.Add "spec.consumer.component" "required"
    else errs
  if strings.TrimSpace spec.Provider.Component = "" then
    errs.Add "spec.provider.component" "required"
  else errs

def validateHTTP (h : Option HTTPSurface) (errs : ValidationErrors) : ValidationErrors :=
  match h with
  | none => errs.Add "spec.surface.http" "required for kind=http"
  | some h =>
    let errs :=
      if strings.TrimSpace h.Method = "" then errs.Add "spec.surface.http.method" "required"
      else errs
    let errs :=
      if strings.TrimSpace h.Path = "" then errs.Add "spec.surface.http.path" "required"
      else if !strings.HasPrefix h.Path "/" then
        errs.Add "spec.surface.http.path" "must start with '/'"
      else errs
    match h.Auth with
    | some auth =>
      if strings.ContainsAny auth.Scheme " \t\n" then
        errs.Add "spec.surface.http.auth.scheme" "must not contain whitespace"
      else errs
    | none => errs

def validateSurface (s : Option ContractSurface) (errs : ValidationErrors) :
    ValidationErrors :=
  match s with
  | none => errs.Add "spec.surface" "required"
  | some s =>
    if strings.TrimSpace s.Kind = "" then errs.Add "spec.surface.kind" "required"
    else if s.Kind = "http" then validateHTTP s.HTTP errs
    else errs.Add "spec.surface.kind" "unsupported kind (v0.0.1 supports only 'http')"

abbrev AssertionIDSet := List String

/-- The body of the `for i, a := range assertions` loop of `validateAssertions`,
from index `i` on, with the id set and the collector as loop state. -/
def validateAssertions.loop :
    List Assertion → Nat → AssertionIDSet → ValidationErrors →
      AssertionIDSet × ValidationErrors
  | [], _, ids, errs => (ids, errs)
  | a :: rest, i, ids, errs =>
    let pfx := "spec.assertions[" ++ toString i ++ "]"
    if strings.TrimSpace a.ID = "" then
      validateAssertions.loop rest (i + 1) ids (errs.Add (pfx ++ ".id") "required")
    else
      let st : AssertionIDSet × ValidationErrors :=
        if a.ID ∈ ids then (ids, errs.Add (pfx ++ ".id") "duplicate assertion id")
        else (a.ID :: ids, errs)
      let errs :=
        if strings.TrimSpace a.Text = "" then st.2.Add (pfx ++ ".text") "required" else st.2
      validateAssertions.loop rest (i + 1) st.1 errs

def validateAssertions (assertions : List Assertion) (errs : ValidationErrors) :
    AssertionIDSet × ValidationErrors :=
  if assertions.length = 0 then
    ([], errs.Add "spec.assertions" "must have at least one assertion")
  else validateAssertions.loop assertions 0 [] errs

/-- The inner `for j, aid := range t.Covers` loop of `validateBindings`. -/
def validateBindings.covers (pfx : String) (assertionIDs : AssertionIDSet) :
    List String → Nat → ValidationErrors → ValidationErrors
  | [], _, errs => errs
  | aid :: rest, j, errs =>
    let errs :=
      if aid ∉ assertionIDs then
        errs.Addf (pfx ++ ".covers[" ++ toString j ++ "]")
          ("unknown assertion id '" ++ aid ++ "'")
      else errs
    validateBindings.covers pfx assertionIDs rest (j + 1) errs

/-- The body of the `for i, t := range b.Tests` loop of `validateBindings`, from
index `i` on, with the test-id set and the collector as loop state. -/
def validateBindings.loop (assertionIDs : AssertionIDSet) :
    List TestBinding → Nat → List String → ValidationErrors → ValidationErrors
  | [], _, _, errs => errs
  | t :: rest, i, testIDs, errs =>
    let pfx := "spec.bindings.tests[" ++ toString i ++ "]"
    let st : List String × ValidationErrors :=
      if strings.TrimSpace t.ID = "" then (testIDs, errs.Add (pfx ++ ".id") "required")
      else if t.ID ∈ testIDs then (testIDs, errs.Add (pfx ++ ".id") "duplicate test id")
      else (t.ID :: testIDs, errs)
    let errs := st.2
    let errs :=
      if strings.TrimSpace t.Kind = "" then errs.Add (pfx ++ ".kind") "required"
      else if t.Kind = "postman" ∨ t.Kind = "sql" then errs
      else errs.Add (pfx ++ ".kind") "unsupported kind (v0.0.1 supports postman|sql)"
    let errs :=
      if strings.TrimSpace t.Path = "" then errs.Add (pfx ++ ".path") "required" else errs
    let errs := validateBindings.covers pfx assertionIDs t.Covers 0 errs
    let errs :=
      if t.Required ∧ t.Covers.length = 0 then
        errs.Add (pfx ++ ".covers") "required tests should cover at least one assertion"
      else errs
    validateBindings.loop assertionIDs rest (i + 1) st.1 errs

def validateBindings (b : Option ContractBindings) (assertionIDs : AssertionIDSet)
    (errs : ValidationErrors) : ValidationErrors :=
  match b with
  | none => errs.Add "spec.bindings" "required"
  | some b =>
    if b.Tests.length = 0 then
      errs.Add "spec.bindings.tests" "must have at least one test binding"
    else validateBindings.loop assertionIDs b.Tests 0 [] errs

def validateSpec (spec : Option ContractSpec) (errs : ValidationErrors) : ValidationErrors :=
  match spec with
  | none => errs.Add "spec" "required"
  | some spec =>
    let errs := validateParties spec errs
    let errs := validateSurface (some spec.Surface) errs
    let r := validateAssertions spec.Assertions errs
    validateBindings (some spec.Bindings) r.1 r.2

/-- The value of the local collector `errs` of `ValidateContract` at the
`return errs.AsError()` that is reached. -/
def ValidateContract.errs (c : Option Contract) : ValidationErrors :=
  match c with
  | none => ValidationErrors.Add [] "" "contract is nil"
  | some c => validateSpec (some c.Spec) (validateTopLevel c [])

def ValidateContract (c : Option Contract) : Option GoError :=
  ValidationErrors.AsError (ValidateContract.errs c)

/-- The contract of `validContract()` in `validate_test.go`, which is also the
concrete scenario of the specification. -/
def validContract : Contract :=
  { APIVersion := "autobots/v1alpha1"
    Kind := "Contract"
    Metadata := { IsDraft := false, Labels := [] }
    Spec :=
      { Consumer := { Component := "web-ui" }
        Provider := { Component := "billing-api" }
        Surface :=
          { Kind := "http"
            HTTP := some
              { Method := "POST", Path := "/v1/invoices"
                Auth := some { Scheme := "Bearer", Scopes := [] } } }
        Assertions := [{ ID := "a1", Text := "Status is 200" }]
        Bindings :=
          { Tests :=
              [{ ID := "t1", Kind := "postman", Path := "./tests/t1.json"
                 Required := true, Covers := ["a1"] }] } } }

/-- A string that is empty or consists of white space only; white space is
what `unicode.IsSpace` accepts. -/
def Blank (s : String) : Bool :=
  s.data.all unicode.IsSpace

/-- The rules of a valid contract as the specification words them: this is
the reference against which `ValidateContract` is compared, not a
translation of the code. A string is non-blank when it is non-empty after
trimming white space. -/
def PassesEveryRule (c : Contract) : Prop :=
  strings.TrimSpace c.APIVersion ≠ "" ∧
  c.Kind = "Contract" ∧
  strings.TrimSpace c.Spec.Consumer.Component ≠ "" ∧
  strings.TrimSpace c.Spec.Provider.Component ≠ "" ∧
  c.Spec.Surface.Kind = "http" ∧
  (∃ h ∈ c.Spec.Surface.HTTP,
    strings.TrimSpace h.Method ≠ "" ∧
    strings.HasPrefix h.Path "/" = true ∧
    (h.Auth = none ∨
      ∃ a ∈ h.Auth, ∀ r ∈ a.Scheme.data, r ≠ ' ' ∧ r ≠ '\t' ∧ r ≠ '\n')) ∧
  c.Spec.Assertions ≠ [] ∧
  (∀ a ∈ c.Spec.Assertions,
    strings.TrimSpace a.ID ≠ "" ∧ strings.TrimSpace a.Text ≠ "") ∧
  c.Spec.Assertions.Pairwise (fun a b => a.ID ≠ b.ID) ∧
  c.Spec.Bindings.Tests ≠ [] ∧
  (∀ t ∈ c.Spec.Bindings.Tests,
    strings.TrimSpace t.ID ≠ "" ∧
    (t.Kind = "postman" ∨ t.Kind = "sql") ∧
    strings.TrimSpace t.Path ≠ "" ∧
    (∀ x ∈ t.Covers, ∃ a ∈ c.Spec.Assertions, a.ID = x) ∧
    (t.Required = true → t.Covers ≠ [])) ∧
  c.Spec.Bindings.Tests.Pairwise (fun s t => s.ID ≠ t.ID)

instance (c : Contract) : Decidable (PassesEveryRule c) := by
  unfold PassesEveryRule
  infer_instance

/-! ## The findings entry by entry, as the specification describes them

These definitions are the reference for the loops of `validateAssertions` and
`validateBindings`; they are not translations of the code. `seen` is the list
of the ids of the earlier entries. -/

/-- The path of the assertion at index `i`. -/
def assertionPfx (i : Nat) : String :=
  "spec.assertions[" ++ toString i ++ "]"

/-- The path of the test binding at index `i`. -/
def testPfx (i : Nat) : String :=
  "spec.bindings.tests[" ++ toString i ++ "]"

/-- The findings for the assertion `a` at index `i`: a blank id is reported
and nothing else is checked; otherwise a repeated id is reported, and
independently a blank text. -/
def assertionEntryFindings (seen : List String) (i : Nat) (a : Assertion) :
    ValidationErrors :=
  if strings.TrimSpace a.ID = "" then
    [{ Path := assertionPfx i ++ ".id", Msg := "required" }]
  else
    (if a.ID ∈ seen then
      [{ Path := assertionPfx i ++ ".id", Msg := "duplicate assertion id" }]
    else []) ++
    (if strings.TrimSpace a.Text = "" then
      [{ Path := assertionPfx i ++ ".text", Msg := "required" }]
    else [])

/-- The id check of the test binding `t` at index `i`. -/
def bindingIdFindings (seen : List String) (i : Nat) (t : TestBinding) : ValidationErrors :=
  if strings.TrimSpace t.ID = "" then [{ Path := testPfx i ++ ".id", Msg := "required" }]
  else if t.ID ∈ seen then [{ Path := testPfx i ++ ".id", Msg := "duplicate test id" }]
  else []

/-- The kind check of the test binding `t` at index `i`. -/
def bindingKindFindings (i : Nat) (t : TestBinding) : ValidationErrors :=
  if strings.TrimSpace t.Kind = "" then [{ Path := testPfx i ++ ".kind", Msg := "required" }]
  else if t.Kind = "postman" ∨ t.Kind = "sql" then []
  else
    [{ Path := testPfx i ++ ".kind",
       Msg := "unsupported kind (v0.0.1 supports postman|sql)" }]

/-- The path check of the test binding `t` at index `i`. -/
def bindingPathFindings (i : Nat) (t : TestBinding) : ValidationErrors :=
  if strings.TrimSpace t.Path = "" then [{ Path := testPfx i ++ ".path", Msg := "required" }]
  else []

/-- A covers entry resolves when some assertion with a non-blank id has
exactly this id. -/
def Resolves (assertions : List Assertion) (x : String) : Prop :=
  ∃ a ∈ assertions, strings.TrimSpace a.ID ≠ "" ∧ a.ID = x

instance (assertions : List Assertion) (x : String) : Decidable (Resolves assertions x) := by
  unfold Resolves
  infer_instance

/-- The covers check of the test binding `t` at index `i`: one finding for
each unresolved entry, by ascending position in `covers`. -/
def bindingCoversFindings (assertions : List Assertion) (i : Nat) (t : TestBinding) :
    ValidationErrors :=
  t.Covers.enum.flatMap (fun p =>
    if Resolves assertions p.2 then []
    else
      [{ Path := testPfx i ++ ".covers[" ++ toString p.1 ++ "]",
         Msg := "unknown assertion id '" ++ p.2 ++ "'" }])

/-- The check that a required test binding covers something. -/
def bindingRequiredFindings (i : Nat) (t : TestBinding) : ValidationErrors :=
  if t.Required = true ∧ t.Covers = [] then
    [{ Path := testPfx i ++ ".covers",
       Msg := "required tests should cover at least one assertion" }]
  else []

/-- The findings for the test binding `t` at index `i`, in the order id, kind,
path, covers entries, covers. -/
def bindingEntryFindings (assertions : List Assertion) (seen : List String) (i : Nat)
    (t : TestBinding) : ValidationErrors :=
  bindingIdFindings seen i t ++ bindingKindFindings i t ++ bindingPathFindings i t ++
    bindingCoversFindings assertions i t ++ bindingRequiredFindings i t

/-- The findings of the assertion group, by ascending entry index. -/
def assertionFindingsInOrder (l : List Assertion) : ValidationErrors :=
  if l = [] then [{ Path := "spec.assertions", Msg := "must have at least one assertion" }]
  else
    l.enum.flatMap (fun p =>
      assertionEntryFindings ((l.take p.1).map (fun a => a.ID)) p.1 p.2)

/-- The findings of the binding group, by ascending entry index. -/
def bindingFindingsInOrder (assertions : List Assertion) (l : List TestBinding) :
    ValidationErrors :=
  if l = [] then
    [{ Path := "spec.bindings.tests", Msg := "must have at least one test binding" }]
  else
    l.enum.flatMap (fun p =>
      bindingEntryFindings assertions ((l.take p.1).map (fun t => t.ID)) p.1 p.2)

/-- The findings of a non-nil contract in the order the specification fixes:
top level (apiVersion, kind), parties (consumer, provider), surface,
assertions, bindings. -/
def findingsInOrder (c : Contract) : ValidationErrors :=
  (if strings.TrimSpace c.APIVersion = "" then [{ Path := "apiVersion", Msg := "required" }]
    else []) ++
  (if strings.TrimSpace c.Kind = "" then [{ Path := "kind", Msg := "required" }]
    else if c.Kind ≠ "Contract" then [{ Path := "kind", Msg := "must be 'Contract'" }]
    else []) ++
  (if strings.TrimSpace c.Spec.Consumer.Component = "" then
      [{ Path := "spec.consumer.component", Msg := "required" }]
    else []) ++
  (if strings.TrimSpace c.Spec.Provider.Component = "" then
      [{ Path := "spec.provider.component", Msg := "required" }]
    else []) ++
  validateSurface (some c.Spec.Surface) [] ++
  assertionFindingsInOrder c.Spec.Assertions ++
  bindingFindingsInOrder c.Spec.Assertions c.Spec.Bindings.Tests

/-- Findings produced entry by entry from index `i` on, `seen` holding the
keys of the entries already passed (an auxiliary form of the two
`InOrder` definitions, by recursion on the entries). -/
def byEntry {α : Type} (key : α → String)
    (f : List String → Nat → α → ValidationErrors) :
    List String → Nat → List α → ValidationErrors
  | _, _, [] => []
  | seen, i, a :: rest => f seen i a ++ byEntry key f (seen ++ [key a]) (i + 1) rest

/-- The rendering of a findings list as the specification describes it: the
header line, then one bullet line per finding in list order; the empty
string for the empty list. -/
def renderedFindings (ve : ValidationErrors) : String :=
  if ve = [] then ""
  else
    "contract validation failed:\n" ++
      String.join (ve.map (fun e =>
        " - " ++ (if e.Path = "" then e.Msg else e.Path ++ ": " ++ e.Msg) ++ "\n"))

/-- The pieces of a text between its newline characters, as Go
`strings.Split(s, "\n")` gives them. -/
def splitNewline : List Char → List (List Char)
  | [] => [[]]
  | c :: cs =>
    if c = '\n' then [] :: splitNewline cs
    else
      match splitNewline cs with
      | [] => [[c]]
      | l :: ls => (c :: l) :: ls

/-- The number of non-empty lines of a text. -/
def nonEmptyLines (s : String) : Nat :=
  ((splitNewline s.data).filter (fun l => decide (l ≠ []))).length

/-- The contract of `validContract()` after the modifier of the test case
"Test Covers Non-Existent Assertion" in `validate_test.go`, which replaces
the covers entries of the only test binding (there by `ghost-assertion`). -/
def coversContract (covers : List String) : Contract :=
  { validContract with
    Spec := { validContract.Spec with
      Bindings :=
        { Tests :=
            [{ ID := "t1", Kind := "postman", Path := "./tests/t1.json"
               Required := true, Covers := covers }] } } }

end contract

/-! ## The monolithic copy (`cli/internal/autobots/contract/validate.go`)

Package `internal/autobots/contract` declares `ValidationError`,
`ValidationErrors` with `Error` and `AsError`, and `ErrInvalidContract` word
for word as package `internal/contract` does; the embedding uses the
definitions of `Autobots.contract` for them. Its `ValidateContract` is one
function that appends to a local `errs`. -/

namespace autobots

/-- The loop `for i, a := range c.Spec.Assertions` of the monolithic
`ValidateContract`, from index `i` on, with `assertionIDs` and `errs` as loop
state. -/
def ValidateContract.assertions :
    List Assertion → Nat → List String → contract.ValidationErrors →
      List String × contract.ValidationErrors
  | [], _, assertionIDs, errs => (assertionIDs, errs)
  | a :: rest, i, assertionIDs, errs =>
    let pfx := "spec.assertions[" ++ toString i ++ "]"
    if strings.TrimSpace a.ID = "" then
      ValidateContract.assertions rest (i + 1) assertionIDs
        (errs ++ [{ Path := pfx ++ ".id", Msg := "required" }])
    else
      let st : List String × contract.ValidationErrors :=
        if a.ID ∈ assertionIDs then
          (assertionIDs, errs ++ [{ Path := pfx ++ ".id", Msg := "duplicate assertion id" }])
        else (a.ID :: assertionIDs, errs)
      let errs :=
        if strings.TrimSpace a.Text = "" then
          st.2 ++ [{ Path := pfx ++ ".text", Msg := "required" }]
        else st.2
      ValidateContract.assertions rest (i + 1) st.1 errs

/-- The loop `for j, aid := range t.Covers` of the monolithic
`ValidateContract`. -/
def ValidateContract.covers (pfx : String) (assertionIDs : List String) :
    List String → Nat → contract.ValidationErrors → contract.ValidationErrors
  | [], _, errs => errs
  | aid :: rest, j, errs =>
    let errs :=
      if aid ∉ assertionIDs then
        errs ++ [{ Path := pfx ++ ".covers[" ++ toString j ++ "]",
                   Msg := "unknown assertion id '" ++ aid ++ "'" }]
      else errs
    ValidateContract.covers pfx assertionIDs rest (j + 1) errs

/-- The loop `for i, t := range c.Spec.Bindings.Tests` of the monolithic
`ValidateContract`, from index `i` on, with `testIDs` and `errs` as loop
state. -/
def ValidateContract.tests (assertionIDs : List String) :
    List TestBinding → Nat → List String → contract.ValidationErrors →
      contract.ValidationErrors
  | [], _, _, errs => errs
  | t :: rest, i, testIDs, errs =>
    let pfx := "spec.bindings.tests[" ++ toString i ++ "]"
    let st : List String × contract.ValidationErrors :=
      if strings.TrimSpace t.ID = "" then
        (testIDs, errs ++ [{ Path := pfx ++ ".id", Msg := "required" }])
      else if t.ID ∈ testIDs then
        (testIDs, errs ++ [{ Path := pfx ++ ".id", Msg := "duplicate test id" }])
      else (t.ID :: testIDs, errs)
    let errs := st.2
    let errs :=
      if strings.TrimSpace t.Kind = "" then errs ++ [{ Path := pfx ++ ".kind", Msg := "required" }]
      else if t.Kind = "postman" ∨ t.Kind = "sql" then errs
      else
        errs ++ [{ Path := pfx ++ ".kind",
                   Msg := "unsupported kind (v0.0.1 supports postman|sql)" }]
    let errs :=
      if strings.TrimSpace t.Path = "" then errs ++ [{ Path := pfx ++ ".path", Msg := "required" }]
      else errs
    let errs := ValidateContract.covers pfx assertionIDs t.Covers 0 errs
    let errs :=
      if t.Required ∧ t.Covers.length = 0 then
        errs ++ [{ Path := pfx ++ ".covers",
                   Msg := "required tests should cover at least one assertion" }]
      else errs
    ValidateContract.tests assertionIDs rest (i + 1) st.1 errs

/-- The value of the local `errs` of the monolithic `ValidateContract` at its
`return errs.AsError()`, for a non-nil contract. -/
def ValidateContract.errs (c : Contract) : contract.ValidationErrors :=
  let errs : contract.ValidationErrors := []
  let errs :=
    if strings.TrimSpace c.APIVersion = "" then
      errs ++ [{ Path := "apiVersion", Msg := "required" }]
    else errs
  let errs :=
    if strings.TrimSpace c.Kind = "" then errs ++ [{ Path := "kind", Msg := "required" }]
    else if c.Kind ≠ "Contract" then errs ++ [{ Path := "kind", Msg := "must be 'Contract'" }]
    else errs
  let errs :=
    if strings.TrimSpace c.Spec.Consumer.Component = "" then
      errs ++ [{ Path := "spec.consumer.component", Msg := "required" }]
    else errs
  let errs :=
    if strings.TrimSpace c.Spec.Provider.Component = "" then
      errs ++ [{ Path := "spec.provider.component", Msg := "required" }]
    else errs
  let errs :=
    if strings.TrimSpace c.Spec.Surface.Kind = "" then
      errs ++ [{ Path := "spec.surface.kind", Msg := "required" }]
    else if c.Spec.Surface.Kind = "http" then
      match c.Spec.Surface.HTTP with
      | none => errs ++ [{ Path := "spec.surface.http", Msg := "required for kind=http" }]
      | some h =>
        let errs :=
          if strings.TrimSpace h.Method = "" then
            errs ++ [{ Path := "spec.surface.http.method", Msg := "required" }]
          else errs
        let errs :=
          if strings.TrimSpace h.Path = "" then
            errs ++ [{ Path := "spec.surface.http.path", Msg := "required" }]
          else if !strings.HasPrefix h.Path "/" then
            errs ++ [{ Path := "spec.surface.http.path", Msg := "must start with '/'" }]
          else errs
        match h.Auth with
        | some auth =>
          if strings.ContainsAny auth.Scheme " \t\n" then
            errs ++ [{ Path := "spec.surface.http.auth.scheme",
                       Msg := "must not contain whitespace" }]
          else errs
        | none => errs
    else
      errs ++ [{ Path := "spec.surface.kind",
                 Msg := "unsupported kind (v0.0.1 supports only 'http')" }]
  let errs :=
    if c.Spec.Assertions.length = 0 then
      errs ++ [{ Path := "spec.assertions", Msg := "must have at least one assertion" }]
    else errs
  let r := ValidateContract.assertions c.Spec.Assertions 0 [] errs
  let errs := r.2
  let errs :=
    if c.Spec.Bindings.Tests.length = 0 then
      errs ++ [{ Path := "spec.bindings.tests", Msg := "must have at least one test binding" }]
    else errs
  ValidateContract.tests r.1 c.Spec.Bindings.Tests 0 [] errs

/-- The monolithic `ValidateContract`. It reads `c.APIVersion` without a nil
check, so that a nil contract makes it panic: the outer `none`. -/
def ValidateContract (c : Option Contract) : Option (Option GoError) :=
  match c with
  | none => none
  | some c => some (contract.ValidationErrors.AsError (ValidateContract.errs c))

end autobots

/-! ## The maps of the Go runtime

The language fixes what a lookup and an assignment of a `map` do; it leaves
open how the keys are laid out and in which order a `range` visits them. The
runtime gives every new map a hash seed from its random source, so that the
layout differs from map to map and from call to call. -/

namespace runtime

/-- The part of the state of the Go runtime that maps depend on: the string
hash of the platform (a function of seed and key), the random source that
`make` draws the seed of each new map from, and the number of seeds drawn so
far. -/
structure Runtime where
  strhash : Nat → String → Nat
  seeds : Nat → Nat
  drawn : Nat

/-- A `map[string]struct{}`: the seeded hash of this map and its keys in
bucket order, which is the order a `range` over the map visits them in. -/
structure StringSet where
  strhash : String → Nat
  keys : List String

/-- The key `k` put into its bucket: before the first key of a bucket that is
not lower. -/
def StringSet.place (h : String → Nat) (k : String) : List String → List String
  | [] => [k]
  | x :: xs => if h k ≤ h x then k :: x :: xs else x :: StringSet.place h k xs

/-- The runtime's `makemap` behind `make(map[string]struct{}, n)` and behind
the literal `AssertionIDSet{}`: an empty map with a fresh seed. -/
def Runtime.makeSet (rt : Runtime) : StringSet × Runtime :=
  ({ strhash := rt.strhash (rt.seeds rt.drawn), keys := [] },
    { rt with drawn := rt.drawn + 1 })

/-- The lookup `_, ok := m[k]`. -/
def StringSet.lookup (m : StringSet) (k : String) : Bool :=
  decide (k ∈ m.keys)

/-- The assignment `m[k] = struct{}{}`. -/
def StringSet.store (m : StringSet) (k : String) : StringSet :=
  if k ∈ m.keys then m else { m with keys := StringSet.place m.strhash k m.keys }

end runtime

/-! ## The validator on the Go runtime (`validate.go`, lines 60–255)

The functions of `validate.go` that make or use a map, with the map as the
runtime provides it and the state of the runtime passed through the call.
The rule groups without a map are those of the sections above. The contract
is only read: no function assigns through `c`, `spec`, `s`, `h` or `b`, so it
is an argument that a call leaves as it is. The collector and the two id sets
are the only memory a call writes; they are made by the call and not kept
after it, and the package has no variable that is assigned to. -/

namespace contract

namespace stateful

/-- The body of the `for i, a := range assertions` loop of `validateAssertions`,
from index `i` on. -/
def validateAssertions.loop :
    List Assertion → Nat → runtime.StringSet → ValidationErrors →
      runtime.StringSet × ValidationErrors
  | [], _, ids, errs => (ids, errs)
  | a :: rest, i, ids, errs =>
    let pfx := "spec.assertions[" ++ toString i ++ "]"
    if strings.TrimSpace a.ID = "" then
      validateAssertions.loop rest (i + 1) ids (errs.Add (pfx ++ ".id") "required")
    else
      let st : runtime.StringSet × ValidationErrors :=
        if ids.lookup a.ID = true then
          (ids, errs.Add (pfx ++ ".id") "duplicate assertion id")
        else (ids.store a.ID, errs)
      let errs :=
        if strings.TrimSpace a.Text = "" then st.2.Add (pfx ++ ".text") "required" else st.2
      validateAssertions.loop rest (i + 1) st.1 errs

def validateAssertions (assertions : List Assertion) (errs : ValidationErrors)
    (rt : runtime.Runtime) : (runtime.StringSet × ValidationErrors) × runtime.Runtime :=
  if assertions.length = 0 then
    let errs := errs.Add "spec.assertions" "must have at least one assertion"
    let r := rt.makeSet
    ((r.1, errs), r.2)
  else
    let r := rt.makeSet
    (validateAssertions.loop assertions 0 r.1 errs, r.2)

/-- The inner `for j, aid := range t.Covers` loop of `validateBindings`. -/
def validateBindings.covers (pfx : String) (assertionIDs : runtime.StringSet) :
    List String → Nat → ValidationErrors → ValidationErrors
  | [], _, errs => errs
  | aid :: rest, j, errs =>
    let errs :=
      if ¬ (assertionIDs.lookup aid = true) then
        errs.Addf (pfx ++ ".covers[" ++ toString j ++ "]")
          ("unknown assertion id '" ++ aid ++ "'")
      else errs
    validateBindings.covers pfx assertionIDs rest (j + 1) errs

/-- The body of the `for i, t := range b.Tests` loop of `validateBindings`, from
index `i` on. -/
def validateBindings.loop (assertionIDs : runtime.StringSet) :
    List TestBinding → Nat → runtime.StringSet → ValidationErrors → ValidationErrors
  | [], _, _, errs => errs
  | t :: rest, i, testIDs, errs =>
    let pfx := "spec.bindings.tests[" ++ toString i ++ "]"
    let st : runtime.StringSet × ValidationErrors :=
      if strings.TrimSpace t.ID = "" then (testIDs, errs.Add (pfx ++ ".id") "required")
      else if testIDs.lookup t.ID = true then
        (testIDs, errs.Add (pfx ++ ".id") "duplicate test id")
      else (testIDs.store t.ID, errs)
    let errs := st.2
    let errs :=
      if strings.TrimSpace t.Kind = "" then errs.Add (pfx ++ ".kind") "required"
      else if t.Kind = "postman" ∨ t.Kind = "sql" then errs
      else errs.Add (pfx ++ ".kind") "unsupported kind (v0.0.1 supports postman|sql)"
    let errs :=
      if strings.TrimSpace t.Path = "" then errs.Add (pfx ++ ".path") "required" else errs
    let errs := validateBindings.covers pfx assertionIDs t.Covers 0 errs
    let errs :=
      if t.Required ∧ t.Covers.length = 0 then
        errs.Add (pfx ++ ".covers") "required tests should cover at least one assertion"
      else errs
    validateBindings.loop assertionIDs rest (i + 1) st.1 errs

def validateBindings (b : Option ContractBindings) (assertionIDs : runtime.StringSet)
    (errs : ValidationErrors) (rt : runtime.Runtime) : ValidationErrors × runtime.Runtime :=
  match b with
  | none => (errs.Add "spec.bindings" "required", rt)
  | some b =>
    if b.Tests.length = 0 then
      (errs.Add "spec.bindings.tests" "must have at least one test binding", rt)
    else
      let r := rt.makeSet
      (validateBindings.loop assertionIDs b.Tests 0 r.1 errs, r.2)

def validateSpec (spec : Option ContractSpec) (errs : ValidationErrors)
    (rt : runtime.Runtime) : ValidationErrors × runtime.Runtime :=
  match spec with
  | none => (errs.Add "spec" "required", rt)
  | some spec =>
    let errs := validateParties spec errs
    let errs := validateSurface (some spec.Surface) errs
    let r := validateAssertions spec.Assertions errs rt
    validateBindings (some spec.Bindings) r.1.1 r.1.2 r.2

/-- The value of the local collector `errs` of `ValidateContract` at the
`return errs.AsError()` that is reached, and the state the runtime is left
in. -/
def ValidateContract.errs (c : Option Contract) (rt : runtime.Runtime) :
    ValidationErrors × runtime.Runtime :=
  match c with
  | none => (ValidationErrors.Add [] "" "contract is nil", rt)
  | some c => validateSpec (some c.Spec) (validateTopLevel c []) rt

/-- One call of `ValidateContract`: the error it returns and the state the
runtime is left in. -/
def ValidateContract (c : Option Contract) (rt : runtime.Runtime) :
    Option GoError × runtime.Runtime :=
  let r := ValidateContract.errs c rt
  (ValidationErrors.AsError r.1, r.2)

end stateful

end contract

end Autobots

/-! ## Library facts -/

namespace Autobots

theorem dropWhile_forall {α : Type} (p : α → Bool) (l : List α) :
    (∀ x ∈ l.dropWhile p, p x = true) ↔ ∀ x ∈ l, p x = true := by
  induction l with
  | nil => simp
  | cons a t ih =>
    by_cases h : p a = true
    · simp [List.dropWhile_cons, h, ih]
    · simp [List.dropWhile_cons, h]

/-- A string trims to the empty string exactly when all its code points are
white space. -/
theorem TrimSpace_eq_empty_iff (s : String) :
    strings.TrimSpace s = "" ↔ ∀ r ∈ s.data, unicode.IsSpace r = true := by
  unfold strings.TrimSpace
  rw [String.ext_iff]
  show ((s.data.dropWhile unicode.IsSpace).reverse.dropWhile unicode.IsSpace).reverse = [] ↔ _
  simp only [List.reverse_eq_nil_iff, List.dropWhile_eq_nil_iff, List.mem_reverse]
  exact dropWhile_forall _ _

theorem HasPrefix_append (a b p : String) (h : strings.HasPrefix a p = true) :
    strings.HasPrefix (a ++ b) p = true := by
  unfold strings.HasPrefix at *
  rw [List.isPrefixOf_iff_prefix] at *
  rw [String.data_append]
  exact h.trans (List.prefix_append _ _)

/-- A string that starts with a slash is not blank. -/
theorem TrimSpace_ne_empty_of_slash (s : String) (h : strings.HasPrefix s "/" = true) :
    strings.TrimSpace s ≠ "" := by
  intro hb
  rw [TrimSpace_eq_empty_iff] at hb
  unfold strings.HasPrefix at h
  rw [List.isPrefixOf_iff_prefix] at h
  obtain ⟨t, ht⟩ := h
  have hm : '/' ∈ s.data := by rw [← ht]; simp
  have := hb _ hm
  revert this
  decide

theorem ContainsAny_space_tab_newline (s : String) :
    strings.ContainsAny s " \t\n" = true ↔
      ∃ r ∈ s.data, r = ' ' ∨ r = '\t' ∨ r = '\n' := by
  unfold strings.ContainsAny
  simp [List.any_eq_true]

/-! ## Every rule group only appends to the collector -/

namespace contract

theorem collector_step {σ : Type} (f : ValidationErrors → σ × ValidationErrors)
    (h : ∀ errs, f errs = ((f []).1, errs ++ (f []).2))
    (errs E1 E2 : ValidationErrors) (hE : E1 = errs ++ E2) :
    f E1 = ((f E2).1, errs ++ (f E2).2) := by
  rw [h E1, h E2, hE]
  simp [List.append_assoc]

theorem collector_step_list (f : ValidationErrors → ValidationErrors)
    (h : ∀ errs, f errs = errs ++ f [])
    (errs E1 E2 : ValidationErrors) (hE : E1 = errs ++ E2) :
    f E1 = errs ++ f E2 := by
  rw [h E1, h E2, hE]
  simp [List.append_assoc]

theorem validateTopLevel_append (c : Contract) (errs : ValidationErrors) :
    validateTopLevel c errs = errs ++ validateTopLevel c [] := by
  unfold validateTopLevel ValidationErrors.Add
  split_ifs <;> simp

theorem validateParties_append (spec : ContractSpec) (errs : ValidationErrors) :
    validateParties spec errs = errs ++ validateParties spec [] := by
  unfold validateParties ValidationErrors.Add
  split_ifs <;> simp

theorem validateHTTP_append (h : Option HTTPSurface) (errs : ValidationErrors) :
    validateHTTP h errs = errs ++ validateHTTP h [] := by
  unfold validateHTTP ValidationErrors.Add
  rcases h with _ | ⟨m, p, _ | a⟩
  · simp
  · simp only; split_ifs <;> simp
  · simp only; split_ifs <;> simp

theorem validateSurface_append (s : Option ContractSurface) (errs : ValidationErrors) :
    validateSurface s errs = errs ++ validateSurface s [] := by
  unfold validateSurface
  cases s with
  | none => simp [ValidationErrors.Add]
  | some s =>
    simp only
    split_ifs
    · simp [ValidationErrors.Add]
    · exact validateHTTP_append _ _
    · simp [ValidationErrors.Add]

theorem validateAssertions_loop_append (l : List Assertion) :
    ∀ (i : Nat) (ids : AssertionIDSet) (errs : ValidationErrors),
      validateAssertions.loop l i ids errs =
        ((validateAssertions.loop l i ids []).1,
          errs ++ (validateAssertions.loop l i ids []).2) := by
  induction l with
  | nil => intro i ids errs; simp [validateAssertions.loop]
  | cons a rest ih =>
    intro i ids errs
    simp only [validateAssertions.loop, ValidationErrors.Add]
    split_ifs <;> (try dsimp only) <;>
      refine collector_step (fun e => validateAssertions.loop rest (i + 1) _ e)
        (ih _ _) errs _ _ ?_ <;> simp

theorem validateAssertions_append (l : List Assertion) (errs : ValidationErrors) :
    validateAssertions l errs =
      ((validateAssertions l []).1, errs ++ (validateAssertions l []).2) := by
  unfold validateAssertions
  split_ifs
  · simp [ValidationErrors.Add]
  · exact validateAssertions_loop_append _ _ _ _

theorem validateBindings_covers_append2 (pfx : String) (ids : AssertionIDSet)
    (l : List String) :
    ∀ (j : Nat) (a b : ValidationErrors),
      validateBindings.covers pfx ids l j (a ++ b) =
        a ++ validateBindings.covers pfx ids l j b := by
  induction l with
  | nil => intro j a b; simp [validateBindings.covers]
  | cons x rest ih =>
    intro j a b
    simp only [validateBindings.covers, ValidationErrors.Addf]
    split_ifs <;> simp [List.append_assoc, ih]

theorem validateBindings_covers_append (pfx : String) (ids : AssertionIDSet)
    (l : List String) (j : Nat) (errs : ValidationErrors) :
    validateBindings.covers pfx ids l j errs =
      errs ++ validateBindings.covers pfx ids l j [] := by
  have := validateBindings_covers_append2 pfx ids l j errs []
  simpa using this

theorem validateBindings_loop_append2 (ids : AssertionIDSet) (l : List TestBinding) :
    ∀ (i : Nat) (testIDs : List String) (a b : ValidationErrors),
      validateBindings.loop ids l i testIDs (a ++ b) =
        a ++ validateBindings.loop ids l i testIDs b := by
  induction l with
  | nil => intro i testIDs a b; simp [validateBindings.loop]
  | cons t rest ih =>
    intro i testIDs a b
    simp only [validateBindings.loop, ValidationErrors.Add]
    split_ifs <;>
      simp [List.append_assoc, ih, validateBindings_covers_append2]

theorem validateBindings_loop_append (ids : AssertionIDSet) (l : List TestBinding)
    (i : Nat) (testIDs : List String) (errs : ValidationErrors) :
    validateBindings.loop ids l i testIDs errs =
      errs ++ validateBindings.loop ids l i testIDs [] := by
  have := validateBindings_loop_append2 ids l i testIDs errs []
  simpa using this

theorem validateBindings_append (b : Option ContractBindings) (ids : AssertionIDSet)
    (errs : ValidationErrors) :
    validateBindings b ids errs = errs ++ validateBindings b ids [] := by
  unfold validateBindings
  cases b with
  | none => simp [ValidationErrors.Add]
  | some b =>
    simp only
    split_ifs
    · simp [ValidationErrors.Add]
    · exact validateBindings_loop_append _ _ _ _ _

/-- The findings of a non-nil contract are the findings of the five rule
groups, each run on an empty collector, one after the other. -/
theorem errs_some (c : Contract) :
    ValidateContract.errs (some c) =
      validateTopLevel c [] ++ validateParties c.Spec [] ++
        validateSurface (some c.Spec.Surface) [] ++
        (validateAssertions c.Spec.Assertions []).2 ++
        validateBindings (some c.Spec.Bindings)
          (validateAssertions c.Spec.Assertions []).1 [] := by
  simp only [ValidateContract.errs, validateSpec]
  rw [validateBindings_append, validateAssertions_append, validateSurface_append,
    validateParties_append]

theorem AsError_eq_none_iff (ve : ValidationErrors) :
    ValidationErrors.AsError ve = none ↔ ve = [] := by
  unfold ValidationErrors.AsError
  cases ve <;> simp

/-! ## When a rule group reports nothing -/

theorem validateTopLevel_eq_nil_iff (c : Contract) :
    validateTopLevel c [] = [] ↔ strings.TrimSpace c.APIVersion ≠ "" ∧ c.Kind = "Contract" := by
  rcases c with ⟨av, k, md, sp⟩
  unfold validateTopLevel ValidationErrors.Add
  by_cases h1 : strings.TrimSpace av = ""
  · simp only [h1, if_true]
    split_ifs <;> simp
  · by_cases h3 : k = "Contract"
    · subst h3
      have hb : strings.TrimSpace "Contract" ≠ "" := by decide
      simp [h1, hb]
    · by_cases h2 : strings.TrimSpace k = "" <;> simp [h1, h2, h3]

theorem validateParties_eq_nil_iff (spec : ContractSpec) :
    validateParties spec [] = [] ↔
      strings.TrimSpace spec.Consumer.Component ≠ "" ∧
        strings.TrimSpace spec.Provider.Component ≠ "" := by
  unfold validateParties ValidationErrors.Add
  by_cases h1 : strings.TrimSpace spec.Consumer.Component = "" <;>
    by_cases h2 : strings.TrimSpace spec.Provider.Component = "" <;> simp [h1, h2]

theorem validateHTTP_eq_nil_iff (h : HTTPSurface) :
    validateHTTP (some h) [] = [] ↔
      strings.TrimSpace h.Method ≠ "" ∧ strings.HasPrefix h.Path "/" = true ∧
        ∀ a, h.Auth = some a → strings.ContainsAny a.Scheme " \t\n" = false := by
  rcases h with ⟨m, p, auth⟩
  unfold validateHTTP ValidationErrors.Add
  by_cases h1 : strings.TrimSpace m = ""
  · simp only [h1, if_true]
    rcases auth with _ | a <;> simp only <;> split_ifs <;> simp
  · by_cases h3 : strings.HasPrefix p "/" = true
    · have h2 := TrimSpace_ne_empty_of_slash p h3
      rcases auth with _ | a
      · simp [h1, h2, h3]
      · by_cases h4 : strings.ContainsAny a.Scheme " \t\n" = true <;>
          simp [h1, h2, h3, h4]
    · by_cases h2 : strings.TrimSpace p = ""
      · rcases auth with _ | a <;> simp only [h1, h2, if_true, if_false] <;>
          (try split_ifs) <;> simp [h3]
      · have h3f : strings.HasPrefix p "/" = false := by simpa using h3
        rcases auth with _ | a <;> simp only [h1, h2, h3f, if_true, if_false] <;>
          (try split_ifs) <;> simp_all

theorem validateSurface_eq_nil_iff (s : ContractSurface) :
    validateSurface (some s) [] = [] ↔
      s.Kind = "http" ∧ ∃ h, s.HTTP = some h ∧ validateHTTP (some h) [] = [] := by
  rcases s with ⟨k, http⟩
  unfold validateSurface
  by_cases hk : k = "http"
  · subst hk
    have hb : strings.TrimSpace "http" ≠ "" := by decide
    simp only [hb, if_true, if_false, true_and]
    rcases http with _ | h
    · simp [validateHTTP, ValidationErrors.Add]
    · simp
  · simp only [hk, if_false, false_and, iff_false]
    split_ifs <;> simp [ValidationErrors.Add]

/-- The id set that the assertion loop returns: the incoming ids together with
the non-blank ids of the assertions. -/
theorem validateAssertions_loop_ids (l : List Assertion) :
    ∀ (i : Nat) (ids : AssertionIDSet) (errs : ValidationErrors) (x : String),
      x ∈ (validateAssertions.loop l i ids errs).1 ↔
        x ∈ ids ∨ ∃ a ∈ l, strings.TrimSpace a.ID ≠ "" ∧ a.ID = x := by
  induction l with
  | nil => intro i ids errs x; simp [validateAssertions.loop]
  | cons a rest ih =>
    intro i ids errs x
    simp only [validateAssertions.loop]
    by_cases hb : strings.TrimSpace a.ID = ""
    · simp only [hb, if_true, ih, List.mem_cons, exists_eq_or_imp, ne_eq, not_true_eq_false,
        false_and, false_or]
    · by_cases hm : a.ID ∈ ids
      · simp only [hb, hm, if_true, if_false, ih, List.mem_cons, exists_eq_or_imp, ne_eq,
          not_false_eq_true, true_and]
        constructor
        · rintro (h | h)
          · exact Or.inl h
          · exact Or.inr (Or.inr h)
        · rintro (h | h | h)
          · exact Or.inl h
          · exact Or.inl (h ▸ hm)
          · exact Or.inr h
      · simp only [hb, hm, if_false, ih, List.mem_cons, exists_eq_or_imp, ne_eq,
          not_false_eq_true, true_and]
        constructor
        · rintro ((h | h) | h)
          · exact Or.inr (Or.inl h.symm)
          · exact Or.inl h
          · exact Or.inr (Or.inr h)
        · rintro (h | h | h)
          · exact Or.inl (Or.inr h)
          · exact Or.inl (Or.inl h.symm)
          · exact Or.inr h

theorem validateAssertions_loop_snd_ne_nil (l : List Assertion) (i : Nat)
    (ids : AssertionIDSet) (errs : ValidationErrors) (h : errs ≠ []) :
    (validateAssertions.loop l i ids errs).2 ≠ [] := by
  rw [validateAssertions_loop_append]
  simp [h]

/-- The assertion loop reports nothing exactly when every id and text is
non-blank and the ids are distinct from each other and from the incoming
ids. -/
theorem validateAssertions_loop_eq_nil_iff (l : List Assertion) :
    ∀ (i : Nat) (ids : AssertionIDSet),
      (validateAssertions.loop l i ids []).2 = [] ↔
        (∀ a ∈ l, strings.TrimSpace a.ID ≠ "" ∧ strings.TrimSpace a.Text ≠ "") ∧
          (l.map (fun a => a.ID)).Nodup ∧ ∀ a ∈ l, a.ID ∉ ids := by
  induction l with
  | nil => intro i ids; simp [validateAssertions.loop]
  | cons a rest ih =>
    intro i ids
    simp only [validateAssertions.loop, ValidationErrors.Add]
    by_cases hb : strings.TrimSpace a.ID = ""
    · simp only [hb, if_true]
      constructor
      · intro h
        exact absurd h (validateAssertions_loop_snd_ne_nil _ _ _ _ (by simp))
      · intro h
        exact absurd hb (h.1 a (List.mem_cons_self _ _)).1
    · by_cases hm : a.ID ∈ ids
      · simp only [hb, hm, if_true, if_false]
        constructor
        · intro h
          refine absurd h (validateAssertions_loop_snd_ne_nil _ _ _ _ ?_)
          split_ifs <;> simp
        · intro h
          exact absurd hm (h.2.2 a (List.mem_cons_self _ _))
      · by_cases ht : strings.TrimSpace a.Text = ""
        · simp only [hb, hm, ht, if_true, if_false]
          constructor
          · intro h
            exact absurd h (validateAssertions_loop_snd_ne_nil _ _ _ _ (by simp))
          · intro h
            exact absurd ht (h.1 a (List.mem_cons_self _ _)).2
        · simp only [hb, hm, ht, if_false, ih, List.mem_cons, List.map_cons,
            List.nodup_cons, List.mem_map, forall_eq_or_imp, not_or]
          constructor
          · rintro ⟨h1, h2, h3⟩
            refine ⟨⟨⟨hb, ht⟩, h1⟩, ⟨?_, h2⟩, not_false, fun b hbm => (h3 b hbm).2⟩
            rintro ⟨b, hbm, hbe⟩
            exact (h3 b hbm).1 hbe
          · rintro ⟨⟨_, h1⟩, ⟨h4, h2⟩, _, h3⟩
            refine ⟨h1, h2, fun b hbm => ⟨?_, h3 b hbm⟩⟩
            intro hbe
            exact h4 ⟨b, hbm, hbe⟩

theorem validateAssertions_eq_nil_iff (l : List Assertion) :
    (validateAssertions l []).2 = [] ↔
      l ≠ [] ∧ (∀ a ∈ l, strings.TrimSpace a.ID ≠ "" ∧ strings.TrimSpace a.Text ≠ "") ∧
        (l.map (fun a => a.ID)).Nodup := by
  unfold validateAssertions
  cases l with
  | nil => simp [ValidationErrors.Add]
  | cons a rest =>
    simp only [List.length_cons, Nat.add_one_ne_zero, if_false,
      validateAssertions_loop_eq_nil_iff, List.not_mem_nil, not_false_eq_true, implies_true,
      and_true, ne_eq, reduceCtorEq, true_and]

/-- The id set handed to the bindings group: the non-blank assertion ids. -/
theorem validateAssertions_ids (l : List Assertion) (errs : ValidationErrors) (x : String) :
    x ∈ (validateAssertions l errs).1 ↔ ∃ a ∈ l, strings.TrimSpace a.ID ≠ "" ∧ a.ID = x := by
  unfold validateAssertions
  cases l with
  | nil => simp
  | cons a rest =>
    simp only [List.length_cons, Nat.add_one_ne_zero, if_false, validateAssertions_loop_ids,
      List.not_mem_nil, false_or]

theorem validateBindings_covers_ne_nil (pfx : String) (ids : AssertionIDSet)
    (l : List String) (j : Nat) (errs : ValidationErrors) (h : errs ≠ []) :
    validateBindings.covers pfx ids l j errs ≠ [] := by
  rw [validateBindings_covers_append]
  simp [h]

theorem validateBindings_loop_ne_nil (ids : AssertionIDSet) (l : List TestBinding)
    (i : Nat) (testIDs : List String) (errs : ValidationErrors) (h : errs ≠ []) :
    validateBindings.loop ids l i testIDs errs ≠ [] := by
  rw [validateBindings_loop_append]
  simp [h]

theorem validateBindings_covers_eq_nil_iff (pfx : String) (ids : AssertionIDSet)
    (l : List String) :
    ∀ j : Nat, validateBindings.covers pfx ids l j [] = [] ↔ ∀ x ∈ l, x ∈ ids := by
  induction l with
  | nil => intro j; simp [validateBindings.covers]
  | cons x rest ih =>
    intro j
    simp only [validateBindings.covers, ValidationErrors.Addf]
    by_cases hx : x ∈ ids
    · simp [hx, ih]
    · simp only [hx, not_false_eq_true, if_true, List.mem_cons, forall_eq_or_imp, false_and,
        iff_false]
      exact validateBindings_covers_ne_nil _ _ _ _ _ (by simp)

/-- The binding loop reports nothing exactly when every binding passes its
five checks and the ids are distinct from each other and from the incoming
ids. -/
theorem validateBindings_loop_eq_nil_iff (ids : AssertionIDSet) (l : List TestBinding) :
    ∀ (i : Nat) (testIDs : List String),
      validateBindings.loop ids l i testIDs [] = [] ↔
        (∀ t ∈ l, strings.TrimSpace t.ID ≠ "" ∧ (t.Kind = "postman" ∨ t.Kind = "sql") ∧
            strings.TrimSpace t.Path ≠ "" ∧ (∀ x ∈ t.Covers, x ∈ ids) ∧
            (t.Required = true → t.Covers ≠ [])) ∧
          (l.map (fun t => t.ID)).Nodup ∧ ∀ t ∈ l, t.ID ∉ testIDs := by
  induction l with
  | nil => intro i testIDs; simp [validateBindings.loop]
  | cons t rest ih =>
    intro i testIDs
    have hmem : t ∈ t :: rest := List.mem_cons_self _ _
    simp only [validateBindings.loop, ValidationErrors.Add]
    by_cases hb : strings.TrimSpace t.ID = ""
    · constructor
      · intro h
        refine absurd h (validateBindings_loop_ne_nil _ _ _ _ _ ?_)
        simp only [hb, if_true]
        split_ifs <;>
          first
            | (simp; done)
            | exact validateBindings_covers_ne_nil _ _ _ _ _ (by simp)
      · intro h
        exact absurd hb (h.1 t hmem).1
    · by_cases hm : t.ID ∈ testIDs
      · constructor
        · intro h
          refine absurd h (validateBindings_loop_ne_nil _ _ _ _ _ ?_)
          simp only [hb, hm, if_true, if_false]
          split_ifs <;>
            first
              | (simp; done)
              | exact validateBindings_covers_ne_nil _ _ _ _ _ (by simp)
        · intro h
          exact absurd hm (h.2.2 t hmem)
      · by_cases hk : t.Kind = "postman" ∨ t.Kind = "sql"
        · have hkb : strings.TrimSpace t.Kind ≠ "" := by
            rcases hk with hk | hk <;> rw [hk] <;> decide
          by_cases hp : strings.TrimSpace t.Path = ""
          · constructor
            · intro h
              refine absurd h (validateBindings_loop_ne_nil _ _ _ _ _ ?_)
              simp only [hb, hm, hkb, hk, hp, if_true, if_false]
              split_ifs <;>
                first
                  | (simp; done)
                  | exact validateBindings_covers_ne_nil _ _ _ _ _ (by simp)
            · intro h
              exact absurd hp (h.1 t hmem).2.2.1
          · simp only [hb, hm, hkb, hk, hp, if_true, if_false]
            rw [validateBindings_loop_append, List.append_eq_nil, ih]
            simp only [List.mem_cons, List.map_cons, List.nodup_cons, List.mem_map,
              forall_eq_or_imp, not_or]
            have hE : (if t.Required = true ∧ t.Covers.length = 0 then
                  validateBindings.covers ("spec.bindings.tests[" ++ toString i ++ "]") ids
                    t.Covers 0 [] ++
                    [{ Path := "spec.bindings.tests[" ++ toString i ++ "]" ++ ".covers",
                       Msg := "required tests should cover at least one assertion" }]
                else
                  validateBindings.covers ("spec.bindings.tests[" ++ toString i ++ "]") ids
                    t.Covers 0 []) = [] ↔
                (∀ x ∈ t.Covers, x ∈ ids) ∧ (t.Required = true → t.Covers ≠ []) := by
              by_cases hr : t.Required = true ∧ t.Covers.length = 0
              · rw [if_pos hr]
                constructor
                · intro h
                  simp at h
                · rintro ⟨_, h⟩
                  exact absurd (List.length_eq_zero.mp hr.2) (h hr.1)
              · rw [if_neg hr, validateBindings_covers_eq_nil_iff]
                constructor
                · intro h
                  exact ⟨h, fun h1 h2 => hr ⟨h1, by simp [h2]⟩⟩
                · exact fun h => h.1
            rw [hE]
            constructor
            · rintro ⟨hc, h1, h2, h3⟩
              refine ⟨⟨⟨hb, hk, hp, hc⟩, h1⟩, ⟨?_, h2⟩, hm, fun b hbm => (h3 b hbm).2⟩
              rintro ⟨b, hbm, hbe⟩
              exact (h3 b hbm).1 hbe
            · rintro ⟨⟨⟨_, _, _, hc⟩, h1⟩, ⟨h4, h2⟩, _, h3⟩
              refine ⟨hc, h1, h2, fun b hbm => ⟨?_, h3 b hbm⟩⟩
              intro hbe
              exact h4 ⟨b, hbm, hbe⟩
        · constructor
          · intro h
            refine absurd h (validateBindings_loop_ne_nil _ _ _ _ _ ?_)
            simp only [hb, hm, hk, if_true, if_false]
            split_ifs <;>
              first
                | (simp; done)
                | exact validateBindings_covers_ne_nil _ _ _ _ _ (by simp)
          · intro h
            exact absurd (h.1 t hmem).2.1 hk

theorem validateBindings_eq_nil_iff (b : ContractBindings) (ids : AssertionIDSet) :
    validateBindings (some b) ids [] = [] ↔
      b.Tests ≠ [] ∧
        (∀ t ∈ b.Tests, strings.TrimSpace t.ID ≠ "" ∧ (t.Kind = "postman" ∨ t.Kind = "sql") ∧
            strings.TrimSpace t.Path ≠ "" ∧ (∀ x ∈ t.Covers, x ∈ ids) ∧
            (t.Required = true → t.Covers ≠ [])) ∧
          (b.Tests.map (fun t => t.ID)).Nodup := by
  rcases b with ⟨tests⟩
  unfold validateBindings
  cases tests with
  | nil => simp [ValidationErrors.Add]
  | cons t rest =>
    simp only [List.length_cons, Nat.add_one_ne_zero, if_false,
      validateBindings_loop_eq_nil_iff, List.not_mem_nil, not_false_eq_true, implies_true,
      and_true, ne_eq, reduceCtorEq, true_and]

/-! ## Where the findings of each rule group live -/

theorem HasPrefix_comparable (s p q : String) (hp : strings.HasPrefix s p = true)
    (hq : strings.HasPrefix s q = true) :
    strings.HasPrefix p q = true ∨ strings.HasPrefix q p = true := by
  unfold strings.HasPrefix at *
  simp only [List.isPrefixOf_iff_prefix] at *
  exact (List.prefix_or_prefix_of_prefix hp hq).symm

theorem validateTopLevel_paths (c : Contract) :
    ∀ e ∈ validateTopLevel c [], e.Path = "apiVersion" ∨ e.Path = "kind" := by
  unfold validateTopLevel ValidationErrors.Add
  split_ifs <;> decide

theorem validateParties_paths (spec : ContractSpec) :
    ∀ e ∈ validateParties spec [],
      e.Path = "spec.consumer.component" ∨ e.Path = "spec.provider.component" := by
  unfold validateParties ValidationErrors.Add
  split_ifs <;> decide

theorem validateHTTP_paths (h : Option HTTPSurface) :
    ∀ e ∈ validateHTTP h [], strings.HasPrefix e.Path "spec.surface.http" = true := by
  unfold validateHTTP ValidationErrors.Add
  rcases h with _ | ⟨m, p, _ | a⟩
  · decide
  · simp only
    split_ifs <;> decide
  · simp only
    split_ifs <;> decide

theorem validateSurface_paths (s : Option ContractSurface) :
    ∀ e ∈ validateSurface s [], strings.HasPrefix e.Path "spec.surface" = true := by
  unfold validateSurface
  rcases s with _ | s
  · decide
  · simp only [ValidationErrors.Add]
    split_ifs
    · decide
    · intro e he
      have := validateHTTP_paths _ e he
      unfold strings.HasPrefix at *
      rw [List.isPrefixOf_iff_prefix] at *
      exact List.IsPrefix.trans (by decide) this
    · decide

theorem validateAssertions_loop_paths (l : List Assertion) :
    ∀ (i : Nat) (ids : AssertionIDSet) (errs : ValidationErrors),
      ∀ e ∈ (validateAssertions.loop l i ids errs).2,
        e ∈ errs ∨ strings.HasPrefix e.Path "spec.assertions" = true := by
  induction l with
  | nil => intro i ids errs e he; exact Or.inl he
  | cons a rest ih =>
    intro i ids errs e he
    simp only [validateAssertions.loop, ValidationErrors.Add] at he
    split_ifs at he <;> rcases ih _ _ _ e he with h | h <;>
      first
        | exact Or.inr h
        | exact Or.inl h
        | (simp only [List.mem_append, List.mem_singleton] at h
           rcases h with (h | h) | h <;>
             first
               | exact Or.inl h
               | (subst h; right; simp [strings.HasPrefix, List.isPrefixOf]))
        | (simp only [List.mem_append, List.mem_singleton] at h
           rcases h with h | h <;>
             first
               | exact Or.inl h
               | (subst h; right; simp [strings.HasPrefix, List.isPrefixOf]))

theorem validateAssertions_paths (l : List Assertion) :
    ∀ e ∈ (validateAssertions l []).2, strings.HasPrefix e.Path "spec.assertions" = true := by
  intro e he
  unfold validateAssertions at he
  split_ifs at he
  · simp [ValidationErrors.Add] at he; subst he; decide
  · rcases validateAssertions_loop_paths _ _ _ _ e he with h | h
    · simp at h
    · exact h

theorem validateBindings_covers_paths (sfx : String) (ids : AssertionIDSet)
    (l : List String) :
    ∀ (j : Nat) (errs : ValidationErrors),
      ∀ e ∈ validateBindings.covers ("spec.bindings.tests[" ++ sfx) ids l j errs,
        e ∈ errs ∨ strings.HasPrefix e.Path "spec.bindings" = true := by
  induction l with
  | nil => intro j errs e he; exact Or.inl he
  | cons x rest ih =>
    intro j errs e he
    simp only [validateBindings.covers, ValidationErrors.Addf] at he
    split_ifs at he <;> rcases ih _ _ e he with h | h <;>
      first
        | exact Or.inr h
        | exact Or.inl h
        | (simp only [List.mem_append, List.mem_singleton] at h
           rcases h with h | h <;>
             first
               | exact Or.inl h
               | (subst h; right; simp [strings.HasPrefix, List.isPrefixOf]))

theorem bindings_paths_add (errs E : ValidationErrors) (x : ValidationError)
    (hE : ∀ e ∈ E, e ∈ errs ∨ strings.HasPrefix e.Path "spec.bindings" = true)
    (hx : strings.HasPrefix x.Path "spec.bindings" = true) :
    ∀ e ∈ E ++ [x], e ∈ errs ∨ strings.HasPrefix e.Path "spec.bindings" = true := by
  intro e he
  rcases List.mem_append.mp he with h | h
  · exact hE e h
  · rw [List.mem_singleton] at h
    subst h
    exact Or.inr hx

theorem bindings_paths_covers (sfx : String) (ids : AssertionIDSet) (l : List String)
    (j : Nat) (errs E : ValidationErrors)
    (hE : ∀ e ∈ E, e ∈ errs ∨ strings.HasPrefix e.Path "spec.bindings" = true) :
    ∀ e ∈ validateBindings.covers ("spec.bindings.tests[" ++ sfx) ids l j E,
      e ∈ errs ∨ strings.HasPrefix e.Path "spec.bindings" = true := by
  intro e he
  rcases validateBindings_covers_paths sfx ids l j E e he with h | h
  · exact hE e h
  · exact Or.inr h

theorem validateBindings_loop_paths (ids : AssertionIDSet) (l : List TestBinding) :
    ∀ (i : Nat) (testIDs : List String) (errs E : ValidationErrors),
      (∀ e ∈ E, e ∈ errs ∨ strings.HasPrefix e.Path "spec.bindings" = true) →
      ∀ e ∈ validateBindings.loop ids l i testIDs E,
        e ∈ errs ∨ strings.HasPrefix e.Path "spec.bindings" = true := by
  induction l with
  | nil => intro i testIDs errs E hE; exact hE
  | cons t rest ih =>
    intro i testIDs errs E hE
    simp only [validateBindings.loop, ValidationErrors.Add, String.append_assoc]
    split_ifs <;> apply ih <;>
      repeat'
        first
          | exact hE
          | apply bindings_paths_covers
          | apply bindings_paths_add
          | simp [strings.HasPrefix, List.isPrefixOf]

theorem validateBindings_paths (b : Option ContractBindings) (ids : AssertionIDSet) :
    ∀ e ∈ validateBindings b ids [], strings.HasPrefix e.Path "spec.bindings" = true := by
  unfold validateBindings
  rcases b with _ | b
  · simp only [ValidationErrors.Add]
    decide
  · simp only [ValidationErrors.Add]
    split_ifs
    · decide
    · intro e he
      rcases validateBindings_loop_paths ids _ 0 [] [] [] (by simp) e he with h | h
      · simp at h
      · exact h

theorem filter_eq_nil_of_forall (l : ValidationErrors) (P : ValidationError → Bool)
    (h : ∀ e ∈ l, P e = false) : l.filter P = [] := by
  rw [List.filter_eq_nil_iff]
  intro e he
  simp [h e he]

theorem filter_eq_self_of_forall (l : ValidationErrors) (P : ValidationError → Bool)
    (h : ∀ e ∈ l, P e = true) : l.filter P = l :=
  List.filter_eq_self.mpr h

/-- A path below one literal root is not below a root that is incomparable
with it. -/
theorem HasPrefix_false_of_root (s p q : String) (hp : strings.HasPrefix s p = true)
    (h1 : strings.HasPrefix p q = false) (h2 : strings.HasPrefix q p = false) :
    strings.HasPrefix s q = false := by
  cases hq : strings.HasPrefix s q with
  | false => rfl
  | true =>
    rcases HasPrefix_comparable s p q hp hq with h | h
    · rw [h1] at h; exact Bool.noConfusion h
    · rw [h2] at h; exact Bool.noConfusion h

/-- Within the findings of a contract, the findings below `spec.surface` are
those of the surface rule group. -/
theorem errs_filter_surface (c : Contract) :
    (ValidateContract.errs (some c)).filter
        (fun e => strings.HasPrefix e.Path "spec.surface") =
      validateSurface (some c.Spec.Surface) [] := by
  rw [errs_some]
  simp only [List.filter_append]
  rw [filter_eq_nil_of_forall (validateTopLevel c []),
    filter_eq_nil_of_forall (validateParties c.Spec []),
    filter_eq_self_of_forall (validateSurface (some c.Spec.Surface) []),
    filter_eq_nil_of_forall (validateAssertions c.Spec.Assertions []).2,
    filter_eq_nil_of_forall (validateBindings _ _ [])]
  · simp
  · intro e he
    exact HasPrefix_false_of_root _ _ _ (validateBindings_paths _ _ e he) (by decide)
      (by decide)
  · intro e he
    exact HasPrefix_false_of_root _ _ _ (validateAssertions_paths _ e he) (by decide)
      (by decide)
  · exact validateSurface_paths _
  · intro e he
    rcases validateParties_paths _ e he with h | h <;> rw [h] <;> decide
  · intro e he
    rcases validateTopLevel_paths _ e he with h | h <;> rw [h] <;> decide

/-- Within the findings of a contract, the findings at `apiVersion` or `kind`
are those of the top-level rule group. -/
theorem errs_filter_path_top (c : Contract) (p : String)
    (hp : p = "apiVersion" ∨ p = "kind") :
    (ValidateContract.errs (some c)).filter (fun e => e.Path = p) =
      (validateTopLevel c []).filter (fun e => e.Path = p) := by
  rw [errs_some]
  simp only [List.filter_append]
  rw [filter_eq_nil_of_forall (validateParties c.Spec []),
    filter_eq_nil_of_forall (validateSurface (some c.Spec.Surface) []),
    filter_eq_nil_of_forall (validateAssertions c.Spec.Assertions []).2,
    filter_eq_nil_of_forall (validateBindings _ _ [])]
  · simp
  · intro e he
    have := validateBindings_paths _ _ e he
    rw [decide_eq_false_iff_not]
    intro h
    rw [h] at this
    rcases hp with hp | hp <;> rw [hp] at this <;> revert this <;> decide
  · intro e he
    have := validateAssertions_paths _ e he
    rw [decide_eq_false_iff_not]
    intro h
    rw [h] at this
    rcases hp with hp | hp <;> rw [hp] at this <;> revert this <;> decide
  · intro e he
    have := validateSurface_paths _ e he
    rw [decide_eq_false_iff_not]
    intro h
    rw [h] at this
    rcases hp with hp | hp <;> rw [hp] at this <;> revert this <;> decide
  · intro e he
    rw [decide_eq_false_iff_not]
    intro h
    rcases validateParties_paths _ e he with h2 | h2 <;> rw [h] at h2 <;>
      rcases hp with hp | hp <;> rw [hp] at h2 <;> revert h2 <;> decide

theorem TrimSpace_eq_empty_iff_Blank (s : String) :
    strings.TrimSpace s = "" ↔ Blank s = true := by
  rw [TrimSpace_eq_empty_iff, Blank, List.all_eq_true]

theorem TrimSpace_Contract : ¬ strings.TrimSpace "Contract" = "" := by decide

theorem mem_validateTopLevel_apiVersion (c : Contract) :
    { Path := "apiVersion", Msg := "required" } ∈ validateTopLevel c [] ↔
      strings.TrimSpace c.APIVersion = "" := by
  unfold validateTopLevel ValidationErrors.Add
  by_cases h1 : strings.TrimSpace c.APIVersion = "" <;>
    by_cases h2 : strings.TrimSpace c.Kind = "" <;>
    by_cases h3 : c.Kind = "Contract" <;> simp [h1, h2, h3, TrimSpace_Contract]

theorem filter_kind_validateTopLevel (c : Contract) :
    (validateTopLevel c []).filter (fun e => e.Path = "kind") =
      if strings.TrimSpace c.Kind = "" then [{ Path := "kind", Msg := "required" }]
      else if c.Kind ≠ "Contract" then [{ Path := "kind", Msg := "must be 'Contract'" }]
      else [] := by
  unfold validateTopLevel ValidationErrors.Add
  by_cases h1 : strings.TrimSpace c.APIVersion = "" <;>
    by_cases h2 : strings.TrimSpace c.Kind = "" <;>
    by_cases h3 : c.Kind = "Contract" <;> simp [h1, h2, h3, List.filter, TrimSpace_Contract]

theorem HasPrefix_trans (s p q : String) (hp : strings.HasPrefix s p = true)
    (hq : strings.HasPrefix p q = true) : strings.HasPrefix s q = true := by
  unfold strings.HasPrefix at *
  rw [List.isPrefixOf_iff_prefix] at *
  exact hq.trans hp

/-- A finding at one of the two party paths can only come from the party rule
group. -/
theorem mem_errs_parties (c : Contract) (e : ValidationError)
    (he : e.Path = "spec.consumer.component" ∨ e.Path = "spec.provider.component") :
    e ∈ ValidateContract.errs (some c) ↔ e ∈ validateParties c.Spec [] := by
  rw [errs_some]
  simp only [List.mem_append]
  constructor
  · rintro ((((h | h) | h) | h) | h)
    · exfalso
      rcases validateTopLevel_paths _ e h with h2 | h2 <;> rw [h2] at he <;>
        revert he <;> decide
    · exact h
    · exfalso
      have := validateSurface_paths _ e h
      rcases he with he | he <;> rw [he] at this <;> revert this <;> decide
    · exfalso
      have := validateAssertions_paths _ e h
      rcases he with he | he <;> rw [he] at this <;> revert this <;> decide
    · exfalso
      have := validateBindings_paths _ _ e h
      rcases he with he | he <;> rw [he] at this <;> revert this <;> decide
  · intro h
    exact Or.inl (Or.inl (Or.inl (Or.inr h)))

/-- When the surface group reports a single finding that is not below
`spec.surface.http`, the contract has no finding below `spec.surface.http`. -/
theorem no_http_findings (c : Contract) (f : ValidationError)
    (hf : validateSurface (some c.Spec.Surface) [] = [f])
    (hp : strings.HasPrefix f.Path "spec.surface.http" = false) :
    ∀ e ∈ ValidateContract.errs (some c),
      strings.HasPrefix e.Path "spec.surface.http" = false := by
  intro e he
  cases hq : strings.HasPrefix e.Path "spec.surface.http" with
  | false => rfl
  | true =>
    have h1 : strings.HasPrefix e.Path "spec.surface" = true :=
      HasPrefix_trans _ _ _ hq (by decide)
    have h2 : e ∈ (ValidateContract.errs (some c)).filter
        (fun e => strings.HasPrefix e.Path "spec.surface") :=
      List.mem_filter.mpr ⟨he, h1⟩
    rw [errs_filter_surface, hf, List.mem_singleton] at h2
    rw [h2, hp] at hq
    exact Bool.noConfusion hq

theorem TrimSpace_http : ¬ strings.TrimSpace "http" = "" := by decide

/-! ## The claims -/

/-- C1. `ValidateContract` returns no error if and only if the contract is
non-nil and passes every rule of the specification (top level, parties,
surface, assertions, bindings); the concrete scenario of the specification
(web-ui / billing-api / POST /v1/invoices / a1 / t1) is accepted. -/
theorem ValidateContract_ok_iff :
    (∀ c : Option Contract,
      ValidateContract c = none ↔ ∃ c0, c = some c0 ∧ PassesEveryRule c0) ∧
    PassesEveryRule validContract ∧
    ValidateContract (some validContract) = none := by
  refine ⟨?_, by decide, by decide⟩
  intro c
  unfold ValidateContract
  rw [AsError_eq_none_iff]
  rcases c with _ | c
  · simp [ValidateContract.errs, ValidationErrors.Add]
  · simp only [errs_some, List.append_eq_nil, validateTopLevel_eq_nil_iff,
      validateParties_eq_nil_iff, validateSurface_eq_nil_iff, validateHTTP_eq_nil_iff,
      validateAssertions_eq_nil_iff, validateBindings_eq_nil_iff, Option.some.injEq,
      exists_eq_left', PassesEveryRule, List.pairwise_map, List.Nodup, Option.mem_def]
    constructor
    · rintro ⟨⟨⟨⟨⟨h1, h2⟩, h3, h4⟩, h5, h, hh, h6, h7, h8⟩, h9, h10, h11⟩, h12, h13, h14⟩
      refine ⟨h1, h2, h3, h4, h5, ⟨h, hh, h6, h7, ?_⟩, h9, h10, h11, h12, ?_, h14⟩
      · rcases hA : h.Auth with _ | a
        · exact Or.inl rfl
        · refine Or.inr ⟨a, rfl, ?_⟩
          have hc := h8 a hA
          intro r hr
          by_contra hcon
          have : strings.ContainsAny a.Scheme " \t\n" = true := by
            rw [ContainsAny_space_tab_newline]
            refine ⟨r, hr, ?_⟩
            by_contra hne
            exact hcon ⟨fun e => hne (Or.inl e), fun e => hne (Or.inr (Or.inl e)),
              fun e => hne (Or.inr (Or.inr e))⟩
          rw [hc] at this
          exact Bool.noConfusion this
      · intro t ht
        obtain ⟨a1, a2, a3, a4, a5⟩ := h13 t ht
        refine ⟨a1, a2, a3, ?_, a5⟩
        intro x hx
        obtain ⟨a, ha, _, hax⟩ := (validateAssertions_ids _ _ _).mp (a4 x hx)
        exact ⟨a, ha, hax⟩
    · rintro ⟨h1, h2, h3, h4, h5, ⟨h, hh, h6, h7, h8⟩, h9, h10, h11, h12, h13, h14⟩
      refine ⟨⟨⟨⟨⟨h1, h2⟩, h3, h4⟩, h5, h, hh, h6, h7, ?_⟩, h9, h10, h11⟩, h12, ?_, h14⟩
      · intro a hA
        rcases h8 with h8 | ⟨a0, ha0, h8⟩
        · rw [hA] at h8
          exact Option.noConfusion h8
        · rw [hA] at ha0
          cases ha0
          cases hc : strings.ContainsAny a.Scheme " \t\n" with
          | false => rfl
          | true =>
            obtain ⟨r, hr, hor⟩ := (ContainsAny_space_tab_newline _).mp hc
            obtain ⟨n1, n2, n3⟩ := h8 r hr
            rcases hor with e | e | e
            · exact absurd e n1
            · exact absurd e n2
            · exact absurd e n3
      · intro t ht
        obtain ⟨a1, a2, a3, a4, a5⟩ := h13 t ht
        refine ⟨a1, a2, a3, ?_, a5⟩
        intro x hx
        obtain ⟨a, ha, hax⟩ := a4 x hx
        exact (validateAssertions_ids _ _ _).mpr ⟨a, ha, (h10 a ha).1, hax⟩

/-- C2. For a nil contract `ValidateContract` is defined (no crash): the
findings are exactly the single finding with empty path and message
`contract is nil`, no rule group adds anything, and the returned error is
non-nil with that finding rendered as its only bullet. -/
theorem ValidateContract_nil :
    ValidateContract.errs none = [{ Path := "", Msg := "contract is nil" }] ∧
    ValidateContract none ≠ none ∧
    (ValidateContract none).map GoError.Error =
      some "invalid contract: contract validation failed:\n - contract is nil\n" := by
  decide

/-- C3. For every non-nil contract: a blank `apiVersion` puts
(`apiVersion`, `required`) among the findings, a blank `kind` puts
(`kind`, `required`) among them, and in either case an error is returned. -/
theorem blank_top_level_required (c : Contract) :
    (Blank c.APIVersion = true →
      { Path := "apiVersion", Msg := "required" } ∈ ValidateContract.errs (some c)) ∧
    (Blank c.Kind = true →
      { Path := "kind", Msg := "required" } ∈ ValidateContract.errs (some c)) ∧
    (Blank c.APIVersion = true ∨ Blank c.Kind = true → ValidateContract (some c) ≠ none) := by
  have hA : Blank c.APIVersion = true →
      { Path := "apiVersion", Msg := "required" } ∈ ValidateContract.errs (some c) := by
    intro h
    rw [errs_some]
    simp only [List.mem_append]
    exact Or.inl (Or.inl (Or.inl (Or.inl
      ((mem_validateTopLevel_apiVersion c).mpr ((TrimSpace_eq_empty_iff_Blank _).mpr h)))))
  have hK : Blank c.Kind = true →
      { Path := "kind", Msg := "required" } ∈ ValidateContract.errs (some c) := by
    intro h
    have hf := errs_filter_path_top c "kind" (Or.inr rfl)
    rw [filter_kind_validateTopLevel, if_pos ((TrimSpace_eq_empty_iff_Blank _).mpr h)] at hf
    have : { Path := "kind", Msg := "required" } ∈
        (ValidateContract.errs (some c)).filter (fun e => e.Path = "kind") := by
      rw [hf]; exact List.mem_singleton.mpr rfl
    exact (List.mem_filter.mp this).1
  refine ⟨hA, hK, ?_⟩
  intro h hn
  rw [ValidateContract, AsError_eq_none_iff] at hn
  rcases h with h | h
  · have := hA h
    rw [hn] at this
    exact absurd this (List.not_mem_nil _)
  · have := hK h
    rw [hn] at this
    exact absurd this (List.not_mem_nil _)

/-- C3, at the contract of the test `Missing Top-Level Fields`. -/
theorem blank_top_level_required_witness :
    { Path := "apiVersion", Msg := "required" } ∈
        ValidateContract.errs (some { validContract with APIVersion := "", Kind := "" }) ∧
      { Path := "kind", Msg := "required" } ∈
        ValidateContract.errs (some { validContract with APIVersion := "", Kind := "" }) ∧
      ValidateContract (some { validContract with APIVersion := "", Kind := "" }) ≠ none :=
  ⟨(blank_top_level_required { validContract with APIVersion := "", Kind := "" }).1
      (by decide),
    (blank_top_level_required { validContract with APIVersion := "", Kind := "" }).2.1
      (by decide),
    (blank_top_level_required { validContract with APIVersion := "", Kind := "" }).2.2
      (Or.inl (by decide))⟩

/-- C4 as stated fails: the empty string is a kind other than `Contract`, and
its only finding at path `kind` is `required`, not `must be 'Contract'`. -/
theorem kind_other_than_Contract_counterexample :
    ¬ ∀ c : Contract, c.Kind ≠ "Contract" →
      (ValidateContract.errs (some c)).filter (fun e => e.Path = "kind") =
          [{ Path := "kind", Msg := "must be 'Contract'" }] ∧
        { Path := "kind", Msg := "required" } ∉ ValidateContract.errs (some c) := by
  intro h
  have := (h { validContract with Kind := "" } (by decide)).1
  revert this
  decide

/-- C4, amended. For every non-nil contract whose kind is non-blank and
different from `Contract` (case variations such as `contract` included), the
findings at path `kind` are exactly the one finding `must be 'Contract'`, and
there is no `required` finding at path `kind`. -/
theorem kind_other_than_Contract (c : Contract) (hb : strings.TrimSpace c.Kind ≠ "")
    (hk : c.Kind ≠ "Contract") :
    (ValidateContract.errs (some c)).filter (fun e => e.Path = "kind") =
        [{ Path := "kind", Msg := "must be 'Contract'" }] ∧
      { Path := "kind", Msg := "required" } ∉ ValidateContract.errs (some c) := by
  have hf := errs_filter_path_top c "kind" (Or.inr rfl)
  rw [filter_kind_validateTopLevel, if_neg hb, if_pos hk] at hf
  refine ⟨hf, ?_⟩
  intro hmem
  have : { Path := "kind", Msg := "required" } ∈
      (ValidateContract.errs (some c)).filter (fun e => e.Path = "kind") :=
    List.mem_filter.mpr ⟨hmem, by decide⟩
  rw [hf] at this
  revert this
  decide

/-- C4 amended, at the kind `contract`. -/
theorem kind_other_than_Contract_witness :
    (ValidateContract.errs (some { validContract with Kind := "contract" })).filter
          (fun e => e.Path = "kind") =
        [{ Path := "kind", Msg := "must be 'Contract'" }] ∧
      { Path := "kind", Msg := "required" } ∉
        ValidateContract.errs (some { validContract with Kind := "contract" }) :=
  kind_other_than_Contract { validContract with Kind := "contract" } (by decide) (by decide)

/-- C5. For every non-nil contract the findings contain
(`spec.consumer.component`, `required`) exactly when the consumer component
trims to the empty string, and (`spec.provider.component`, `required`)
exactly when the provider component does; each holds whatever the other
fields are. -/
theorem party_component_required (c : Contract) :
    ({ Path := "spec.consumer.component", Msg := "required" } ∈
        ValidateContract.errs (some c) ↔
      strings.TrimSpace c.Spec.Consumer.Component = "") ∧
    ({ Path := "spec.provider.component", Msg := "required" } ∈
        ValidateContract.errs (some c) ↔
      strings.TrimSpace c.Spec.Provider.Component = "") := by
  rw [mem_errs_parties c _ (Or.inl rfl), mem_errs_parties c _ (Or.inr rfl)]
  unfold validateParties ValidationErrors.Add
  by_cases h1 : strings.TrimSpace c.Spec.Consumer.Component = "" <;>
    by_cases h2 : strings.TrimSpace c.Spec.Provider.Component = "" <;> simp [h1, h2]

/-- C6. For every non-nil contract whose surface kind is non-blank and not
`http`, the surface rule group appends exactly the one finding
(`spec.surface.kind`, unsupported kind), the findings of the contract below
`spec.surface` are that finding alone, and no finding lies below
`spec.surface.http`, whatever the HTTP sub-object is. -/
theorem surface_kind_unsupported (c : Contract)
    (hb : strings.TrimSpace c.Spec.Surface.Kind ≠ "") (hk : c.Spec.Surface.Kind ≠ "http") :
    (∀ errs, validateSurface (some c.Spec.Surface) errs =
      errs ++ [{ Path := "spec.surface.kind",
                 Msg := "unsupported kind (v0.0.1 supports only 'http')" }]) ∧
    (ValidateContract.errs (some c)).filter
        (fun e => strings.HasPrefix e.Path "spec.surface") =
      [{ Path := "spec.surface.kind",
         Msg := "unsupported kind (v0.0.1 supports only 'http')" }] ∧
    ∀ e ∈ ValidateContract.errs (some c),
      strings.HasPrefix e.Path "spec.surface.http" = false := by
  have h0 : ∀ errs, validateSurface (some c.Spec.Surface) errs =
      errs ++ [{ Path := "spec.surface.kind",
                 Msg := "unsupported kind (v0.0.1 supports only 'http')" }] := by
    intro errs
    simp only [validateSurface, if_neg hb, if_neg hk, ValidationErrors.Add]
  refine ⟨h0, ?_, ?_⟩
  · rw [errs_filter_surface, h0, List.nil_append]
  · exact no_http_findings c _ (by rw [h0, List.nil_append]) (by decide)

/-- C6, at the contract of the test `Surface Kind Unsupported` (kind `grpc`,
HTTP sub-object still present). -/
theorem surface_kind_unsupported_witness :
    (∀ errs, validateSurface (some { validContract.Spec.Surface with Kind := "grpc" }) errs =
      errs ++ [{ Path := "spec.surface.kind",
                 Msg := "unsupported kind (v0.0.1 supports only 'http')" }]) ∧
    (ValidateContract.errs (some { validContract with
        Spec := { validContract.Spec with
          Surface := { validContract.Spec.Surface with Kind := "grpc" } } })).filter
        (fun e => strings.HasPrefix e.Path "spec.surface") =
      [{ Path := "spec.surface.kind",
         Msg := "unsupported kind (v0.0.1 supports only 'http')" }] ∧
    ∀ e ∈ ValidateContract.errs (some { validContract with
        Spec := { validContract.Spec with
          Surface := { validContract.Spec.Surface with Kind := "grpc" } } }),
      strings.HasPrefix e.Path "spec.surface.http" = false :=
  surface_kind_unsupported
    { validContract with
      Spec := { validContract.Spec with
        Surface := { validContract.Spec.Surface with Kind := "grpc" } } }
    (by decide) (by decide)

/-- C7. For every non-nil contract whose surface kind is blank, the surface
rule group appends exactly (`spec.surface.kind`, `required`), whatever the
HTTP sub-object is; no finding lies below `spec.surface.http`; and the
assertion and binding groups still run on the collector that results. -/
theorem surface_kind_blank (c : Contract)
    (hb : strings.TrimSpace c.Spec.Surface.Kind = "") :
    (∀ errs, validateSurface (some c.Spec.Surface) errs =
      errs ++ [{ Path := "spec.surface.kind", Msg := "required" }]) ∧
    (ValidateContract.errs (some c)).filter
        (fun e => strings.HasPrefix e.Path "spec.surface") =
      [{ Path := "spec.surface.kind", Msg := "required" }] ∧
    (∀ e ∈ ValidateContract.errs (some c),
      strings.HasPrefix e.Path "spec.surface.http" = false) ∧
    ValidateContract.errs (some c) =
      validateTopLevel c [] ++ validateParties c.Spec [] ++
        [{ Path := "spec.surface.kind", Msg := "required" }] ++
        (validateAssertions c.Spec.Assertions []).2 ++
        validateBindings (some c.Spec.Bindings)
          (validateAssertions c.Spec.Assertions []).1 [] := by
  have h0 : ∀ errs, validateSurface (some c.Spec.Surface) errs =
      errs ++ [{ Path := "spec.surface.kind", Msg := "required" }] := by
    intro errs
    simp only [validateSurface, if_pos hb, ValidationErrors.Add]
  refine ⟨h0, ?_, ?_, ?_⟩
  · rw [errs_filter_surface, h0, List.nil_append]
  · exact no_http_findings c _ (by rw [h0, List.nil_append]) (by decide)
  · rw [errs_some, h0, List.nil_append]

/-- C7, at a contract with a white-space surface kind, no HTTP sub-object, no
assertion and no test binding: one surface finding, then the findings of the
assertion and binding groups. -/
theorem surface_kind_blank_witness :
    ValidateContract.errs (some { validContract with
        Spec := { validContract.Spec with
          Surface := { Kind := " \t", HTTP := none }
          Assertions := []
          Bindings := { Tests := [] } } }) =
      [{ Path := "spec.surface.kind", Msg := "required" },
       { Path := "spec.assertions", Msg := "must have at least one assertion" },
       { Path := "spec.bindings.tests", Msg := "must have at least one test binding" }] :=
  (surface_kind_blank
    { validContract with
      Spec := { validContract.Spec with
        Surface := { Kind := " \t", HTTP := none }
        Assertions := []
        Bindings := { Tests := [] } } }
    (by decide)).2.2.2.trans (by decide)

/-- C8. For every non-nil contract with surface kind `http` and no HTTP
sub-object, the surface rule group appends exactly the one finding
(`spec.surface.http`, `required for kind=http`), and the findings of the
contract below `spec.surface` are that finding alone. -/
theorem http_surface_nil (c : Contract) (hk : c.Spec.Surface.Kind = "http")
    (hn : c.Spec.Surface.HTTP = none) :
    (∀ errs, validateSurface (some c.Spec.Surface) errs =
      errs ++ [{ Path := "spec.surface.http", Msg := "required for kind=http" }]) ∧
    (ValidateContract.errs (some c)).filter
        (fun e => strings.HasPrefix e.Path "spec.surface") =
      [{ Path := "spec.surface.http", Msg := "required for kind=http" }] := by
  have h0 : ∀ errs, validateSurface (some c.Spec.Surface) errs =
      errs ++ [{ Path := "spec.surface.http", Msg := "required for kind=http" }] := by
    intro errs
    simp only [validateSurface, hk, hn, if_neg TrimSpace_http, if_true, validateHTTP,
      ValidationErrors.Add]
  exact ⟨h0, by rw [errs_filter_surface, h0, List.nil_append]⟩

/-- C8, at the contract of the test `HTTP Surface Nil`. -/
theorem http_surface_nil_witness :
    (ValidateContract.errs (some { validContract with
        Spec := { validContract.Spec with
          Surface := { Kind := "http", HTTP := none } } })).filter
        (fun e => strings.HasPrefix e.Path "spec.surface") =
      [{ Path := "spec.surface.http", Msg := "required for kind=http" }] :=
  (http_surface_nil
    { validContract with
      Spec := { validContract.Spec with Surface := { Kind := "http", HTTP := none } } }
    rfl rfl).2

/-- C9. For every present HTTP sub-object `validateHTTP` only appends; among
what it appends there is at most one finding at `spec.surface.http.path`:
`required` exactly when the path is blank, `must start with '/'` exactly when
the path is non-blank and has no leading slash (the path `no-slash` gets only
the latter); (`spec.surface.http.method`, `required`) is appended exactly when
the method is blank, whatever the path is. -/
theorem validateHTTP_path_and_method (h : HTTPSurface) :
    (∀ errs, validateHTTP (some h) errs = errs ++ validateHTTP (some h) []) ∧
    ((validateHTTP (some h) []).filter
        (fun e => e.Path = "spec.surface.http.path")).length ≤ 1 ∧
    ({ Path := "spec.surface.http.path", Msg := "required" } ∈ validateHTTP (some h) [] ↔
      strings.TrimSpace h.Path = "") ∧
    ({ Path := "spec.surface.http.path", Msg := "must start with '/'" } ∈
        validateHTTP (some h) [] ↔
      strings.TrimSpace h.Path ≠ "" ∧ strings.HasPrefix h.Path "/" = false) ∧
    ({ Path := "spec.surface.http.method", Msg := "required" } ∈ validateHTTP (some h) [] ↔
      strings.TrimSpace h.Method = "") ∧
    (validateHTTP (some { h with Path := "no-slash" }) []).filter
        (fun e => e.Path = "spec.surface.http.path") =
      [{ Path := "spec.surface.http.path", Msg := "must start with '/'" }] := by
  refine ⟨fun errs => validateHTTP_append _ errs, ?_⟩
  have hns1 : ¬ strings.TrimSpace "no-slash" = "" := by decide
  have hns2 : strings.HasPrefix "no-slash" "/" = false := by decide
  rcases h with ⟨m, p, _ | a⟩
  · by_cases h1 : strings.TrimSpace m = "" <;>
      by_cases h2 : strings.TrimSpace p = "" <;>
      cases h3 : strings.HasPrefix p "/" <;>
      simp [validateHTTP, ValidationErrors.Add, h1, h2, h3, hns1, hns2, List.filter]
  · by_cases h1 : strings.TrimSpace m = "" <;>
      by_cases h2 : strings.TrimSpace p = "" <;>
      cases h3 : strings.HasPrefix p "/" <;>
      by_cases h4 : strings.ContainsAny a.Scheme " \t\n" = true <;>
      simp [validateHTTP, ValidationErrors.Add, h1, h2, h3, h4, hns1, hns2, List.filter]

/-- C10. For every present HTTP sub-object `validateHTTP` appends
(`spec.surface.http.auth.scheme`, `must not contain whitespace`) exactly when
an auth sub-object is present and its scheme contains a space, a tab or a
newline; an empty scheme is accepted; and the scopes list has no influence on
the result. -/
theorem validateHTTP_auth_scheme (h : HTTPSurface) :
    ({ Path := "spec.surface.http.auth.scheme", Msg := "must not contain whitespace" } ∈
        validateHTTP (some h) [] ↔
      ∃ a, h.Auth = some a ∧ ∃ r ∈ a.Scheme.data, r = ' ' ∨ r = '\t' ∨ r = '\n') ∧
    (∀ scopes : List String,
      { Path := "spec.surface.http.auth.scheme", Msg := "must not contain whitespace" } ∉
        validateHTTP (some { h with Auth := some { Scheme := "", Scopes := scopes } }) []) ∧
    (∀ (a : HTTPAuth) (scopes : List String) (errs : ValidationErrors),
      validateHTTP (some { h with Auth := some { a with Scopes := scopes } }) errs =
        validateHTTP (some { h with Auth := some a }) errs) := by
  have hempty : strings.ContainsAny "" " \t\n" = false := by decide
  rcases h with ⟨m, p, auth⟩
  refine ⟨?_, ?_, ?_⟩
  · rcases auth with _ | a
    · by_cases h1 : strings.TrimSpace m = "" <;>
        by_cases h2 : strings.TrimSpace p = "" <;>
        cases h3 : strings.HasPrefix p "/" <;>
        simp [validateHTTP, ValidationErrors.Add, h1, h2, h3]
    · simp only [Option.some.injEq, exists_eq_left', ← ContainsAny_space_tab_newline]
      by_cases h1 : strings.TrimSpace m = "" <;>
        by_cases h2 : strings.TrimSpace p = "" <;>
        cases h3 : strings.HasPrefix p "/" <;>
        by_cases h4 : strings.ContainsAny a.Scheme " \t\n" = true <;>
        simp [validateHTTP, ValidationErrors.Add, h1, h2, h3, h4]
  · intro scopes
    by_cases h1 : strings.TrimSpace m = "" <;>
      by_cases h2 : strings.TrimSpace p = "" <;>
      cases h3 : strings.HasPrefix p "/" <;>
      simp [validateHTTP, ValidationErrors.Add, h1, h2, h3, hempty]
  · intro a scopes errs
    rfl

/-! ## Decimal indices in paths -/

theorem digitChar_val (k : Nat) (hk : k < 10) : (Nat.digitChar k).toNat - 48 = k := by
  interval_cases k <;> rfl

theorem digitChar_isDigit (k : Nat) (hk : k < 10) : (Nat.digitChar k).isDigit = true := by
  interval_cases k <;> rfl

/-- Reading the digits that `Nat.toDigitsCore` writes gives the number back. -/
theorem toDigitsCore_val (fuel : Nat) :
    ∀ (n : Nat) (ds : List Char), n < fuel →
      (Nat.toDigitsCore 10 fuel n ds).foldl (fun acc c => acc * 10 + (c.toNat - 48)) 0 =
        ds.foldl (fun acc c => acc * 10 + (c.toNat - 48)) n := by
  induction fuel with
  | zero => intro n ds h; exact absurd h (Nat.not_lt_zero _)
  | succ fuel ih =>
    intro n ds h
    simp only [Nat.toDigitsCore]
    have hm : n % 10 < 10 := Nat.mod_lt _ (by decide)
    split_ifs with h0
    · simp only [List.foldl_cons, Nat.zero_mul, Nat.zero_add, digitChar_val _ hm]
      congr 1
      omega
    · have hlt : n / 10 < fuel := by omega
      rw [ih _ _ hlt]
      simp only [List.foldl_cons, digitChar_val _ hm]
      congr 1
      omega

theorem toDigitsCore_isDigit (fuel : Nat) :
    ∀ (n : Nat) (ds : List Char), ∀ c ∈ Nat.toDigitsCore 10 fuel n ds,
      c ∈ ds ∨ c.isDigit = true := by
  induction fuel with
  | zero => intro n ds c hc; exact Or.inl hc
  | succ fuel ih =>
    intro n ds c hc
    simp only [Nat.toDigitsCore] at hc
    have hm : n % 10 < 10 := Nat.mod_lt _ (by decide)
    split_ifs at hc with h0
    · rcases List.mem_cons.mp hc with h | h
      · exact Or.inr (h ▸ digitChar_isDigit _ hm)
      · exact Or.inl h
    · rcases ih _ _ c hc with h | h
      · rcases List.mem_cons.mp h with h | h
        · exact Or.inr (h ▸ digitChar_isDigit _ hm)
        · exact Or.inl h
      · exact Or.inr h

/-- Distinct indices have distinct decimal numerals. -/
theorem toString_nat_injective (i j : Nat) (h : (toString i).data = (toString j).data) :
    i = j := by
  have hi := toDigitsCore_val (i + 1) i [] (Nat.lt_succ_self _)
  have hj := toDigitsCore_val (j + 1) j [] (Nat.lt_succ_self _)
  simp only [List.foldl_nil] at hi hj
  rw [← hi, ← hj]
  exact congrArg _ h

theorem toString_nat_isDigit (i : Nat) : ∀ c ∈ (toString i).data, c.isDigit = true := by
  intro c hc
  rcases toDigitsCore_isDigit (i + 1) i [] c hc with h | h
  · simp at h
  · exact h

theorem bracket_not_mem_toString (i : Nat) : ']' ∉ (toString i).data := by
  intro h
  have := toString_nat_isDigit i _ h
  revert this
  decide

/-- Two lists that agree up to the first occurrence of a separator. -/
theorem eq_of_append_sep (x : Char) :
    ∀ (l1 l2 t r : List Char), x ∉ l1 → x ∉ l2 → l1 ++ x :: t = l2 ++ x :: r →
      l1 = l2 ∧ t = r := by
  intro l1
  induction l1 with
  | nil =>
    intro l2 t r _ h2 h
    cases l2 with
    | nil => simpa using h
    | cons b l2 =>
      simp only [List.nil_append, List.cons_append, List.cons.injEq] at h
      exact absurd (h.1 ▸ List.mem_cons_self _ _) h2
  | cons a l1 ih =>
    intro l2 t r h1 h2 h
    cases l2 with
    | nil =>
      simp only [List.nil_append, List.cons_append, List.cons.injEq] at h
      exact absurd (h.1 ▸ List.mem_cons_self _ _) h1
    | cons b l2 =>
      simp only [List.cons_append, List.cons.injEq] at h
      obtain ⟨h3, h4⟩ := ih l2 t r (fun hm => h1 (List.mem_cons_of_mem _ hm))
        (fun hm => h2 (List.mem_cons_of_mem _ hm)) h.2
      exact ⟨by rw [h.1, h3], h4⟩

/-- An indexed path determines its index and what follows the index. -/
theorem indexed_path_inj (A : String) (i k : Nat) (s1 s2 : String) :
    A ++ toString i ++ "]" ++ s1 = A ++ toString k ++ "]" ++ s2 ↔ i = k ∧ s1 = s2 := by
  constructor
  · intro h
    have hd := congrArg String.data h
    simp only [String.data_append, List.append_assoc] at hd
    have hd2 := List.append_cancel_left hd
    simp only [List.singleton_append] at hd2
    obtain ⟨h1, h2⟩ := eq_of_append_sep ']' _ _ _ _ (bracket_not_mem_toString i)
      (bracket_not_mem_toString k) hd2
    exact ⟨toString_nat_injective _ _ h1, String.ext h2⟩
  · rintro ⟨rfl, rfl⟩
    rfl

/-- A path below the index `i` is not below another index. -/
theorem indexed_path_HasPrefix (A : String) (i k : Nat) (s : String)
    (h : strings.HasPrefix (A ++ toString k ++ "]" ++ s) (A ++ toString i ++ "]") = true) :
    i = k := by
  unfold strings.HasPrefix at h
  rw [List.isPrefixOf_iff_prefix] at h
  obtain ⟨t, ht⟩ := h
  simp only [String.data_append, List.append_assoc] at ht
  have hd2 := List.append_cancel_left ht
  simp only [List.singleton_append] at hd2
  exact toString_nat_injective _ _ (eq_of_append_sep ']' _ _ _ _ (bracket_not_mem_toString i)
    (bracket_not_mem_toString k) hd2).1

theorem HasPrefix_append_cancel (a s p : String) :
    strings.HasPrefix (a ++ s) (a ++ p) = strings.HasPrefix s p := by
  unfold strings.HasPrefix
  rw [Bool.eq_iff_iff, List.isPrefixOf_iff_prefix, List.isPrefixOf_iff_prefix]
  simp only [String.data_append, List.prefix_append_right_inj]

theorem HasPrefix_self_append (a s : String) : strings.HasPrefix (a ++ s) a = true := by
  unfold strings.HasPrefix
  rw [List.isPrefixOf_iff_prefix, String.data_append]
  exact List.prefix_append _ _

/-! ## The loops produce the findings entry by entry -/

theorem validateAssertions_loop_snd (l : List Assertion) (i : Nat) (ids : AssertionIDSet)
    (errs : ValidationErrors) :
    (validateAssertions.loop l i ids errs).2 =
      errs ++ (validateAssertions.loop l i ids []).2 := by
  rw [validateAssertions_loop_append]

theorem validateAssertions_loop_byEntry (l : List Assertion) :
    ∀ (seen : List String) (i : Nat) (ids : AssertionIDSet),
      (∀ x, x ∈ ids ↔ x ∈ seen ∧ strings.TrimSpace x ≠ "") →
      (validateAssertions.loop l i ids []).2 =
        byEntry (fun a => a.ID) assertionEntryFindings seen i l := by
  induction l with
  | nil => intro seen i ids _; rfl
  | cons a rest ih =>
    intro seen i ids hinv
    simp only [validateAssertions.loop, ValidationErrors.Add, byEntry,
      assertionEntryFindings, assertionPfx]
    by_cases hb : strings.TrimSpace a.ID = ""
    · simp only [hb, if_true]
      rw [validateAssertions_loop_snd, ih (seen ++ [a.ID]) (i + 1) ids]
      · rfl
      · intro x
        rw [hinv x, List.mem_append, List.mem_singleton]
        constructor
        · rintro ⟨h1, h2⟩
          exact ⟨Or.inl h1, h2⟩
        · rintro ⟨h1 | h1, h2⟩
          · exact ⟨h1, h2⟩
          · exact absurd (h1 ▸ hb) h2
    · have hms : a.ID ∈ ids ↔ a.ID ∈ seen := by
        rw [hinv]
        exact ⟨fun h => h.1, fun h => ⟨h, hb⟩⟩
      by_cases hm : a.ID ∈ seen
      · have hm2 : a.ID ∈ ids := hms.mpr hm
        simp only [hb, hm, hm2, if_true, if_false]
        rw [validateAssertions_loop_snd, ih (seen ++ [a.ID]) (i + 1) ids]
        · split_ifs <;> simp
        · intro x
          rw [hinv x, List.mem_append, List.mem_singleton]
          constructor
          · rintro ⟨h1, h2⟩
            exact ⟨Or.inl h1, h2⟩
          · rintro ⟨h1 | h1, h2⟩
            · exact ⟨h1, h2⟩
            · exact ⟨h1 ▸ hm, h2⟩
      · have hm2 : a.ID ∉ ids := fun h => hm (hms.mp h)
        simp only [hb, hm, hm2, if_false]
        rw [validateAssertions_loop_snd, ih (seen ++ [a.ID]) (i + 1) (a.ID :: ids)]
        · split_ifs <;> simp
        · intro x
          rw [List.mem_cons, hinv x, List.mem_append, List.mem_singleton]
          constructor
          · rintro (h1 | ⟨h1, h2⟩)
            · exact ⟨Or.inr h1, h1 ▸ hb⟩
            · exact ⟨Or.inl h1, h2⟩
          · rintro ⟨h1 | h1, h2⟩
            · exact Or.inr ⟨h1, h2⟩
            · exact Or.inl h1

theorem validateBindings_covers_eq (pfx : String) (ids : AssertionIDSet)
    (assertions : List Assertion) (hids : ∀ x, x ∈ ids ↔ Resolves assertions x)
    (l : List String) :
    ∀ j : Nat, validateBindings.covers pfx ids l j [] =
      (l.enumFrom j).flatMap (fun p =>
        if Resolves assertions p.2 then []
        else
          [{ Path := pfx ++ ".covers[" ++ toString p.1 ++ "]",
             Msg := "unknown assertion id '" ++ p.2 ++ "'" }]) := by
  induction l with
  | nil => intro j; rfl
  | cons x rest ih =>
    intro j
    simp only [validateBindings.covers, ValidationErrors.Addf, List.enumFrom_cons,
      List.flatMap_cons]
    rw [validateBindings_covers_append, ih (j + 1)]
    by_cases hx : x ∈ ids
    · have := (hids x).mp hx
      simp [hx, this]
    · have : ¬ Resolves assertions x := fun h => hx ((hids x).mpr h)
      simp [hx, this]

theorem validateBindings_covers_findings (ids : AssertionIDSet)
    (assertions : List Assertion) (hids : ∀ x, x ∈ ids ↔ Resolves assertions x)
    (i : Nat) (t : TestBinding) (E : ValidationErrors) :
    validateBindings.covers ("spec.bindings.tests[" ++ toString i ++ "]") ids t.Covers 0 E =
      E ++ bindingCoversFindings assertions i t := by
  rw [validateBindings_covers_append, validateBindings_covers_eq _ _ assertions hids]
  rfl

theorem validateBindings_loop_byEntry (ids : AssertionIDSet)
    (assertions : List Assertion) (hids : ∀ x, x ∈ ids ↔ Resolves assertions x)
    (l : List TestBinding) :
    ∀ (seen : List String) (i : Nat) (testIDs : List String),
      (∀ x, x ∈ testIDs ↔ x ∈ seen ∧ strings.TrimSpace x ≠ "") →
      validateBindings.loop ids l i testIDs [] =
        byEntry (fun t => t.ID) (bindingEntryFindings assertions) seen i l := by
  induction l with
  | nil => intro seen i testIDs _; rfl
  | cons t rest ih =>
    intro seen i testIDs hinv
    simp only [validateBindings.loop, ValidationErrors.Add, byEntry, bindingEntryFindings,
      validateBindings_covers_findings ids assertions hids]
    by_cases hb : strings.TrimSpace t.ID = ""
    · simp only [hb, if_true]
      rw [validateBindings_loop_append, ih (seen ++ [t.ID]) (i + 1) testIDs]
      · simp only [bindingIdFindings, bindingKindFindings, bindingPathFindings,
          bindingRequiredFindings, testPfx, hb, if_true, List.length_eq_zero]
        split_ifs <;> simp
      · intro x
        rw [hinv x, List.mem_append, List.mem_singleton]
        constructor
        · rintro ⟨h1, h2⟩
          exact ⟨Or.inl h1, h2⟩
        · rintro ⟨h1 | h1, h2⟩
          · exact ⟨h1, h2⟩
          · exact absurd (h1 ▸ hb) h2
    · have hms : t.ID ∈ testIDs ↔ t.ID ∈ seen := by
        rw [hinv]
        exact ⟨fun h => h.1, fun h => ⟨h, hb⟩⟩
      by_cases hm : t.ID ∈ seen
      · have hm2 : t.ID ∈ testIDs := hms.mpr hm
        simp only [hb, hm2, if_true, if_false]
        rw [validateBindings_loop_append, ih (seen ++ [t.ID]) (i + 1) testIDs]
        · simp only [bindingIdFindings, bindingKindFindings, bindingPathFindings,
            bindingRequiredFindings, testPfx, hb, hm, if_true, if_false, List.length_eq_zero]
          split_ifs <;> simp
        · intro x
          rw [hinv x, List.mem_append, List.mem_singleton]
          constructor
          · rintro ⟨h1, h2⟩
            exact ⟨Or.inl h1, h2⟩
          · rintro ⟨h1 | h1, h2⟩
            · exact ⟨h1, h2⟩
            · exact ⟨h1 ▸ hm, h2⟩
      · have hm2 : t.ID ∉ testIDs := fun h => hm (hms.mp h)
        simp only [hb, hm2, if_false]
        rw [validateBindings_loop_append, ih (seen ++ [t.ID]) (i + 1) (t.ID :: testIDs)]
        · simp only [bindingIdFindings, bindingKindFindings, bindingPathFindings,
            bindingRequiredFindings, testPfx, hb, hm, if_false, List.length_eq_zero]
          split_ifs <;> simp
        · intro x
          rw [List.mem_cons, hinv x, List.mem_append, List.mem_singleton]
          constructor
          · rintro (h1 | ⟨h1, h2⟩)
            · exact ⟨Or.inr h1, h1 ▸ hb⟩
            · exact ⟨Or.inl h1, h2⟩
          · rintro ⟨h1 | h1, h2⟩
            · exact Or.inr ⟨h1, h2⟩
            · exact Or.inl h1

/-- The recursion `byEntry` is the concatenation over the enumerated entries,
each with the keys of the entries before it. -/
theorem byEntry_eq_flatMap {α : Type} (key : α → String)
    (f : List String → Nat → α → ValidationErrors) (l : List α) :
    ∀ (seen : List String) (s n : Nat),
      byEntry key f seen s l =
        (l.enumFrom n).flatMap (fun p =>
          f (seen ++ (l.take (p.1 - n)).map key) (s + (p.1 - n)) p.2) := by
  induction l with
  | nil => intro seen s n; rfl
  | cons a rest ih =>
    intro seen s n
    simp only [byEntry, List.enumFrom_cons, List.flatMap_cons, Nat.sub_self, List.take_zero,
      List.map_nil, List.append_nil, Nat.add_zero]
    congr 1
    rw [ih (seen ++ [key a]) (s + 1) (n + 1)]
    apply List.flatMap_congr
    intro p hp
    have hle : n + 1 ≤ p.1 := (List.mem_enumFrom hp).1
    have h1 : p.1 - n = (p.1 - (n + 1)) + 1 := by omega
    rw [h1, List.take_succ_cons, List.map_cons, List.append_assoc, List.singleton_append,
      Nat.add_assoc, Nat.add_comm 1]

theorem validateAssertions_eq_inOrder (l : List Assertion) :
    (validateAssertions l []).2 = assertionFindingsInOrder l := by
  unfold validateAssertions assertionFindingsInOrder
  cases l with
  | nil => rfl
  | cons a rest =>
    simp only [List.length_cons, Nat.add_one_ne_zero, if_false, reduceCtorEq]
    rw [validateAssertions_loop_byEntry (a :: rest) [] 0 [] (by simp),
      byEntry_eq_flatMap _ _ _ [] 0 0]
    simp [List.enum]

theorem validateBindings_eq_inOrder (ids : AssertionIDSet) (assertions : List Assertion)
    (hids : ∀ x, x ∈ ids ↔ Resolves assertions x) (b : ContractBindings) :
    validateBindings (some b) ids [] = bindingFindingsInOrder assertions b.Tests := by
  rcases b with ⟨l⟩
  unfold validateBindings bindingFindingsInOrder
  cases l with
  | nil => rfl
  | cons t rest =>
    simp only [List.length_cons, Nat.add_one_ne_zero, if_false, reduceCtorEq]
    rw [validateBindings_loop_byEntry ids assertions hids (t :: rest) [] 0 [] (by simp),
      byEntry_eq_flatMap _ _ _ [] 0 0]
    simp [List.enum]

theorem validateAssertions_ids_Resolves (l : List Assertion) (x : String) :
    x ∈ (validateAssertions l []).1 ↔ Resolves l x :=
  validateAssertions_ids l [] x

theorem validateTopLevel_eq (c : Contract) :
    validateTopLevel c [] =
      (if strings.TrimSpace c.APIVersion = "" then
          [{ Path := "apiVersion", Msg := "required" }]
        else []) ++
      (if strings.TrimSpace c.Kind = "" then [{ Path := "kind", Msg := "required" }]
        else if c.Kind ≠ "Contract" then [{ Path := "kind", Msg := "must be 'Contract'" }]
        else []) := by
  unfold validateTopLevel ValidationErrors.Add
  split_ifs <;> simp

theorem validateParties_eq (spec : ContractSpec) :
    validateParties spec [] =
      (if strings.TrimSpace spec.Consumer.Component = "" then
          [{ Path := "spec.consumer.component", Msg := "required" }]
        else []) ++
      (if strings.TrimSpace spec.Provider.Component = "" then
          [{ Path := "spec.provider.component", Msg := "required" }]
        else []) := by
  unfold validateParties ValidationErrors.Add
  split_ifs <;> simp

/-- The findings of a non-nil contract, group by group and entry by entry. -/
theorem errs_eq_findingsInOrder (c : Contract) :
    ValidateContract.errs (some c) = findingsInOrder c := by
  rw [errs_some, validateTopLevel_eq, validateParties_eq, validateAssertions_eq_inOrder,
    validateBindings_eq_inOrder _ c.Spec.Assertions (validateAssertions_ids_Resolves _)]
  simp only [findingsInOrder, List.append_assoc]

/-! ## The findings of one entry within the findings of the contract -/

/-- In a concatenation over enumerated entries, a filter that only the entry
at index `i` can pass keeps the filtered findings of that entry. -/
theorem filter_enumFrom_flatMap {α β : Type} (g : Nat × α → List β) (P : β → Bool)
    (i : Nat) (l : List α) :
    ∀ (n : Nat), n ≤ i → ∀ a, l[i - n]? = some a →
      (∀ k b, k ≠ i → ∀ e ∈ g (k, b), P e = false) →
      ((l.enumFrom n).flatMap g).filter P = (g (i, a)).filter P := by
  induction l with
  | nil => intro n _ a ha; simp at ha
  | cons b rest ih =>
    intro n hn a ha hP
    rw [List.enumFrom_cons, List.flatMap_cons, List.filter_append]
    by_cases h : i = n
    · subst h
      simp only [Nat.sub_self, List.getElem?_cons_zero, Option.some.injEq] at ha
      subst ha
      have : ((rest.enumFrom (i + 1)).flatMap g).filter P = [] := by
        rw [List.filter_eq_nil_iff]
        intro e he
        obtain ⟨p, hp, hep⟩ := List.mem_flatMap.mp he
        have hle : i + 1 ≤ p.1 := (List.mem_enumFrom hp).1
        have := hP p.1 p.2 (by omega) e hep
        simp [this]
      rw [this, List.append_nil]
    · have h1 : i - n = (i - (n + 1)) + 1 := by omega
      rw [h1, List.getElem?_cons_succ] at ha
      have h0 : (g (n, b)).filter P = [] := by
        rw [List.filter_eq_nil_iff]
        intro e he
        have := hP n b (fun hh => h hh.symm) e he
        simp [this]
      rw [h0, List.nil_append]
      exact ih (n + 1) (by omega) a ha hP

theorem filter_enum_flatMap {α β : Type} (g : Nat × α → List β) (P : β → Bool)
    (i : Nat) (l : List α) (a : α) (ha : l[i]? = some a)
    (hP : ∀ k b, k ≠ i → ∀ e ∈ g (k, b), P e = false) :
    (l.enum.flatMap g).filter P = (g (i, a)).filter P :=
  filter_enumFrom_flatMap g P i l 0 (Nat.zero_le _) a ha hP

theorem assertionEntryFindings_paths (seen : List String) (k : Nat) (a : Assertion) :
    ∀ e ∈ assertionEntryFindings seen k a,
      e.Path = assertionPfx k ++ ".id" ∨ e.Path = assertionPfx k ++ ".text" := by
  unfold assertionEntryFindings
  split_ifs <;> simp

theorem bindingCoversFindings_paths (assertions : List Assertion) (k : Nat) (t : TestBinding) :
    ∀ e ∈ bindingCoversFindings assertions k t,
      ∃ (j : Nat) (x : String), t.Covers[j]? = some x ∧ ¬ Resolves assertions x ∧
        e = { Path := testPfx k ++ ".covers[" ++ toString j ++ "]",
              Msg := "unknown assertion id '" ++ x ++ "'" } := by
  intro e he
  unfold bindingCoversFindings at he
  obtain ⟨p, hp, hep⟩ := List.mem_flatMap.mp he
  rcases p with ⟨j, x⟩
  have hjx : t.Covers[j]? = some x := List.mk_mem_enum_iff_getElem?.mp hp
  by_cases hr : Resolves assertions x
  · simp [hr] at hep
  · simp only [hr, if_false, List.mem_singleton] at hep
    exact ⟨j, x, hjx, hr, hep⟩

theorem bindingEntryFindings_paths (assertions : List Assertion) (seen : List String)
    (k : Nat) (t : TestBinding) :
    ∀ e ∈ bindingEntryFindings assertions seen k t,
      ∃ sfx, e.Path = testPfx k ++ sfx := by
  intro e he
  simp only [bindingEntryFindings, List.mem_append] at he
  rcases he with (((he | he) | he) | he) | he
  · unfold bindingIdFindings at he
    split_ifs at he <;> simp at he <;> exact ⟨".id", by rw [he]⟩
  · unfold bindingKindFindings at he
    split_ifs at he <;> simp at he <;> exact ⟨".kind", by rw [he]⟩
  · unfold bindingPathFindings at he
    split_ifs at he <;> simp at he
    exact ⟨".path", by rw [he]⟩
  · obtain ⟨j, x, _, _, hex⟩ := bindingCoversFindings_paths _ _ _ e he
    exact ⟨".covers[" ++ toString j ++ "]", by rw [hex]; simp [String.append_assoc]⟩
  · unfold bindingRequiredFindings at he
    split_ifs at he <;> simp at he
    exact ⟨".covers", by rw [he]⟩

theorem HasPrefix_assertionPfx (i : Nat) :
    strings.HasPrefix (assertionPfx i) "spec.assertions" = true := by
  simp [assertionPfx, strings.HasPrefix, List.isPrefixOf]

theorem HasPrefix_testPfx (i : Nat) :
    strings.HasPrefix (testPfx i) "spec.bindings" = true := by
  simp [testPfx, strings.HasPrefix, List.isPrefixOf]

/-- A filter that only paths below `spec.assertions` pass sees the assertion
findings only. -/
theorem errs_filter_assertions (c : Contract) (P : ValidationError → Bool)
    (hP : ∀ e, P e = true → strings.HasPrefix e.Path "spec.assertions" = true) :
    (ValidateContract.errs (some c)).filter P =
      (assertionFindingsInOrder c.Spec.Assertions).filter P := by
  have hno : ∀ (l : ValidationErrors),
      (∀ e ∈ l, strings.HasPrefix e.Path "spec.assertions" = false) → l.filter P = [] := by
    intro l hl
    apply filter_eq_nil_of_forall
    intro e he
    cases hpe : P e with
    | false => rfl
    | true =>
      have := hP e hpe
      rw [hl e he] at this
      exact Bool.noConfusion this
  rw [errs_some]
  simp only [List.filter_append]
  rw [hno (validateTopLevel c []), hno (validateParties c.Spec []),
    hno (validateSurface (some c.Spec.Surface) []), hno (validateBindings _ _ []),
    validateAssertions_eq_inOrder]
  · simp
  · intro e he
    exact HasPrefix_false_of_root _ _ _ (validateBindings_paths _ _ e he) (by decide)
      (by decide)
  · intro e he
    exact HasPrefix_false_of_root _ _ _ (validateSurface_paths _ e he) (by decide)
      (by decide)
  · intro e he
    rcases validateParties_paths _ e he with h | h <;> rw [h] <;> decide
  · intro e he
    rcases validateTopLevel_paths _ e he with h | h <;> rw [h] <;> decide

/-- A filter that only paths below `spec.bindings` pass sees the binding
findings only. -/
theorem errs_filter_bindings (c : Contract) (P : ValidationError → Bool)
    (hP : ∀ e, P e = true → strings.HasPrefix e.Path "spec.bindings" = true) :
    (ValidateContract.errs (some c)).filter P =
      (bindingFindingsInOrder c.Spec.Assertions c.Spec.Bindings.Tests).filter P := by
  have hno : ∀ (l : ValidationErrors),
      (∀ e ∈ l, strings.HasPrefix e.Path "spec.bindings" = false) → l.filter P = [] := by
    intro l hl
    apply filter_eq_nil_of_forall
    intro e he
    cases hpe : P e with
    | false => rfl
    | true =>
      have := hP e hpe
      rw [hl e he] at this
      exact Bool.noConfusion this
  rw [errs_some]
  simp only [List.filter_append]
  rw [hno (validateTopLevel c []), hno (validateParties c.Spec []),
    hno (validateSurface (some c.Spec.Surface) []),
    hno (validateAssertions c.Spec.Assertions []).2,
    validateBindings_eq_inOrder _ c.Spec.Assertions (validateAssertions_ids_Resolves _)]
  · simp
  · intro e he
    exact HasPrefix_false_of_root _ _ _ (validateAssertions_paths _ e he) (by decide)
      (by decide)
  · intro e he
    exact HasPrefix_false_of_root _ _ _ (validateSurface_paths _ e he) (by decide)
      (by decide)
  · intro e he
    rcases validateParties_paths _ e he with h | h <;> rw [h] <;> decide
  · intro e he
    rcases validateTopLevel_paths _ e he with h | h <;> rw [h] <;> decide

/-- The findings of the contract below the path of the assertion at index `i`
are the findings of that entry. -/
theorem errs_filter_assertion_entry (c : Contract) (i : Nat) (a : Assertion)
    (ha : c.Spec.Assertions[i]? = some a) :
    (ValidateContract.errs (some c)).filter
        (fun e => strings.HasPrefix e.Path (assertionPfx i)) =
      assertionEntryFindings ((c.Spec.Assertions.take i).map (fun a => a.ID)) i a := by
  rw [errs_filter_assertions c _
    (fun e he => HasPrefix_trans _ _ _ he (HasPrefix_assertionPfx i))]
  have hne : c.Spec.Assertions ≠ [] := by
    intro h
    rw [h] at ha
    simp at ha
  unfold assertionFindingsInOrder
  rw [if_neg hne, filter_enum_flatMap _ _ i _ a ha]
  · apply filter_eq_self_of_forall
    intro e he
    rcases assertionEntryFindings_paths _ _ _ e he with h | h <;> rw [h] <;>
      exact HasPrefix_self_append _ _
  · intro k b hk e he
    cases hpe : strings.HasPrefix e.Path (assertionPfx i) with
    | false => rfl
    | true =>
      exfalso
      apply hk
      rcases assertionEntryFindings_paths _ _ _ e he with h | h <;> rw [h] at hpe <;>
        exact (indexed_path_HasPrefix "spec.assertions[" i k _ hpe).symm

/-- The findings of the contract below the path of the test binding at index
`i` are the findings of that entry. -/
theorem errs_filter_binding_entry (c : Contract) (i : Nat) (t : TestBinding)
    (ht : c.Spec.Bindings.Tests[i]? = some t) :
    (ValidateContract.errs (some c)).filter
        (fun e => strings.HasPrefix e.Path (testPfx i)) =
      bindingEntryFindings c.Spec.Assertions
        ((c.Spec.Bindings.Tests.take i).map (fun t => t.ID)) i t := by
  rw [errs_filter_bindings c _
    (fun e he => HasPrefix_trans _ _ _ he (HasPrefix_testPfx i))]
  have hne : c.Spec.Bindings.Tests ≠ [] := by
    intro h
    rw [h] at ht
    simp at ht
  unfold bindingFindingsInOrder
  rw [if_neg hne, filter_enum_flatMap _ _ i _ t ht]
  · apply filter_eq_self_of_forall
    intro e he
    obtain ⟨sfx, h⟩ := bindingEntryFindings_paths _ _ _ _ e he
    rw [h]
    exact HasPrefix_self_append _ _
  · intro k b hk e he
    cases hpe : strings.HasPrefix e.Path (testPfx i) with
    | false => rfl
    | true =>
      exfalso
      apply hk
      obtain ⟨sfx, h⟩ := bindingEntryFindings_paths _ _ _ _ e he
      rw [h] at hpe
      exact (indexed_path_HasPrefix "spec.bindings.tests[" i k _ hpe).symm

theorem mem_map_take_iff {α : Type} (f : α → String) (l : List α) :
    ∀ (n : Nat) (x : String),
      x ∈ (l.take n).map f ↔ ∃ j b, j < n ∧ l[j]? = some b ∧ f b = x := by
  induction l with
  | nil => intro n x; simp
  | cons a rest ih =>
    intro n x
    cases n with
    | zero => simp
    | succ n =>
      rw [List.take_succ_cons, List.map_cons, List.mem_cons, ih n x]
      constructor
      · rintro (h | ⟨j, b, hj, hb, hx⟩)
        · exact ⟨0, a, Nat.succ_pos _, List.getElem?_cons_zero, h.symm⟩
        · exact ⟨j + 1, b, Nat.succ_lt_succ hj, by simpa using hb, hx⟩
      · rintro ⟨j, b, hj, hb, hx⟩
        cases j with
        | zero =>
          simp only [List.getElem?_cons_zero, Option.some.injEq] at hb
          exact Or.inl (by rw [hb, hx])
        | succ j =>
          exact Or.inr ⟨j, b, Nat.lt_of_succ_lt_succ hj, by simpa using hb, hx⟩

/-- A finding with a path below the assertion index `i` is among the
assertion findings exactly when the entry at `i` exists and reports it. -/
theorem mem_assertionFindingsInOrder (l : List Assertion) (i : Nat) (sfx msg : String) :
    { Path := assertionPfx i ++ sfx, Msg := msg } ∈ assertionFindingsInOrder l ↔
      ∃ a, l[i]? = some a ∧
        { Path := assertionPfx i ++ sfx, Msg := msg } ∈
          assertionEntryFindings ((l.take i).map (fun a => a.ID)) i a := by
  unfold assertionFindingsInOrder
  by_cases hl : l = []
  · subst hl
    simp only [if_true, List.mem_singleton, ValidationError.mk.injEq, List.getElem?_nil]
    constructor
    · rintro ⟨h, _⟩
      exfalso
      have hd := congrArg String.data h
      simp [assertionPfx] at hd
    · rintro ⟨a, ha, _⟩
      exact Option.noConfusion ha
  · rw [if_neg hl, List.mem_flatMap]
    constructor
    · rintro ⟨⟨k, b⟩, hp, he⟩
      have hkb : l[k]? = some b := List.mk_mem_enum_iff_getElem?.mp hp
      have hk : i = k := by
        rcases assertionEntryFindings_paths _ _ _ _ he with h | h
        · exact ((indexed_path_inj "spec.assertions[" i k sfx ".id").mp h).1
        · exact ((indexed_path_inj "spec.assertions[" i k sfx ".text").mp h).1
      subst hk
      exact ⟨b, hkb, he⟩
    · rintro ⟨a, ha, he⟩
      exact ⟨(i, a), List.mk_mem_enum_iff_getElem?.mpr ha, he⟩

theorem mem_assertionEntryFindings_dup (seen : List String) (i : Nat) (a : Assertion) :
    { Path := assertionPfx i ++ ".id", Msg := "duplicate assertion id" } ∈
        assertionEntryFindings seen i a ↔
      strings.TrimSpace a.ID ≠ "" ∧ a.ID ∈ seen := by
  unfold assertionEntryFindings
  by_cases h1 : strings.TrimSpace a.ID = "" <;> by_cases h2 : a.ID ∈ seen <;>
    by_cases h3 : strings.TrimSpace a.Text = "" <;> simp [h1, h2, h3]

/-- The entries that repeat an earlier entry with id `x` are all the entries
with id `x` but the first. -/
theorem count_repeated (l : List Assertion) (x : String) :
    ((List.range l.length).filter (fun i =>
      decide ((l[i]?).map (fun a => a.ID) = some x ∧
        x ∈ (l.take i).map (fun a => a.ID)))).length =
      l.countP (fun a => a.ID = x) - 1 := by
  induction l using List.reverseRecOn with
  | nil => rfl
  | append_singleton l a ih =>
    rw [List.length_append, List.length_singleton, List.range_succ, List.filter_append,
      List.length_append, List.countP_append]
    have h1 : (List.range l.length).filter (fun i =>
        decide (((l ++ [a])[i]?).map (fun a => a.ID) = some x ∧
          x ∈ ((l ++ [a]).take i).map (fun a => a.ID))) =
        (List.range l.length).filter (fun i =>
        decide ((l[i]?).map (fun a => a.ID) = some x ∧
          x ∈ (l.take i).map (fun a => a.ID))) := by
      apply List.filter_congr
      intro i hi
      have hi2 : i < l.length := List.mem_range.mp hi
      rw [List.getElem?_append_left hi2, List.take_append_of_le_length (Nat.le_of_lt hi2)]
    rw [h1, ih]
    have h2 : (l ++ [a])[l.length]? = some a := by simp
    have h3 : (l ++ [a]).take l.length = l := by simp
    have h4 : x ∈ l.map (fun a => a.ID) ↔ 0 < l.countP (fun a => decide (a.ID = x)) := by
      rw [List.countP_pos_iff, List.mem_map]
      simp
    by_cases hx : a.ID = x
    · by_cases hm : x ∈ l.map (fun a => a.ID)
      · have := h4.mp hm
        simp only [List.filter, h2, h3, hx, hm, Option.map_some', and_self, decide_True,
          List.length_singleton, List.countP_cons, List.countP_nil, if_true]
        omega
      · have : l.countP (fun a => decide (a.ID = x)) = 0 := by
          have := mt h4.mpr hm
          omega
        simp [List.filter, h2, h3, hx, hm, this]
    · simp [List.filter, h2, h3, hx]

/-- The duplicate finding at index `i`, in terms of the entry and the ids
before it. -/
theorem mem_validateAssertions_dup (l : List Assertion) (i : Nat) :
    { Path := assertionPfx i ++ ".id", Msg := "duplicate assertion id" } ∈
        (validateAssertions l []).2 ↔
      ∃ a, l[i]? = some a ∧ strings.TrimSpace a.ID ≠ "" ∧
        a.ID ∈ (l.take i).map (fun a => a.ID) := by
  rw [validateAssertions_eq_inOrder, mem_assertionFindingsInOrder]
  simp only [mem_assertionEntryFindings_dup]

theorem String_append_right_inj (a s1 s2 : String) : a ++ s1 = a ++ s2 ↔ s1 = s2 := by
  constructor
  · intro h
    have hd := congrArg String.data h
    simp only [String.data_append] at hd
    exact String.ext (List.append_cancel_left hd)
  · rintro rfl
    rfl

/-- A finding with a path below the assertion index `i` is among the findings
of the contract exactly when the entry at `i` reports it. -/
theorem mem_errs_assertion_entry (c : Contract) (i : Nat) (a : Assertion)
    (ha : c.Spec.Assertions[i]? = some a) (f : ValidationError)
    (hf : strings.HasPrefix f.Path (assertionPfx i) = true) :
    f ∈ ValidateContract.errs (some c) ↔
      f ∈ assertionEntryFindings ((c.Spec.Assertions.take i).map (fun a => a.ID)) i a := by
  rw [← errs_filter_assertion_entry c i a ha, List.mem_filter]
  exact ⟨fun h => ⟨h, hf⟩, fun h => h.1⟩

/-- A finding with a path below the test binding index `i` is among the
findings of the contract exactly when the entry at `i` reports it. -/
theorem mem_errs_binding_entry (c : Contract) (i : Nat) (t : TestBinding)
    (ht : c.Spec.Bindings.Tests[i]? = some t) (f : ValidationError)
    (hf : strings.HasPrefix f.Path (testPfx i) = true) :
    f ∈ ValidateContract.errs (some c) ↔
      f ∈ bindingEntryFindings c.Spec.Assertions
        ((c.Spec.Bindings.Tests.take i).map (fun t => t.ID)) i t := by
  rw [← errs_filter_binding_entry c i t ht, List.mem_filter]
  exact ⟨fun h => ⟨h, hf⟩, fun h => h.1⟩

theorem covers_sfx_ne (j : Nat) (sfx : String)
    (hs : sfx = ".id" ∨ sfx = ".kind" ∨ sfx = ".path" ∨ sfx = ".covers") :
    ".covers[" ++ (toString j ++ "]") ≠ sfx := by
  intro h
  have hd := congrArg String.data h
  rcases hs with hs | hs | hs | hs <;> rw [hs] at hd <;> simp at hd

/-- A finding at one of the four fixed paths of a test binding does not come
from the covers entries. -/
theorem not_mem_bindingCoversFindings (assertions : List Assertion) (i : Nat)
    (t : TestBinding) (sfx msg : String)
    (hs : sfx = ".id" ∨ sfx = ".kind" ∨ sfx = ".path" ∨ sfx = ".covers") :
    { Path := testPfx i ++ sfx, Msg := msg } ∉ bindingCoversFindings assertions i t := by
  intro h
  obtain ⟨j, x, _, _, he⟩ := bindingCoversFindings_paths _ _ _ _ h
  have hp := congrArg ValidationError.Path he
  simp only [String.append_assoc, String_append_right_inj] at hp
  exact covers_sfx_ne j sfx hs hp.symm

theorem mem_bindingEntryFindings_id_dup (assertions : List Assertion) (seen : List String)
    (i : Nat) (t : TestBinding) :
    { Path := testPfx i ++ ".id", Msg := "duplicate test id" } ∈
        bindingEntryFindings assertions seen i t ↔
      strings.TrimSpace t.ID ≠ "" ∧ t.ID ∈ seen := by
  simp only [bindingEntryFindings, List.mem_append,
    not_mem_bindingCoversFindings assertions i t ".id" _ (Or.inl rfl), or_false]
  unfold bindingIdFindings bindingKindFindings bindingPathFindings bindingRequiredFindings
  by_cases h1 : strings.TrimSpace t.ID = "" <;> by_cases h2 : t.ID ∈ seen <;>
    split_ifs <;> simp [String_append_right_inj, h1, h2]

theorem mem_bindingEntryFindings_id_required (assertions : List Assertion)
    (seen : List String) (i : Nat) (t : TestBinding) :
    { Path := testPfx i ++ ".id", Msg := "required" } ∈
        bindingEntryFindings assertions seen i t ↔
      strings.TrimSpace t.ID = "" := by
  simp only [bindingEntryFindings, List.mem_append,
    not_mem_bindingCoversFindings assertions i t ".id" _ (Or.inl rfl), or_false]
  unfold bindingIdFindings bindingKindFindings bindingPathFindings bindingRequiredFindings
  by_cases h1 : strings.TrimSpace t.ID = "" <;> by_cases h2 : t.ID ∈ seen <;>
    split_ifs <;> simp [String_append_right_inj, h1, h2]

theorem mem_bindingEntryFindings_kind_required (assertions : List Assertion)
    (seen : List String) (i : Nat) (t : TestBinding) :
    { Path := testPfx i ++ ".kind", Msg := "required" } ∈
        bindingEntryFindings assertions seen i t ↔
      strings.TrimSpace t.Kind = "" := by
  simp only [bindingEntryFindings, List.mem_append,
    not_mem_bindingCoversFindings assertions i t ".kind" _ (Or.inr (Or.inl rfl)), or_false]
  unfold bindingIdFindings bindingKindFindings bindingPathFindings bindingRequiredFindings
  by_cases h1 : strings.TrimSpace t.Kind = "" <;>
    split_ifs <;> simp [String_append_right_inj, h1]

theorem mem_bindingEntryFindings_kind_unsupported (assertions : List Assertion)
    (seen : List String) (i : Nat) (t : TestBinding) :
    { Path := testPfx i ++ ".kind",
      Msg := "unsupported kind (v0.0.1 supports postman|sql)" } ∈
        bindingEntryFindings assertions seen i t ↔
      strings.TrimSpace t.Kind ≠ "" ∧ ¬ (t.Kind = "postman" ∨ t.Kind = "sql") := by
  simp only [bindingEntryFindings, List.mem_append,
    not_mem_bindingCoversFindings assertions i t ".kind" _ (Or.inr (Or.inl rfl)), or_false]
  unfold bindingIdFindings bindingKindFindings bindingPathFindings bindingRequiredFindings
  by_cases h1 : strings.TrimSpace t.Kind = "" <;>
    by_cases h2 : (t.Kind = "postman" ∨ t.Kind = "sql") <;>
    split_ifs <;> simp [String_append_right_inj, h1, h2]

theorem mem_bindingEntryFindings_path_required (assertions : List Assertion)
    (seen : List String) (i : Nat) (t : TestBinding) :
    { Path := testPfx i ++ ".path", Msg := "required" } ∈
        bindingEntryFindings assertions seen i t ↔
      strings.TrimSpace t.Path = "" := by
  simp only [bindingEntryFindings, List.mem_append,
    not_mem_bindingCoversFindings assertions i t ".path" _ (Or.inr (Or.inr (Or.inl rfl))),
    or_false]
  unfold bindingIdFindings bindingKindFindings bindingPathFindings bindingRequiredFindings
  by_cases h1 : strings.TrimSpace t.Path = "" <;>
    split_ifs <;> simp [String_append_right_inj, h1]

theorem mem_bindingEntryFindings_covers_required (assertions : List Assertion)
    (seen : List String) (i : Nat) (t : TestBinding) :
    { Path := testPfx i ++ ".covers",
      Msg := "required tests should cover at least one assertion" } ∈
        bindingEntryFindings assertions seen i t ↔
      t.Required = true ∧ t.Covers = [] := by
  simp only [bindingEntryFindings, List.mem_append,
    not_mem_bindingCoversFindings assertions i t ".covers" _ (Or.inr (Or.inr (Or.inr rfl))),
    or_false]
  unfold bindingIdFindings bindingKindFindings bindingPathFindings bindingRequiredFindings
  by_cases h1 : t.Required = true ∧ t.Covers = [] <;>
    split_ifs <;> simp [String_append_right_inj, h1]

/-- Under a filter that rejects the four fixed paths of a test binding, only
the covers entries of the binding remain. -/
theorem bindingEntryFindings_filter_covers (assertions : List Assertion)
    (seen : List String) (i : Nat) (t : TestBinding) (P : ValidationError → Bool)
    (hP : ∀ sfx msg, (sfx = ".id" ∨ sfx = ".kind" ∨ sfx = ".path" ∨ sfx = ".covers") →
      P { Path := testPfx i ++ sfx, Msg := msg } = false) :
    (bindingEntryFindings assertions seen i t).filter P =
      (bindingCoversFindings assertions i t).filter P := by
  have h1 : (bindingIdFindings seen i t).filter P = [] := by
    unfold bindingIdFindings
    split_ifs <;> simp [List.filter, hP]
  have h2 : (bindingKindFindings i t).filter P = [] := by
    unfold bindingKindFindings
    split_ifs <;> simp [List.filter, hP]
  have h3 : (bindingPathFindings i t).filter P = [] := by
    unfold bindingPathFindings
    split_ifs <;> simp [List.filter, hP]
  have h4 : (bindingRequiredFindings i t).filter P = [] := by
    unfold bindingRequiredFindings
    split_ifs <;> simp [List.filter, hP]
  simp only [bindingEntryFindings, List.filter_append, h1, h2, h3, h4, List.nil_append,
    List.append_nil]

/-- The findings of a test binding at the path of its covers entry `j`. -/
theorem bindingEntryFindings_filter_covers_entry (assertions : List Assertion)
    (seen : List String) (i : Nat) (t : TestBinding) (j : Nat) (x : String)
    (hx : t.Covers[j]? = some x) :
    (bindingEntryFindings assertions seen i t).filter
        (fun e => e.Path = testPfx i ++ ".covers[" ++ toString j ++ "]") =
      if Resolves assertions x then []
      else
        [{ Path := testPfx i ++ ".covers[" ++ toString j ++ "]",
           Msg := "unknown assertion id '" ++ x ++ "'" }] := by
  rw [bindingEntryFindings_filter_covers]
  · unfold bindingCoversFindings
    rw [filter_enum_flatMap _ _ j _ x hx]
    · by_cases hr : Resolves assertions x <;> simp [hr, List.filter]
    · intro k b hk e he
      by_cases hr : Resolves assertions b
      · simp [hr] at he
      · simp only [hr, if_false, List.mem_singleton] at he
        rw [he, decide_eq_false_iff_not]
        intro hp
        exact hk ((indexed_path_inj (testPfx i ++ ".covers[") k j "" "").mp
          (by simpa using hp)).1
  · intro sfx msg hs
    rw [decide_eq_false_iff_not]
    intro hp
    simp only [String.append_assoc, String_append_right_inj] at hp
    exact covers_sfx_ne j sfx hs hp.symm

/-- The findings of a test binding below `covers[` are its covers findings. -/
theorem bindingEntryFindings_filter_covers_all (assertions : List Assertion)
    (seen : List String) (i : Nat) (t : TestBinding) :
    (bindingEntryFindings assertions seen i t).filter
        (fun e => strings.HasPrefix e.Path (testPfx i ++ ".covers[")) =
      bindingCoversFindings assertions i t := by
  rw [bindingEntryFindings_filter_covers]
  · apply filter_eq_self_of_forall
    intro e he
    obtain ⟨j, x, _, _, hex⟩ := bindingCoversFindings_paths _ _ _ e he
    rw [hex]
    exact HasPrefix_append _ _ _ (HasPrefix_self_append _ _)
  · intro sfx msg hs
    show strings.HasPrefix (testPfx i ++ sfx) (testPfx i ++ ".covers[") = false
    rw [HasPrefix_append_cancel]
    rcases hs with hs | hs | hs | hs <;> rw [hs] <;> decide

/-- One covers finding for each unresolved covers entry. -/
theorem length_covers_findings {β : Type} (R : String → Prop) [DecidablePred R]
    (h : Nat × String → β) (l : List String) :
    ∀ n : Nat, ((l.enumFrom n).flatMap (fun p => if R p.2 then [] else [h p])).length =
      (l.filter (fun x => decide (¬ R x))).length := by
  induction l with
  | nil => intro n; rfl
  | cons x rest ih =>
    intro n
    rw [List.enumFrom_cons, List.flatMap_cons, List.length_append, ih (n + 1)]
    by_cases hr : R x <;> simp [hr, List.filter, Nat.add_comm]

/-- A filter that only paths below the test binding index `i` pass sees the
findings of that entry only. -/
theorem errs_filter_binding_entry_sub (c : Contract) (i : Nat) (t : TestBinding)
    (ht : c.Spec.Bindings.Tests[i]? = some t) (P : ValidationError → Bool)
    (hP : ∀ e, P e = true → strings.HasPrefix e.Path (testPfx i) = true) :
    (ValidateContract.errs (some c)).filter P =
      (bindingEntryFindings c.Spec.Assertions
        ((c.Spec.Bindings.Tests.take i).map (fun t => t.ID)) i t).filter P := by
  rw [← errs_filter_binding_entry c i t ht, List.filter_filter]
  apply List.filter_congr
  intro e _
  cases hpe : P e with
  | false => rfl
  | true => rw [hP e hpe]; rfl

theorem HasPrefix_covers_path (i j : Nat) :
    strings.HasPrefix (testPfx i ++ ".covers[" ++ toString j ++ "]") (testPfx i) = true :=
  HasPrefix_append _ _ _ (HasPrefix_append _ _ _ (HasPrefix_self_append _ _))

theorem take_set_self {α : Type} (l : List α) :
    ∀ (i : Nat) (a : α), (l.set i a).take i = l.take i := by
  induction l with
  | nil => intro i a; simp
  | cons b rest ih =>
    intro i a
    cases i with
    | zero => simp
    | succ i => simp [ih i a]

/-- The findings of a test binding at its kind path are those of the kind
check. -/
theorem bindingEntryFindings_filter_kind (assertions : List Assertion) (seen : List String)
    (i : Nat) (t : TestBinding) :
    (bindingEntryFindings assertions seen i t).filter
        (fun e => e.Path = testPfx i ++ ".kind") =
      bindingKindFindings i t := by
  have h1 : (bindingIdFindings seen i t).filter (fun e => e.Path = testPfx i ++ ".kind") =
      [] := by
    unfold bindingIdFindings
    split_ifs <;> simp [List.filter, String_append_right_inj]
  have h2 : (bindingKindFindings i t).filter (fun e => e.Path = testPfx i ++ ".kind") =
      bindingKindFindings i t := by
    unfold bindingKindFindings
    split_ifs <;> simp [List.filter]
  have h3 : (bindingPathFindings i t).filter (fun e => e.Path = testPfx i ++ ".kind") =
      [] := by
    unfold bindingPathFindings
    split_ifs <;> simp [List.filter, String_append_right_inj]
  have h4 : (bindingRequiredFindings i t).filter (fun e => e.Path = testPfx i ++ ".kind") =
      [] := by
    unfold bindingRequiredFindings
    split_ifs <;> simp [List.filter, String_append_right_inj]
  have h5 : (bindingCoversFindings assertions i t).filter
      (fun e => e.Path = testPfx i ++ ".kind") = [] := by
    apply filter_eq_nil_of_forall
    intro e he
    rw [decide_eq_false_iff_not]
    intro hp
    have : ({ Path := testPfx i ++ ".kind", Msg := e.Msg } : ValidationError) = e := by
      rw [← hp]
    rw [← this] at he
    exact not_mem_bindingCoversFindings assertions i t ".kind" _ (Or.inr (Or.inl rfl)) he
  simp only [bindingEntryFindings, List.filter_append, h1, h2, h3, h4, h5, List.nil_append,
    List.append_nil]

/-- The findings of a test binding away from its kind path are those of the
other four checks. -/
theorem bindingEntryFindings_filter_not_kind (assertions : List Assertion)
    (seen : List String) (i : Nat) (t : TestBinding) :
    (bindingEntryFindings assertions seen i t).filter
        (fun e => decide (e.Path ≠ testPfx i ++ ".kind")) =
      bindingIdFindings seen i t ++ bindingPathFindings i t ++
        bindingCoversFindings assertions i t ++ bindingRequiredFindings i t := by
  have h1 : (bindingIdFindings seen i t).filter
      (fun e => decide (e.Path ≠ testPfx i ++ ".kind")) = bindingIdFindings seen i t := by
    unfold bindingIdFindings
    split_ifs <;> simp [List.filter, String_append_right_inj]
  have h2 : (bindingKindFindings i t).filter
      (fun e => decide (e.Path ≠ testPfx i ++ ".kind")) = [] := by
    unfold bindingKindFindings
    split_ifs <;> simp [List.filter]
  have h3 : (bindingPathFindings i t).filter
      (fun e => decide (e.Path ≠ testPfx i ++ ".kind")) = bindingPathFindings i t := by
    unfold bindingPathFindings
    split_ifs <;> simp [List.filter, String_append_right_inj]
  have h4 : (bindingRequiredFindings i t).filter
      (fun e => decide (e.Path ≠ testPfx i ++ ".kind")) = bindingRequiredFindings i t := by
    unfold bindingRequiredFindings
    split_ifs <;> simp [List.filter, String_append_right_inj]
  have h5 : (bindingCoversFindings assertions i t).filter
      (fun e => decide (e.Path ≠ testPfx i ++ ".kind")) =
        bindingCoversFindings assertions i t := by
    apply filter_eq_self_of_forall
    intro e he
    rw [decide_eq_true_eq]
    intro hp
    have : ({ Path := testPfx i ++ ".kind", Msg := e.Msg } : ValidationError) = e := by
      rw [← hp]
    rw [← this] at he
    exact not_mem_bindingCoversFindings assertions i t ".kind" _ (Or.inr (Or.inl rfl)) he
  simp only [bindingEntryFindings, List.filter_append, h1, h2, h3, h4, h5, List.append_nil]

theorem mem_bindingEntryFindings_covers_entry (assertions : List Assertion)
    (seen : List String) (i : Nat) (t : TestBinding) (j : Nat) (x : String)
    (hx : t.Covers[j]? = some x) :
    { Path := testPfx i ++ ".covers[" ++ toString j ++ "]",
      Msg := "unknown assertion id '" ++ x ++ "'" } ∈
        bindingEntryFindings assertions seen i t ↔
      ¬ Resolves assertions x := by
  have hf := bindingEntryFindings_filter_covers_entry assertions seen i t j x hx
  constructor
  · intro hmem hres
    have : { Path := testPfx i ++ ".covers[" ++ toString j ++ "]",
             Msg := "unknown assertion id '" ++ x ++ "'" } ∈
        (bindingEntryFindings assertions seen i t).filter
          (fun e => e.Path = testPfx i ++ ".covers[" ++ toString j ++ "]") :=
      List.mem_filter.mpr ⟨hmem, by simp⟩
    rw [hf, if_pos hres] at this
    exact absurd this (List.not_mem_nil _)
  · intro hres
    have : { Path := testPfx i ++ ".covers[" ++ toString j ++ "]",
             Msg := "unknown assertion id '" ++ x ++ "'" } ∈
        (bindingEntryFindings assertions seen i t).filter
          (fun e => e.Path = testPfx i ++ ".covers[" ++ toString j ++ "]") := by
      rw [hf, if_neg hres]
      exact List.mem_singleton.mpr rfl
    exact (List.mem_filter.mp this).1

/-! ## The claims on assertions, bindings, order and rendering -/

/-- C11 as stated fails in its count: the blank id of the two assertions
below occurs twice, both are reported as `required`, and no index carries a
duplicate finding, so that not every id occurring `k` times yields `k - 1`
duplicate findings. -/
theorem duplicate_assertion_id_counterexample :
    (validateAssertions [{ ID := "", Text := "x" }, { ID := "", Text := "y" }] []).2 =
      [{ Path := "spec.assertions[0].id", Msg := "required" },
       { Path := "spec.assertions[1].id", Msg := "required" }] ∧
    ([{ ID := "", Text := "x" }, { ID := "", Text := "y" }] : List Assertion).countP
      (fun a => a.ID = "") = 2 ∧
    ¬ ∀ (l : List Assertion) (x : String),
      ((List.range l.length).filter (fun i =>
        decide ({ Path := assertionPfx i ++ ".id", Msg := "duplicate assertion id" } ∈
          (validateAssertions l []).2) &&
        decide ((l[i]?).map (fun a => a.ID) = some x))).length =
      l.countP (fun a => a.ID = x) - 1 := by
  refine ⟨by decide, by decide, ?_⟩
  intro h
  have := h [{ ID := "", Text := "x" }, { ID := "", Text := "y" }] ""
  revert this
  decide

/-- C11, amended. For every assertion sequence `validateAssertions` reports
(`spec.assertions[i].id`, `duplicate assertion id`) at index `i` exactly when
the id at `i` is non-blank and an earlier index carries exactly the same id.
Hence the first occurrence of an id is never flagged; a non-blank id that
occurs `k` times is flagged at `k - 1` indices, a blank id at none; and two
assertions sharing the id `a1` give exactly one such finding, at index 1. -/
theorem duplicate_assertion_id (l : List Assertion) :
    (∀ i : Nat,
      { Path := assertionPfx i ++ ".id", Msg := "duplicate assertion id" } ∈
          (validateAssertions l []).2 ↔
        ∃ a, l[i]? = some a ∧ strings.TrimSpace a.ID ≠ "" ∧
          ∃ j b, j < i ∧ l[j]? = some b ∧ b.ID = a.ID) ∧
    (∀ (i : Nat) (a : Assertion), l[i]? = some a →
      (∀ j b, j < i → l[j]? = some b → b.ID ≠ a.ID) →
      { Path := assertionPfx i ++ ".id", Msg := "duplicate assertion id" } ∉
        (validateAssertions l []).2) ∧
    (∀ x : String, strings.TrimSpace x ≠ "" →
      ((List.range l.length).filter (fun i =>
        decide ({ Path := assertionPfx i ++ ".id", Msg := "duplicate assertion id" } ∈
          (validateAssertions l []).2) &&
        decide ((l[i]?).map (fun a => a.ID) = some x))).length =
      l.countP (fun a => a.ID = x) - 1) ∧
    (∀ x : String, strings.TrimSpace x = "" →
      ((List.range l.length).filter (fun i =>
        decide ({ Path := assertionPfx i ++ ".id", Msg := "duplicate assertion id" } ∈
          (validateAssertions l []).2) &&
        decide ((l[i]?).map (fun a => a.ID) = some x))).length = 0) ∧
    (validateAssertions
        [{ ID := "a1", Text := "Status is 200" }, { ID := "a1", Text := "duplicate" }] []).2 =
      [{ Path := "spec.assertions[1].id", Msg := "duplicate assertion id" }] := by
  have hiff : ∀ i : Nat,
      { Path := assertionPfx i ++ ".id", Msg := "duplicate assertion id" } ∈
          (validateAssertions l []).2 ↔
        ∃ a, l[i]? = some a ∧ strings.TrimSpace a.ID ≠ "" ∧
          ∃ j b, j < i ∧ l[j]? = some b ∧ b.ID = a.ID := by
    intro i
    rw [mem_validateAssertions_dup]
    simp only [mem_map_take_iff]
  refine ⟨hiff, ?_, ?_, ?_, by decide⟩
  · intro i a ha hno hmem
    obtain ⟨a0, ha0, _, j, b, hj, hb, hba⟩ := (hiff i).mp hmem
    rw [ha] at ha0
    cases ha0
    exact hno j b hj hb hba
  · intro x hx
    rw [← count_repeated l x]
    congr 1
    apply List.filter_congr
    intro i _
    rw [← Bool.decide_and, decide_eq_decide, mem_validateAssertions_dup]
    constructor
    · rintro ⟨⟨a, ha, _, hm⟩, hi⟩
      rw [ha, Option.map_some', Option.some.injEq] at hi
      exact ⟨by rw [ha, Option.map_some', hi], hi ▸ hm⟩
    · rintro ⟨hi, hm⟩
      rcases hl : l[i]? with _ | a
      · rw [hl] at hi
        exact Option.noConfusion hi
      · rw [hl, Option.map_some', Option.some.injEq] at hi
        exact ⟨⟨a, rfl, hi ▸ hx, hi ▸ hm⟩, by rw [Option.map_some', hi]⟩
  · intro x hx
    rw [List.length_eq_zero, List.filter_eq_nil_iff]
    intro i _
    rw [← Bool.decide_and, decide_eq_true_eq, mem_validateAssertions_dup]
    rintro ⟨⟨a, ha, hnb, _⟩, hi⟩
    rw [ha, Option.map_some', Option.some.injEq] at hi
    exact hnb (hi ▸ hx)

/-- C11 amended, at three assertions with ids `a1`, `b`, `a1`: the id `a1`
occurs twice and is flagged at one index. -/
theorem duplicate_assertion_id_witness :
    ((List.range 3).filter (fun i =>
        decide ({ Path := assertionPfx i ++ ".id", Msg := "duplicate assertion id" } ∈
          (validateAssertions
            [{ ID := "a1", Text := "x" }, { ID := "b", Text := "y" },
             { ID := "a1", Text := "z" }] []).2) &&
        decide (([{ ID := "a1", Text := "x" }, { ID := "b", Text := "y" },
             { ID := "a1", Text := "z" }][i]?).map (fun a : Assertion => a.ID) =
          some "a1"))).length = 1 :=
  (duplicate_assertion_id
    [{ ID := "a1", Text := "x" }, { ID := "b", Text := "y" },
     { ID := "a1", Text := "z" }]).2.2.1 "a1" (by decide)

/-- C12. For the assertion at index `i` of a contract: when its id is blank,
the findings whose path starts with `spec.assertions[i]` are exactly the one
finding (`spec.assertions[i].id`, `required`), whatever its text is, and the
loop goes on with the later assertions; when its id is non-blank,
(`spec.assertions[i].text`, `required`) is among the findings exactly when
its text is blank, whether or not the id repeats an earlier one. -/
theorem assertion_id_blank_or_text (c : Contract) (i : Nat) (a : Assertion)
    (ha : c.Spec.Assertions[i]? = some a) :
    (strings.TrimSpace a.ID = "" →
      (ValidateContract.errs (some c)).filter
          (fun e => strings.HasPrefix e.Path (assertionPfx i)) =
        [{ Path := assertionPfx i ++ ".id", Msg := "required" }]) ∧
    (strings.TrimSpace a.ID = "" →
      ∀ (rest : List Assertion) (k : Nat) (ids : AssertionIDSet) (errs : ValidationErrors),
        validateAssertions.loop (a :: rest) k ids errs =
          validateAssertions.loop rest (k + 1) ids
            (errs ++ [{ Path := assertionPfx k ++ ".id", Msg := "required" }])) ∧
    (strings.TrimSpace a.ID ≠ "" →
      ({ Path := assertionPfx i ++ ".text", Msg := "required" } ∈
          ValidateContract.errs (some c) ↔
        strings.TrimSpace a.Text = "")) := by
  refine ⟨?_, ?_, ?_⟩
  · intro hb
    rw [errs_filter_assertion_entry c i a ha]
    simp only [assertionEntryFindings, hb, if_true]
  · intro hb rest k ids errs
    simp only [validateAssertions.loop, hb, if_true, ValidationErrors.Add, assertionPfx]
  · intro hb
    rw [mem_errs_assertion_entry c i a ha _ (HasPrefix_self_append _ _)]
    unfold assertionEntryFindings
    by_cases h2 : a.ID ∈ (c.Spec.Assertions.take i).map (fun a => a.ID) <;>
      by_cases h3 : strings.TrimSpace a.Text = "" <;>
      simp [hb, h2, h3, String_append_right_inj]

/-- C12, at a contract whose first assertion has a blank id and a blank text
and whose second assertion has a blank text: one finding for the first, and
the second is still checked. -/
theorem assertion_id_blank_or_text_witness :
    ValidateContract.errs (some { validContract with
        Spec := { validContract.Spec with
          Assertions := [{ ID := " ", Text := "" }, { ID := "a1", Text := "" }] } }) =
      [{ Path := "spec.assertions[0].id", Msg := "required" },
       { Path := "spec.assertions[1].text", Msg := "required" }] ∧
    (ValidateContract.errs (some { validContract with
        Spec := { validContract.Spec with
          Assertions := [{ ID := " ", Text := "" }, { ID := "a1", Text := "" }] } })).filter
        (fun e => strings.HasPrefix e.Path (assertionPfx 0)) =
      [{ Path := assertionPfx 0 ++ ".id", Msg := "required" }] ∧
    ({ Path := assertionPfx 1 ++ ".text", Msg := "required" } ∈
        ValidateContract.errs (some { validContract with
          Spec := { validContract.Spec with
            Assertions := [{ ID := " ", Text := "" }, { ID := "a1", Text := "" }] } }) ↔
      strings.TrimSpace "" = "") :=
  ⟨by decide,
    (assertion_id_blank_or_text
      { validContract with
        Spec := { validContract.Spec with
          Assertions := [{ ID := " ", Text := "" }, { ID := "a1", Text := "" }] } }
      0 { ID := " ", Text := "" } rfl).1 (by decide),
    (assertion_id_blank_or_text
      { validContract with
        Spec := { validContract.Spec with
          Assertions := [{ ID := " ", Text := "" }, { ID := "a1", Text := "" }] } }
      1 { ID := "a1", Text := "" } rfl).2.2 (by decide)⟩

/-- C13. For the test binding at index `i` of a contract and its covers entry
`x` at position `j`: the findings contain
(`spec.bindings.tests[i].covers[j]`, `unknown assertion id 'x'`) exactly when
no assertion of the contract with a non-blank id has exactly the id `x`; it is
then the only finding at that path; and the number of findings of the binding
below `covers[` is the number of its unresolved covers entries. -/
theorem unknown_assertion_id (c : Contract) (i : Nat) (t : TestBinding)
    (ht : c.Spec.Bindings.Tests[i]? = some t) :
    (∀ (j : Nat) (x : String), t.Covers[j]? = some x →
      ({ Path := testPfx i ++ ".covers[" ++ toString j ++ "]",
         Msg := "unknown assertion id '" ++ x ++ "'" } ∈ ValidateContract.errs (some c) ↔
        ¬ ∃ a ∈ c.Spec.Assertions, strings.TrimSpace a.ID ≠ "" ∧ a.ID = x) ∧
      (ValidateContract.errs (some c)).filter
          (fun e => e.Path = testPfx i ++ ".covers[" ++ toString j ++ "]") =
        if ∃ a ∈ c.Spec.Assertions, strings.TrimSpace a.ID ≠ "" ∧ a.ID = x then []
        else
          [{ Path := testPfx i ++ ".covers[" ++ toString j ++ "]",
             Msg := "unknown assertion id '" ++ x ++ "'" }]) ∧
    ((ValidateContract.errs (some c)).filter
        (fun e => strings.HasPrefix e.Path (testPfx i ++ ".covers["))).length =
      (t.Covers.filter (fun x =>
        decide (¬ ∃ a ∈ c.Spec.Assertions, strings.TrimSpace a.ID ≠ "" ∧ a.ID = x))).length := by
  constructor
  · intro j x hx
    have hf : (ValidateContract.errs (some c)).filter
          (fun e => e.Path = testPfx i ++ ".covers[" ++ toString j ++ "]") =
        if ∃ a ∈ c.Spec.Assertions, strings.TrimSpace a.ID ≠ "" ∧ a.ID = x then []
        else
          [{ Path := testPfx i ++ ".covers[" ++ toString j ++ "]",
             Msg := "unknown assertion id '" ++ x ++ "'" }] := by
      rw [errs_filter_binding_entry_sub c i t ht,
        bindingEntryFindings_filter_covers_entry _ _ _ _ j x hx]
      · rfl
      · intro e he
        rw [decide_eq_true_eq] at he
        rw [he]
        exact HasPrefix_covers_path i j
    refine ⟨?_, hf⟩
    constructor
    · intro hmem hres
      have : { Path := testPfx i ++ ".covers[" ++ toString j ++ "]",
               Msg := "unknown assertion id '" ++ x ++ "'" } ∈
          (ValidateContract.errs (some c)).filter
            (fun e => e.Path = testPfx i ++ ".covers[" ++ toString j ++ "]") :=
        List.mem_filter.mpr ⟨hmem, by simp⟩
      rw [hf, if_pos hres] at this
      exact absurd this (List.not_mem_nil _)
    · intro hres
      have : { Path := testPfx i ++ ".covers[" ++ toString j ++ "]",
               Msg := "unknown assertion id '" ++ x ++ "'" } ∈
          (ValidateContract.errs (some c)).filter
            (fun e => e.Path = testPfx i ++ ".covers[" ++ toString j ++ "]") := by
        rw [hf, if_neg hres]
        exact List.mem_singleton.mpr rfl
      exact (List.mem_filter.mp this).1
  · rw [errs_filter_binding_entry_sub c i t ht, bindingEntryFindings_filter_covers_all]
    · unfold bindingCoversFindings
      exact length_covers_findings (Resolves c.Spec.Assertions) _ t.Covers 0
    · intro e he
      exact HasPrefix_trans _ _ _ he (HasPrefix_self_append _ _)

/-- C13, at the contract of the test `Test Covers Non-Existent Assertion` with
the covers list `ghost`: exactly one finding, at `covers[0]`. -/
theorem unknown_assertion_id_witness :
    ValidateContract.errs (some { validContract with
        Spec := { validContract.Spec with
          Bindings := { Tests := [{ ID := "t1", Kind := "postman", Path := "./tests/t1.json"
                                    Required := true, Covers := ["ghost"] }] } } }) =
      [{ Path := "spec.bindings.tests[0].covers[0]",
         Msg := "unknown assertion id 'ghost'" }] ∧
    ((ValidateContract.errs (some { validContract with
        Spec := { validContract.Spec with
          Bindings := { Tests := [{ ID := "t1", Kind := "postman", Path := "./tests/t1.json"
                                    Required := true, Covers := ["ghost"] }] } } })).filter
        (fun e => strings.HasPrefix e.Path (testPfx 0 ++ ".covers["))).length = 1 :=
  ⟨by decide,
    (unknown_assertion_id
      { validContract with
        Spec := { validContract.Spec with
          Bindings := { Tests := [{ ID := "t1", Kind := "postman", Path := "./tests/t1.json"
                                    Required := true, Covers := ["ghost"] }] } } }
      0 { ID := "t1", Kind := "postman", Path := "./tests/t1.json"
          Required := true, Covers := ["ghost"] } rfl).2⟩

/-- C14. For the test binding at index `i` of a contract the findings contain
(`spec.bindings.tests[i].covers`, `required tests should cover at least one
assertion`) exactly when the binding is required and its covers list is empty,
whatever its id, kind and path are. -/
theorem required_binding_covers (c : Contract) (i : Nat) (t : TestBinding)
    (ht : c.Spec.Bindings.Tests[i]? = some t) :
    { Path := testPfx i ++ ".covers",
      Msg := "required tests should cover at least one assertion" } ∈
        ValidateContract.errs (some c) ↔
      t.Required = true ∧ t.Covers = [] := by
  rw [mem_errs_binding_entry c i t ht _ (HasPrefix_self_append _ _),
    mem_bindingEntryFindings_covers_required]

/-- C14, at a required binding without covers whose id, kind and path are all
blank. -/
theorem required_binding_covers_witness :
    { Path := testPfx 0 ++ ".covers",
      Msg := "required tests should cover at least one assertion" } ∈
        ValidateContract.errs (some { validContract with
          Spec := { validContract.Spec with
            Bindings := { Tests := [{ ID := "", Kind := "curl", Path := " "
                                      Required := true, Covers := [] }] } } }) :=
  (required_binding_covers
    { validContract with
      Spec := { validContract.Spec with
        Bindings := { Tests := [{ ID := "", Kind := "curl", Path := " "
                                  Required := true, Covers := [] }] } } }
    0 { ID := "", Kind := "curl", Path := " ", Required := true, Covers := [] } rfl).mpr
    ⟨rfl, rfl⟩

/-- C15. For the test binding at index `i` of a contract whose kind is
non-blank and neither `postman` nor `sql`: the findings at
`spec.bindings.tests[i].kind` are exactly the one finding `unsupported kind
(v0.0.1 supports postman|sql)`, and the other findings of that binding (id,
path, covers entries, covers) are those of the same contract with the kind of
this binding replaced by `postman`. -/
theorem unsupported_test_kind (c : Contract) (i : Nat) (t : TestBinding)
    (ht : c.Spec.Bindings.Tests[i]? = some t)
    (hb : strings.TrimSpace t.Kind ≠ "") (hk : t.Kind ≠ "postman" ∧ t.Kind ≠ "sql") :
    (ValidateContract.errs (some c)).filter (fun e => e.Path = testPfx i ++ ".kind") =
      [{ Path := testPfx i ++ ".kind",
         Msg := "unsupported kind (v0.0.1 supports postman|sql)" }] ∧
    ((ValidateContract.errs (some c)).filter
        (fun e => strings.HasPrefix e.Path (testPfx i))).filter
        (fun e => decide (e.Path ≠ testPfx i ++ ".kind")) =
      (ValidateContract.errs (some { c with
          Spec := { c.Spec with
            Bindings := { Tests :=
              c.Spec.Bindings.Tests.set i { t with Kind := "postman" } } } })).filter
        (fun e => strings.HasPrefix e.Path (testPfx i)) := by
  constructor
  · rw [errs_filter_binding_entry_sub c i t ht, bindingEntryFindings_filter_kind]
    · have hk2 : ¬ (t.Kind = "postman" ∨ t.Kind = "sql") := fun h => h.elim hk.1 hk.2
      simp only [bindingKindFindings, if_neg hb, if_neg hk2]
    · intro e he
      rw [decide_eq_true_eq] at he
      rw [he]
      exact HasPrefix_self_append _ _
  · have hi : i < c.Spec.Bindings.Tests.length := (List.getElem?_eq_some_iff.mp ht).1
    rw [errs_filter_binding_entry c i t ht, bindingEntryFindings_filter_not_kind,
      errs_filter_binding_entry _ i { t with Kind := "postman" }
        (List.getElem?_set_self hi)]
    have hp : ¬ strings.TrimSpace "postman" = "" := by decide
    simp only [take_set_self, bindingEntryFindings, bindingIdFindings, bindingKindFindings,
      bindingPathFindings, bindingCoversFindings, bindingRequiredFindings, if_neg hp, true_or,
      if_true, List.append_nil]

/-- C15, at the contract of the test `Invalid Test Kind` (kind `curl`). -/
theorem unsupported_test_kind_witness :
    (ValidateContract.errs (some { validContract with
        Spec := { validContract.Spec with
          Bindings := { Tests := [{ ID := "t1", Kind := "curl", Path := ""
                                    Required := true, Covers := ["ghost"] }] } } })).filter
        (fun e => e.Path = testPfx 0 ++ ".kind") =
      [{ Path := testPfx 0 ++ ".kind",
         Msg := "unsupported kind (v0.0.1 supports postman|sql)" }] ∧
    ValidateContract.errs (some { validContract with
        Spec := { validContract.Spec with
          Bindings := { Tests := [{ ID := "t1", Kind := "curl", Path := ""
                                    Required := true, Covers := ["ghost"] }] } } }) =
      [{ Path := "spec.bindings.tests[0].kind",
         Msg := "unsupported kind (v0.0.1 supports postman|sql)" },
       { Path := "spec.bindings.tests[0].path", Msg := "required" },
       { Path := "spec.bindings.tests[0].covers[0]",
         Msg := "unknown assertion id 'ghost'" }] :=
  ⟨(unsupported_test_kind
      { validContract with
        Spec := { validContract.Spec with
          Bindings := { Tests := [{ ID := "t1", Kind := "curl", Path := ""
                                    Required := true, Covers := ["ghost"] }] } } }
      0 { ID := "t1", Kind := "curl", Path := "", Required := true, Covers := ["ghost"] }
      rfl (by decide) (by decide)).1,
    by decide⟩

/-- C16. For the test binding at index `i` of a contract the findings contain
(`spec.bindings.tests[i].id`, `duplicate test id`) exactly when its id is
non-blank and an earlier binding carries exactly the same id, and
(`spec.bindings.tests[i].id`, `required`) exactly when its id is blank. The
kind, path and covers checks of the binding are made whatever its id is; for
a blank id the findings of the binding are the `required` finding followed by
those of the kind, path and covers checks. -/
theorem test_id_findings (c : Contract) (i : Nat) (t : TestBinding)
    (ht : c.Spec.Bindings.Tests[i]? = some t) :
    ({ Path := testPfx i ++ ".id", Msg := "duplicate test id" } ∈
        ValidateContract.errs (some c) ↔
      strings.TrimSpace t.ID ≠ "" ∧
        ∃ j b, j < i ∧ c.Spec.Bindings.Tests[j]? = some b ∧ b.ID = t.ID) ∧
    ({ Path := testPfx i ++ ".id", Msg := "required" } ∈ ValidateContract.errs (some c) ↔
      strings.TrimSpace t.ID = "") ∧
    ({ Path := testPfx i ++ ".kind", Msg := "required" } ∈ ValidateContract.errs (some c) ↔
      strings.TrimSpace t.Kind = "") ∧
    ({ Path := testPfx i ++ ".kind",
       Msg := "unsupported kind (v0.0.1 supports postman|sql)" } ∈
        ValidateContract.errs (some c) ↔
      strings.TrimSpace t.Kind ≠ "" ∧ ¬ (t.Kind = "postman" ∨ t.Kind = "sql")) ∧
    ({ Path := testPfx i ++ ".path", Msg := "required" } ∈ ValidateContract.errs (some c) ↔
      strings.TrimSpace t.Path = "") ∧
    (∀ (j : Nat) (x : String), t.Covers[j]? = some x →
      ({ Path := testPfx i ++ ".covers[" ++ toString j ++ "]",
         Msg := "unknown assertion id '" ++ x ++ "'" } ∈ ValidateContract.errs (some c) ↔
        ¬ ∃ a ∈ c.Spec.Assertions, strings.TrimSpace a.ID ≠ "" ∧ a.ID = x)) ∧
    (strings.TrimSpace t.ID = "" →
      (ValidateContract.errs (some c)).filter
          (fun e => strings.HasPrefix e.Path (testPfx i)) =
        { Path := testPfx i ++ ".id", Msg := "required" } ::
          (bindingKindFindings i t ++ bindingPathFindings i t ++
            bindingCoversFindings c.Spec.Assertions i t ++ bindingRequiredFindings i t)) := by
  refine ⟨?_, ?_, ?_, ?_, ?_, ?_, ?_⟩
  · rw [mem_errs_binding_entry c i t ht _ (HasPrefix_self_append _ _),
      mem_bindingEntryFindings_id_dup, mem_map_take_iff]
  · rw [mem_errs_binding_entry c i t ht _ (HasPrefix_self_append _ _),
      mem_bindingEntryFindings_id_required]
  · rw [mem_errs_binding_entry c i t ht _ (HasPrefix_self_append _ _),
      mem_bindingEntryFindings_kind_required]
  · rw [mem_errs_binding_entry c i t ht _ (HasPrefix_self_append _ _),
      mem_bindingEntryFindings_kind_unsupported]
  · rw [mem_errs_binding_entry c i t ht _ (HasPrefix_self_append _ _),
      mem_bindingEntryFindings_path_required]
  · intro j x hx
    rw [mem_errs_binding_entry c i t ht _ (HasPrefix_covers_path i j),
      mem_bindingEntryFindings_covers_entry _ _ _ _ j x hx]
    rfl
  · intro hb
    rw [errs_filter_binding_entry c i t ht]
    simp only [bindingEntryFindings, bindingIdFindings, if_pos hb, List.singleton_append,
      List.cons_append, List.append_assoc, List.nil_append]

/-- C16, at a contract whose second binding repeats the id `t1` and whose
third binding has a blank id, an unsupported kind, a blank path and an
unresolved covers entry. -/
theorem test_id_findings_witness :
    ValidateContract.errs (some { validContract with
        Spec := { validContract.Spec with
          Bindings := { Tests :=
            [{ ID := "t1", Kind := "postman", Path := "p", Required := false, Covers := [] },
             { ID := "t1", Kind := "sql", Path := "x.sql", Required := false, Covers := [] },
             { ID := " ", Kind := "curl", Path := "", Required := false,
               Covers := ["ghost"] }] } } }) =
      [{ Path := "spec.bindings.tests[1].id", Msg := "duplicate test id" },
       { Path := "spec.bindings.tests[2].id", Msg := "required" },
       { Path := "spec.bindings.tests[2].kind",
         Msg := "unsupported kind (v0.0.1 supports postman|sql)" },
       { Path := "spec.bindings.tests[2].path", Msg := "required" },
       { Path := "spec.bindings.tests[2].covers[0]",
         Msg := "unknown assertion id 'ghost'" }] ∧
    { Path := testPfx 1 ++ ".id", Msg := "duplicate test id" } ∈
      ValidateContract.errs (some { validContract with
        Spec := { validContract.Spec with
          Bindings := { Tests :=
            [{ ID := "t1", Kind := "postman", Path := "p", Required := false, Covers := [] },
             { ID := "t1", Kind := "sql", Path := "x.sql", Required := false, Covers := [] },
             { ID := " ", Kind := "curl", Path := "", Required := false,
               Covers := ["ghost"] }] } } }) :=
  ⟨by decide,
    (test_id_findings
      { validContract with
        Spec := { validContract.Spec with
          Bindings := { Tests :=
            [{ ID := "t1", Kind := "postman", Path := "p", Required := false, Covers := [] },
             { ID := "t1", Kind := "sql", Path := "x.sql", Required := false, Covers := [] },
             { ID := " ", Kind := "curl", Path := "", Required := false,
               Covers := ["ghost"] }] } } }
      1 { ID := "t1", Kind := "sql", Path := "x.sql", Required := false, Covers := [] }
      rfl).1.mpr
      ⟨by decide,
        0, { ID := "t1", Kind := "postman", Path := "p", Required := false, Covers := [] },
        by decide, rfl, rfl⟩⟩

/-- C17. For every non-nil contract whose test sequence is empty the binding
rule group appends exactly the one finding (`spec.bindings.tests`, `must have
at least one test binding`), and the findings of the contract below
`spec.bindings` are that finding alone; whenever the sequence has an entry,
that finding is absent. -/
theorem empty_test_sequence (c : Contract) :
    (c.Spec.Bindings.Tests = [] →
      (∀ (ids : AssertionIDSet) (errs : ValidationErrors),
        validateBindings (some c.Spec.Bindings) ids errs =
          errs ++ [{ Path := "spec.bindings.tests",
                     Msg := "must have at least one test binding" }]) ∧
      (ValidateContract.errs (some c)).filter
          (fun e => strings.HasPrefix e.Path "spec.bindings") =
        [{ Path := "spec.bindings.tests", Msg := "must have at least one test binding" }]) ∧
    (c.Spec.Bindings.Tests ≠ [] →
      { Path := "spec.bindings.tests", Msg := "must have at least one test binding" } ∉
        ValidateContract.errs (some c)) := by
  constructor
  · intro h
    constructor
    · intro ids errs
      simp only [validateBindings, h, List.length_nil, if_true, ValidationErrors.Add]
    · rw [errs_filter_bindings c _ (fun e he => he)]
      simp only [bindingFindingsInOrder, h, if_true]
      decide
  · intro hne hmem
    have hf : { Path := "spec.bindings.tests", Msg := "must have at least one test binding" } ∈
        (ValidateContract.errs (some c)).filter
          (fun e => decide (e = { Path := "spec.bindings.tests",
                                  Msg := "must have at least one test binding" })) :=
      List.mem_filter.mpr ⟨hmem, by simp⟩
    rw [errs_filter_bindings c _ (by
      intro e he
      rw [decide_eq_true_eq] at he
      rw [he]
      decide)] at hf
    unfold bindingFindingsInOrder at hf
    rw [if_neg hne] at hf
    obtain ⟨⟨k, b⟩, _, he⟩ := List.mem_flatMap.mp (List.mem_filter.mp hf).1
    obtain ⟨sfx, hs⟩ := bindingEntryFindings_paths _ _ _ _ _ he
    have hd := congrArg String.data hs
    simp [testPfx] at hd

/-- C17, at the scenario contract with its test sequence emptied, and at the
scenario contract itself. -/
theorem empty_test_sequence_witness :
    (ValidateContract.errs (some { validContract with
        Spec := { validContract.Spec with Bindings := { Tests := [] } } })).filter
        (fun e => strings.HasPrefix e.Path "spec.bindings") =
      [{ Path := "spec.bindings.tests", Msg := "must have at least one test binding" }] ∧
    { Path := "spec.bindings.tests", Msg := "must have at least one test binding" } ∉
      ValidateContract.errs (some validContract) :=
  ⟨((empty_test_sequence
      { validContract with
        Spec := { validContract.Spec with Bindings := { Tests := [] } } }).1 rfl).2,
    (empty_test_sequence validContract).2 (by decide)⟩

/-- C18. For every non-nil contract the findings are, in this order, those of
the top level (apiVersion, then kind), of the parties (consumer, then
provider), of the surface, of the assertions and of the bindings; the
assertion and the binding findings come by ascending entry index, and within a
binding in the order id, kind, path, covers entries by ascending position,
covers. The findings split into a front part with nothing below
`spec.bindings` and a back part with nothing below `spec.assertions`, so every
finding below `spec.assertions` precedes every finding below
`spec.bindings`. -/
theorem findings_order (c : Contract) :
    ValidateContract.errs (some c) = findingsInOrder c ∧
    (∃ front back, ValidateContract.errs (some c) = front ++ back ∧
      (∀ e ∈ front, strings.HasPrefix e.Path "spec.bindings" = false) ∧
      (∀ e ∈ back, strings.HasPrefix e.Path "spec.assertions" = false)) ∧
    ValidateContract.errs (some
        { APIVersion := "", Kind := "contract", Metadata := { IsDraft := true, Labels := [] }
          Spec :=
            { Consumer := { Component := "" }, Provider := { Component := " " }
              Surface := { Kind := "grpc", HTTP := none }
              Assertions := [{ ID := "a1", Text := "" }, { ID := "a1", Text := "ok" }]
              Bindings := { Tests := [{ ID := "", Kind := "curl", Path := ""
                                        Required := false, Covers := ["a1", "ghost"] },
                                      { ID := "t", Kind := "sql", Path := "q"
                                        Required := true, Covers := [] }] } } }) =
      [{ Path := "apiVersion", Msg := "required" },
       { Path := "kind", Msg := "must be 'Contract'" },
       { Path := "spec.consumer.component", Msg := "required" },
       { Path := "spec.provider.component", Msg := "required" },
       { Path := "spec.surface.kind",
         Msg := "unsupported kind (v0.0.1 supports only 'http')" },
       { Path := "spec.assertions[0].text", Msg := "required" },
       { Path := "spec.assertions[1].id", Msg := "duplicate assertion id" },
       { Path := "spec.bindings.tests[0].id", Msg := "required" },
       { Path := "spec.bindings.tests[0].kind",
         Msg := "unsupported kind (v0.0.1 supports postman|sql)" },
       { Path := "spec.bindings.tests[0].path", Msg := "required" },
       { Path := "spec.bindings.tests[0].covers[1]",
         Msg := "unknown assertion id 'ghost'" },
       { Path := "spec.bindings.tests[1].covers",
         Msg := "required tests should cover at least one assertion" }] := by
  refine ⟨errs_eq_findingsInOrder c, ?_, by decide⟩
  refine ⟨validateTopLevel c [] ++ validateParties c.Spec [] ++
      validateSurface (some c.Spec.Surface) [] ++ (validateAssertions c.Spec.Assertions []).2,
    validateBindings (some c.Spec.Bindings) (validateAssertions c.Spec.Assertions []).1 [],
    errs_some c, ?_, ?_⟩
  · intro e he
    simp only [List.mem_append] at he
    rcases he with ((he | he) | he) | he
    · rcases validateTopLevel_paths _ e he with h | h <;> rw [h] <;> decide
    · rcases validateParties_paths _ e he with h | h <;> rw [h] <;> decide
    · exact HasPrefix_false_of_root _ _ _ (validateSurface_paths _ e he) (by decide)
        (by decide)
    · exact HasPrefix_false_of_root _ _ _ (validateAssertions_paths _ e he) (by decide)
        (by decide)
  · intro e he
    exact HasPrefix_false_of_root _ _ _ (validateBindings_paths _ _ e he) (by decide)
      (by decide)

theorem foldl_append_eq_join (l : List String) :
    ∀ acc : String, l.foldl (fun r s => r ++ s) acc = acc ++ String.join l := by
  induction l with
  | nil => intro acc; simp [String.join]
  | cons x rest ih =>
    intro acc
    have hj : String.join (x :: rest) = x ++ String.join rest := by
      show List.foldl (fun r s => r ++ s) ("" ++ x) rest = _
      rw [ih, String.empty_append]
    rw [List.foldl_cons, ih, hj, String.append_assoc]

theorem join_cons (x : String) (rest : List String) :
    String.join (x :: rest) = x ++ String.join rest := by
  show List.foldl (fun r s => r ++ s) ("" ++ x) rest = _
  rw [foldl_append_eq_join, String.empty_append]

/-- The builder loop of `ValidationErrors.Error` appends one bullet line per
finding. -/
theorem Error_foldl (ve : ValidationErrors) :
    ∀ b : String,
      ve.foldl (fun b e => b ++ " - " ++ e.Error ++ "\n") b =
        b ++ String.join (ve.map (fun e => " - " ++ e.Error ++ "\n")) := by
  induction ve with
  | nil => intro b; simp [String.join]
  | cons e rest ih =>
    intro b
    rw [List.foldl_cons, ih, List.map_cons, join_cons]
    simp only [String.append_assoc]

/-- C19. `ValidationErrors.Error` of the empty list is the empty string; of a
non-empty list it is the header `contract validation failed:` and a newline,
followed for each finding in list order by ` - `, the rendering of the finding
and a newline, the rendering being `<path>: <message>` when the path is
non-empty and `<message>` alone when it is empty. -/
theorem Error_rendering (ve : ValidationErrors) :
    ValidationErrors.Error ve = renderedFindings ve ∧
    ValidationErrors.Error [] = "" ∧
    (∀ e : ValidationError, e.Path ≠ "" → e.Error = e.Path ++ ": " ++ e.Msg) ∧
    (∀ e : ValidationError, e.Path = "" → e.Error = e.Msg) ∧
    ValidationErrors.Error
        [{ Path := "", Msg := "contract is nil" }, { Path := "kind", Msg := "required" }] =
      "contract validation failed:\n - contract is nil\n - kind: required\n" := by
  refine ⟨?_, rfl, ?_, ?_, by decide⟩
  · unfold ValidationErrors.Error renderedFindings
    cases ve with
    | nil => rfl
    | cons e rest =>
      simp only [List.length_cons, Nat.add_one_ne_zero, if_false, reduceCtorEq]
      rw [Error_foldl]
      rfl
  · intro e he
    simp only [ValidationError.Error, if_neg he]
  · intro e he
    simp only [ValidationError.Error, if_pos he]

theorem Contains_of_HasPrefix (s p : String) (h : strings.HasPrefix s p = true) :
    strings.Contains s p = true := by
  unfold strings.Contains
  unfold strings.HasPrefix at h
  rw [List.isPrefixOf_iff_prefix] at h
  rw [decide_eq_true_eq]
  exact h.isInfix

/-- C20. `AsError` returns nil exactly for the empty findings list; for a
non-empty list it returns an error that wraps `ErrInvalidContract` (its
`Unwrap` is that value and `errors.Is` recognises it) and whose message is
`invalid contract: ` followed by `ValidationErrors.Error` of the list; hence
every error that `ValidateContract` returns is recognised as
`ErrInvalidContract` and has a message containing `invalid contract`. -/
theorem AsError_wraps_ErrInvalidContract :
    (∀ ve : ValidationErrors, ValidationErrors.AsError ve = none ↔ ve = []) ∧
    (∀ ve : ValidationErrors, ve ≠ [] →
      ∃ err, ValidationErrors.AsError ve = some err ∧
        err.Unwrap = some ErrInvalidContract ∧
        errors.Is err ErrInvalidContract = true ∧
        err.Error = "invalid contract: " ++ ValidationErrors.Error ve) ∧
    (∀ (c : Option Contract) (err : GoError), ValidateContract c = some err →
      errors.Is err ErrInvalidContract = true ∧
        strings.Contains err.Error "invalid contract" = true) := by
  have h2 : ∀ ve : ValidationErrors, ve ≠ [] →
      ∃ err, ValidationErrors.AsError ve = some err ∧
        err.Unwrap = some ErrInvalidContract ∧
        errors.Is err ErrInvalidContract = true ∧
        err.Error = "invalid contract: " ++ ValidationErrors.Error ve := by
    intro ve hne
    have hl : ¬ ve.length = 0 := fun h => hne (List.length_eq_zero.mp h)
    refine ⟨.wrapError (ErrInvalidContract.Error ++ ": " ++ ValidationErrors.Error ve)
      ErrInvalidContract, by simp only [ValidationErrors.AsError, if_neg hl], rfl, ?_, ?_⟩
    · simp [errors.Is, ErrInvalidContract]
    · show ("invalid contract" ++ ": ") ++ ValidationErrors.Error ve = _
      rw [show ("invalid contract" ++ ": " : String) = "invalid contract: " from by decide]
  refine ⟨AsError_eq_none_iff, h2, ?_⟩
  intro c err herr
  unfold ValidateContract at herr
  have hne : ValidateContract.errs c ≠ [] := by
    intro h
    rw [h] at herr
    exact Option.noConfusion herr
  obtain ⟨e2, he2, _, his, hmsg⟩ := h2 _ hne
  rw [herr, Option.some.injEq] at he2
  subst he2
  refine ⟨his, ?_⟩
  rw [hmsg]
  exact Contains_of_HasPrefix _ _
    (HasPrefix_trans _ _ _ (HasPrefix_self_append _ _) (by decide))

/-- C20, at the findings list of the nil contract. -/
theorem AsError_wraps_ErrInvalidContract_witness :
    ∃ err, ValidationErrors.AsError [{ Path := "", Msg := "contract is nil" }] = some err ∧
      err.Unwrap = some ErrInvalidContract ∧
      errors.Is err ErrInvalidContract = true ∧
      err.Error = "invalid contract: " ++
        ValidationErrors.Error [{ Path := "", Msg := "contract is nil" }] :=
  AsError_wraps_ErrInvalidContract.2.1 [{ Path := "", Msg := "contract is nil" }] (by decide)

/-! ## Facts for the claims on the contract as a whole -/

theorem validateHTTP_paths_dot (h : Option HTTPSurface) :
    ∀ e ∈ validateHTTP h [], strings.HasPrefix e.Path "spec.surface." = true := by
  unfold validateHTTP ValidationErrors.Add
  rcases h with _ | ⟨m, p, _ | a⟩
  · decide
  · simp only
    split_ifs <;> decide
  · simp only
    split_ifs <;> decide

/-- Every finding of the surface group on a present surface lies strictly
below `spec.surface`. -/
theorem validateSurface_paths_dot (s : ContractSurface) :
    ∀ e ∈ validateSurface (some s) [], strings.HasPrefix e.Path "spec.surface." = true := by
  unfold validateSurface
  simp only [ValidationErrors.Add]
  split_ifs
  · decide
  · exact validateHTTP_paths_dot _
  · decide

/-- Every finding of the binding group lies at or below
`spec.bindings.tests`. -/
theorem bindingFindingsInOrder_paths (assertions : List Assertion) (l : List TestBinding) :
    ∀ e ∈ bindingFindingsInOrder assertions l,
      strings.HasPrefix e.Path "spec.bindings.tests" = true := by
  intro e he
  unfold bindingFindingsInOrder at he
  split_ifs at he
  · rw [List.mem_singleton] at he
    rw [he]
    decide
  · obtain ⟨p, _, hep⟩ := List.mem_flatMap.mp he
    obtain ⟨sfx, hs⟩ := bindingEntryFindings_paths _ _ _ _ e hep
    rw [hs]
    simp [testPfx, strings.HasPrefix, List.isPrefixOf]

theorem ne_of_HasPrefix (s p q : String) (hs : strings.HasPrefix s q = true)
    (hp : strings.HasPrefix p q = false) : s ≠ p := by
  intro h
  rw [h, hp] at hs
  exact Bool.noConfusion hs

/-- The binding findings see the assertions only through which covers entries
resolve. -/
theorem bindingFindingsInOrder_congr (A1 A2 : List Assertion)
    (h : ∀ x, Resolves A1 x ↔ Resolves A2 x) (l : List TestBinding) :
    bindingFindingsInOrder A1 l = bindingFindingsInOrder A2 l := by
  unfold bindingFindingsInOrder bindingEntryFindings bindingCoversFindings
  simp only [h]

theorem Resolves_perm (A1 A2 : List Assertion) (hp : A1.Perm A2) (x : String) :
    Resolves A1 x ↔ Resolves A2 x := by
  unfold Resolves
  constructor
  · rintro ⟨a, ha, h⟩
    exact ⟨a, hp.mem_iff.mp ha, h⟩
  · rintro ⟨a, ha, h⟩
    exact ⟨a, hp.mem_iff.mpr ha, h⟩

theorem validateAssertions_loop_congr (l : List Assertion) :
    ∀ (i : Nat) (ids1 ids2 : AssertionIDSet) (errs : ValidationErrors),
      (∀ x, x ∈ ids1 ↔ x ∈ ids2) →
      (validateAssertions.loop l i ids1 errs).2 = (validateAssertions.loop l i ids2 errs).2 := by
  induction l with
  | nil => intro i ids1 ids2 errs _; rfl
  | cons a rest ih =>
    intro i ids1 ids2 errs h
    simp only [validateAssertions.loop, ValidationErrors.Add]
    by_cases hb : strings.TrimSpace a.ID = ""
    · simp only [hb, if_true]
      exact ih _ _ _ _ h
    · by_cases hm : a.ID ∈ ids1
      · have hm2 : a.ID ∈ ids2 := (h _).mp hm
        simp only [hb, hm, hm2, if_true, if_false]
        exact ih _ _ _ _ h
      · have hm2 : a.ID ∉ ids2 := fun hh => hm ((h _).mpr hh)
        simp only [hb, hm, hm2, if_false]
        apply ih
        intro x
        simp only [List.mem_cons, h x]

theorem validateBindings_covers_congr (pfx : String) (ids1 ids2 : AssertionIDSet)
    (h : ∀ x, x ∈ ids1 ↔ x ∈ ids2) (l : List String) :
    ∀ (j : Nat) (errs : ValidationErrors),
      validateBindings.covers pfx ids1 l j errs = validateBindings.covers pfx ids2 l j errs := by
  induction l with
  | nil => intro j errs; rfl
  | cons x rest ih =>
    intro j errs
    simp only [validateBindings.covers, h x, ih]

theorem validateBindings_loop_congr (ids1 ids2 : AssertionIDSet)
    (h : ∀ x, x ∈ ids1 ↔ x ∈ ids2) (l : List TestBinding) :
    ∀ (i : Nat) (t1 t2 : List String) (errs : ValidationErrors),
      (∀ x, x ∈ t1 ↔ x ∈ t2) →
      validateBindings.loop ids1 l i t1 errs = validateBindings.loop ids2 l i t2 errs := by
  induction l with
  | nil => intro i t1 t2 errs _; rfl
  | cons t rest ih =>
    intro i t1 t2 errs ht
    simp only [validateBindings.loop, validateBindings_covers_congr _ ids1 ids2 h]
    by_cases hb : strings.TrimSpace t.ID = ""
    · simp only [hb, if_true]
      exact ih _ _ _ _ ht
    · by_cases hm : t.ID ∈ t1
      · have hm2 : t.ID ∈ t2 := (ht _).mp hm
        simp only [hb, hm, hm2, if_true, if_false]
        exact ih _ _ _ _ ht
      · have hm2 : t.ID ∉ t2 := fun hh => hm ((ht _).mpr hh)
        simp only [hb, hm, hm2, if_false]
        apply ih
        intro x
        simp only [List.mem_cons, ht x]

/-- A text without a newline, followed by a newline, is one line. -/
theorem splitNewline_line (l r : List Char) (h : '\n' ∉ l) :
    splitNewline (l ++ '\n' :: r) = l :: splitNewline r := by
  induction l with
  | nil => simp [splitNewline]
  | cons c l ih =>
    have hc : c ≠ '\n' := fun hh => h (hh ▸ List.mem_cons_self _ _)
    have hl : '\n' ∉ l := fun hh => h (List.mem_cons_of_mem _ hh)
    have ih2 := ih hl
    rw [List.cons_append]
    simp only [splitNewline, if_neg hc]
    rw [ih2]

theorem newline_not_mem_toString (i : Nat) : '\n' ∉ (toString i).data := by
  intro h
  have := toString_nat_isDigit i _ h
  revert this
  decide

/-- The bullet lines of a findings list without newlines, split at the
newlines: one line per finding and the empty piece after the last newline. -/
theorem splitNewline_bullets (ve : ValidationErrors)
    (h : ∀ e ∈ ve, '\n' ∉ e.Error.data) :
    splitNewline (String.join (ve.map (fun e => " - " ++ e.Error ++ "\n"))).data =
      ve.map (fun e => (" - " ++ e.Error).data) ++ [[]] := by
  induction ve with
  | nil => rfl
  | cons e rest ih =>
    have he : '\n' ∉ (" - " ++ e.Error).data := by
      simp [h e (List.mem_cons_self _ _)]
    have hd : (String.join ((e :: rest).map (fun e => " - " ++ e.Error ++ "\n"))).data =
        (" - " ++ e.Error).data ++ '\n' ::
          (String.join (rest.map (fun e => " - " ++ e.Error ++ "\n"))).data := by
      rw [List.map_cons, join_cons]
      simp [String.data_append, List.append_assoc]
    rw [hd, splitNewline_line _ _ he, ih (fun e' he' => h e' (List.mem_cons_of_mem _ he')),
      List.map_cons, List.cons_append]

/-- The message of the error for a non-empty findings list without newlines,
split at the newlines: the header line, one line per finding, and the empty
piece after the last newline. -/
theorem splitNewline_message (ve : ValidationErrors) (hne : ve ≠ [])
    (h : ∀ e ∈ ve, '\n' ∉ e.Error.data) :
    splitNewline ("invalid contract: " ++ ValidationErrors.Error ve).data =
      "invalid contract: contract validation failed:".data ::
        (ve.map (fun e => (" - " ++ e.Error).data) ++ [[]]) := by
  have hl : ¬ ve.length = 0 := fun hh => hne (List.length_eq_zero.mp hh)
  unfold ValidationErrors.Error
  rw [if_neg hl, Error_foldl]
  have hd : ("invalid contract: " ++ ("contract validation failed:\n" ++
        String.join (ve.map (fun e => " - " ++ e.Error ++ "\n")))).data =
      "invalid contract: contract validation failed:".data ++ '\n' ::
        (String.join (ve.map (fun e => " - " ++ e.Error ++ "\n"))).data := by
    simp [String.data_append]
  rw [hd, splitNewline_line _ _ (by decide), splitNewline_bullets ve h]

theorem nonEmptyLines_message (ve : ValidationErrors) (hne : ve ≠ [])
    (h : ∀ e ∈ ve, '\n' ∉ e.Error.data) :
    nonEmptyLines ("invalid contract: " ++ ValidationErrors.Error ve) = ve.length + 1 := by
  unfold nonEmptyLines
  rw [splitNewline_message ve hne h, List.filter_cons_of_pos (by decide), List.length_cons,
    List.filter_append, List.length_append]
  have h1 : (ve.map (fun e => (" - " ++ e.Error).data)).filter (fun l => decide (l ≠ [])) =
      ve.map (fun e => (" - " ++ e.Error).data) := by
    apply List.filter_eq_self.mpr
    intro l hl
    obtain ⟨e, _, rfl⟩ := List.mem_map.mp hl
    simp
  rw [h1, List.length_map]
  rfl

theorem Error_no_newline (e : ValidationError) (hp : '\n' ∉ e.Path.data)
    (hm : '\n' ∉ e.Msg.data) : '\n' ∉ e.Error.data := by
  unfold ValidationError.Error
  split_ifs
  · exact hm
  · simp [hp, hm]

theorem validateHTTP_no_newline (h : Option HTTPSurface) :
    ∀ e ∈ validateHTTP h [], '\n' ∉ e.Path.data ∧ '\n' ∉ e.Msg.data := by
  unfold validateHTTP ValidationErrors.Add
  rcases h with _ | ⟨m, p, _ | a⟩
  · decide
  · simp only
    split_ifs <;> decide
  · simp only
    split_ifs <;> decide

theorem validateSurface_no_newline (s : ContractSurface) :
    ∀ e ∈ validateSurface (some s) [], '\n' ∉ e.Path.data ∧ '\n' ∉ e.Msg.data := by
  unfold validateSurface
  simp only [ValidationErrors.Add]
  split_ifs
  · decide
  · exact validateHTTP_no_newline _
  · decide

theorem assertionEntryFindings_no_newline (seen : List String) (k : Nat) (a : Assertion) :
    ∀ e ∈ assertionEntryFindings seen k a, '\n' ∉ e.Path.data ∧ '\n' ∉ e.Msg.data := by
  unfold assertionEntryFindings
  split_ifs <;> simp [assertionPfx, newline_not_mem_toString]

theorem bindingFixedFindings_no_newline (seen : List String) (k : Nat) (t : TestBinding) :
    (∀ e ∈ bindingIdFindings seen k t, '\n' ∉ e.Path.data ∧ '\n' ∉ e.Msg.data) ∧
    (∀ e ∈ bindingKindFindings k t, '\n' ∉ e.Path.data ∧ '\n' ∉ e.Msg.data) ∧
    (∀ e ∈ bindingPathFindings k t, '\n' ∉ e.Path.data ∧ '\n' ∉ e.Msg.data) ∧
    (∀ e ∈ bindingRequiredFindings k t, '\n' ∉ e.Path.data ∧ '\n' ∉ e.Msg.data) := by
  refine ⟨?_, ?_, ?_, ?_⟩
  · unfold bindingIdFindings
    split_ifs <;> simp [testPfx, newline_not_mem_toString]
  · unfold bindingKindFindings
    split_ifs <;> simp [testPfx, newline_not_mem_toString]
  · unfold bindingPathFindings
    split_ifs <;> simp [testPfx, newline_not_mem_toString]
  · unfold bindingRequiredFindings
    split_ifs <;> simp [testPfx, newline_not_mem_toString]

/-- The findings of a contract carry no newline unless an unresolved covers
entry does. -/
theorem errs_no_newline (c : Contract)
    (hcov : ∀ t ∈ c.Spec.Bindings.Tests, ∀ x ∈ t.Covers,
      ¬ Resolves c.Spec.Assertions x → '\n' ∉ x.data) :
    ∀ e ∈ ValidateContract.errs (some c), '\n' ∉ e.Path.data ∧ '\n' ∉ e.Msg.data := by
  intro e he
  rw [errs_some, validateAssertions_eq_inOrder,
    validateBindings_eq_inOrder _ c.Spec.Assertions (validateAssertions_ids_Resolves _)] at he
  simp only [List.mem_append] at he
  rcases he with (((he | he) | he) | he) | he
  · revert e
    unfold validateTopLevel ValidationErrors.Add
    split_ifs <;> decide
  · revert e
    unfold validateParties ValidationErrors.Add
    split_ifs <;> decide
  · exact validateSurface_no_newline _ e he
  · unfold assertionFindingsInOrder at he
    split_ifs at he
    · rw [List.mem_singleton] at he
      rw [he]
      decide
    · obtain ⟨p, _, hep⟩ := List.mem_flatMap.mp he
      exact assertionEntryFindings_no_newline _ _ _ e hep
  · unfold bindingFindingsInOrder at he
    split_ifs at he
    · rw [List.mem_singleton] at he
      rw [he]
      decide
    · obtain ⟨⟨k, t⟩, hp, hep⟩ := List.mem_flatMap.mp he
      have ht : t ∈ c.Spec.Bindings.Tests := by
        obtain ⟨hk, h⟩ := List.mem_enum hp
        rw [h]
        exact List.getElem_mem _
      obtain ⟨h1, h2, h3, h4⟩ := bindingFixedFindings_no_newline
        ((c.Spec.Bindings.Tests.take k).map (fun t => t.ID)) k t
      simp only [bindingEntryFindings, List.mem_append] at hep
      rcases hep with (((hep | hep) | hep) | hep) | hep
      · exact h1 e hep
      · exact h2 e hep
      · exact h3 e hep
      · obtain ⟨j, x, hx, hr, hex⟩ := bindingCoversFindings_paths _ _ _ e hep
        have hxm : x ∈ t.Covers := by
          obtain ⟨hj, h⟩ := List.getElem?_eq_some_iff.mp hx
          rw [← h]
          exact List.getElem_mem _
        have := hcov t ht x hxm hr
        rw [hex]
        simp [testPfx, newline_not_mem_toString, this]
      · exact h4 e hep

/-! ## The loops of the monolithic copy -/

theorem monolithic_assertions_eq (l : List Assertion) :
    ∀ (i : Nat) (ids : List String) (errs : ValidationErrors),
      autobots.ValidateContract.assertions l i ids errs =
        validateAssertions.loop l i ids errs := by
  induction l with
  | nil => intro i ids errs; rfl
  | cons a rest ih =>
    intro i ids errs
    simp only [autobots.ValidateContract.assertions, validateAssertions.loop,
      ValidationErrors.Add, ih]

theorem monolithic_covers_eq (pfx : String) (ids : List String) (l : List String) :
    ∀ (j : Nat) (errs : ValidationErrors),
      autobots.ValidateContract.covers pfx ids l j errs =
        validateBindings.covers pfx ids l j errs := by
  induction l with
  | nil => intro j errs; rfl
  | cons a rest ih =>
    intro j errs
    simp only [autobots.ValidateContract.covers, validateBindings.covers,
      ValidationErrors.Addf, ValidationErrors.Add, ih]

theorem monolithic_tests_eq (ids : List String) (l : List TestBinding) :
    ∀ (i : Nat) (testIDs : List String) (errs : ValidationErrors),
      autobots.ValidateContract.tests ids l i testIDs errs =
        validateBindings.loop ids l i testIDs errs := by
  induction l with
  | nil => intro i testIDs errs; rfl
  | cons a rest ih =>
    intro i testIDs errs
    simp only [autobots.ValidateContract.tests, validateBindings.loop,
      ValidationErrors.Add, monolithic_covers_eq, ih]

/-- The collector of the monolithic copy and the collector of the
function-split copy hold the same findings in the same order. -/
theorem monolithic_errs_eq (c : Contract) :
    autobots.ValidateContract.errs c = ValidateContract.errs (some c) := by
  have hA : validateAssertions c.Spec.Assertions =
      fun errs => validateAssertions.loop c.Spec.Assertions 0 []
        (if c.Spec.Assertions.length = 0 then
          errs ++ [{ Path := "spec.assertions", Msg := "must have at least one assertion" }]
        else errs) := by
    funext errs
    unfold validateAssertions
    split_ifs with h
    · rw [List.length_eq_zero.mp h]
      rfl
    · rfl
  have hB : ∀ ids, validateBindings (some c.Spec.Bindings) ids =
      fun errs => validateBindings.loop ids c.Spec.Bindings.Tests 0 []
        (if c.Spec.Bindings.Tests.length = 0 then
          errs ++ [{ Path := "spec.bindings.tests",
                     Msg := "must have at least one test binding" }]
        else errs) := by
    intro ids
    funext errs
    unfold validateBindings
    simp only
    split_ifs with h
    · rw [List.length_eq_zero.mp h]
      rfl
    · rfl
  have hS : ∀ errs, validateSurface (some c.Spec.Surface) errs =
      (if strings.TrimSpace c.Spec.Surface.Kind = "" then
        errs ++ [{ Path := "spec.surface.kind", Msg := "required" }]
      else if c.Spec.Surface.Kind = "http" then
        match c.Spec.Surface.HTTP with
        | none => errs ++ [{ Path := "spec.surface.http", Msg := "required for kind=http" }]
        | some h =>
          let errs :=
            if strings.TrimSpace h.Method = "" then
              errs ++ [{ Path := "spec.surface.http.method", Msg := "required" }]
            else errs
          let errs :=
            if strings.TrimSpace h.Path = "" then
              errs ++ [{ Path := "spec.surface.http.path", Msg := "required" }]
            else if !strings.HasPrefix h.Path "/" then
              errs ++ [{ Path := "spec.surface.http.path", Msg := "must start with '/'" }]
            else errs
          match h.Auth with
          | some auth =>
            if strings.ContainsAny auth.Scheme " \t\n" then
              errs ++ [{ Path := "spec.surface.http.auth.scheme",
                         Msg := "must not contain whitespace" }]
            else errs
          | none => errs
      else
        errs ++ [{ Path := "spec.surface.kind",
                   Msg := "unsupported kind (v0.0.1 supports only 'http')" }]) := by
    intro errs
    rfl
  unfold autobots.ValidateContract.errs ValidateContract.errs validateSpec
  simp only [monolithic_assertions_eq, monolithic_tests_eq, hA, hB, hS]
  rfl

/-! ## Distinct paths -/

/-- Two path lists that a root separates have no path in common. -/
theorem nodup_append_sep (l1 l2 : List String) (q : String) (h1 : l1.Nodup) (h2 : l2.Nodup)
    (hl1 : ∀ x ∈ l1, strings.HasPrefix x q = false)
    (hl2 : ∀ x ∈ l2, strings.HasPrefix x q = true) : (l1 ++ l2).Nodup := by
  refine List.nodup_append.mpr ⟨h1, h2, ?_⟩
  intro x hx hy
  have := hl1 x hx
  rw [hl2 x hy] at this
  exact Bool.noConfusion this

/-- The paths of the seven rule groups, each under its own root, are distinct
once they are distinct within each group. -/
theorem nodup_groups (T K Cn Pr S A B : List String)
    (nT : T.Nodup) (nK : K.Nodup) (nCn : Cn.Nodup) (nPr : Pr.Nodup) (nS : S.Nodup)
    (nA : A.Nodup) (nB : B.Nodup)
    (hT : ∀ x ∈ T, x = "apiVersion") (hK : ∀ x ∈ K, x = "kind")
    (hCn : ∀ x ∈ Cn, x = "spec.consumer.component")
    (hPr : ∀ x ∈ Pr, x = "spec.provider.component")
    (hS : ∀ x ∈ S, strings.HasPrefix x "spec.surface." = true)
    (hA : ∀ x ∈ A, strings.HasPrefix x "spec.assertions" = true)
    (hB : ∀ x ∈ B, strings.HasPrefix x "spec.bindings.tests" = true) :
    (T ++ K ++ Cn ++ Pr ++ S ++ A ++ B).Nodup := by
  have cT : ∀ x ∈ T, ∀ q, strings.HasPrefix "apiVersion" q = false →
      strings.HasPrefix x q = false := fun x hx q hq => by rw [hT x hx]; exact hq
  have cK : ∀ x ∈ K, ∀ q, strings.HasPrefix "kind" q = false →
      strings.HasPrefix x q = false := fun x hx q hq => by rw [hK x hx]; exact hq
  have cCn : ∀ x ∈ Cn, ∀ q, strings.HasPrefix "spec.consumer.component" q = false →
      strings.HasPrefix x q = false := fun x hx q hq => by rw [hCn x hx]; exact hq
  have cPr : ∀ x ∈ Pr, ∀ q, strings.HasPrefix "spec.provider.component" q = false →
      strings.HasPrefix x q = false := fun x hx q hq => by rw [hPr x hx]; exact hq
  refine nodup_append_sep _ _ "spec.bindings.tests"
    (nodup_append_sep _ _ "spec.assertions"
      (nodup_append_sep _ _ "spec.surface."
        (nodup_append_sep _ _ "spec.provider.component"
          (nodup_append_sep _ _ "spec.consumer.component"
            (nodup_append_sep _ _ "kind" nT nK ?_ ?_) nCn ?_ ?_) nPr ?_ ?_) nS ?_ hS)
      nA ?_ hA) nB ?_ hB
  · intro x hx
    exact cT x hx _ (by decide)
  · intro x hx
    rw [hK x hx]
    decide
  · intro x hx
    simp only [List.mem_append] at hx
    rcases hx with hx | hx
    · exact cT x hx _ (by decide)
    · exact cK x hx _ (by decide)
  · intro x hx
    rw [hCn x hx]
    decide
  · intro x hx
    simp only [List.mem_append] at hx
    rcases hx with (hx | hx) | hx
    · exact cT x hx _ (by decide)
    · exact cK x hx _ (by decide)
    · exact cCn x hx _ (by decide)
  · intro x hx
    rw [hPr x hx]
    decide
  · intro x hx
    simp only [List.mem_append] at hx
    rcases hx with ((hx | hx) | hx) | hx
    · exact cT x hx _ (by decide)
    · exact cK x hx _ (by decide)
    · exact cCn x hx _ (by decide)
    · exact cPr x hx _ (by decide)
  · intro x hx
    simp only [List.mem_append] at hx
    rcases hx with (((hx | hx) | hx) | hx) | hx
    · exact cT x hx _ (by decide)
    · exact cK x hx _ (by decide)
    · exact cCn x hx _ (by decide)
    · exact cPr x hx _ (by decide)
    · exact HasPrefix_false_of_root _ _ _ (hS x hx) (by decide) (by decide)
  · intro x hx
    simp only [List.mem_append] at hx
    rcases hx with ((((hx | hx) | hx) | hx) | hx) | hx
    · exact cT x hx _ (by decide)
    · exact cK x hx _ (by decide)
    · exact cCn x hx _ (by decide)
    · exact cPr x hx _ (by decide)
    · exact HasPrefix_false_of_root _ _ _ (hS x hx) (by decide) (by decide)
    · exact HasPrefix_false_of_root _ _ _ (hA x hx) (by decide) (by decide)

/-- Findings produced entry by entry, each entry under its own indexed path
and with distinct paths, have distinct paths altogether. -/
theorem nodup_paths_enum_flatMap {α : Type} (A : String) (l : List α)
    (g : Nat × α → ValidationErrors)
    (h1 : ∀ p, ((g p).map (fun e => e.Path)).Nodup)
    (h2 : ∀ p, ∀ e ∈ g p, ∃ s, e.Path = A ++ toString p.1 ++ "]" ++ s) :
    ((l.enum.flatMap g).map (fun e => e.Path)).Nodup := by
  rw [List.map_flatMap, List.nodup_flatMap]
  refine ⟨fun p _ => h1 p, ?_⟩
  have hp : l.enum.Pairwise (fun a b => a.1 ≠ b.1) := by
    have := List.nodup_range l.length
    rw [← List.enum_map_fst, List.Nodup, List.pairwise_map] at this
    exact this
  refine hp.imp ?_
  intro p q hpq x hx hy
  obtain ⟨e1, he1, rfl⟩ := List.mem_map.mp hx
  obtain ⟨e2, he2, h12⟩ := List.mem_map.mp hy
  obtain ⟨s1, hs1⟩ := h2 p e1 he1
  obtain ⟨s2, hs2⟩ := h2 q e2 he2
  rw [hs1, hs2] at h12
  exact hpq ((indexed_path_inj A _ _ _ _).mp h12).1.symm

/-- Entries that each give at most one finding give a subsequence of the
findings that all of them could give. -/
theorem flatMap_ite_sublist {α β γ : Type} (c : α → Prop) [DecidablePred c] (f : α → β)
    (h : β → γ) (l : List α) :
    List.Sublist ((l.flatMap (fun p => if c p then [] else [f p])).map h)
      (l.map (fun p => h (f p))) := by
  induction l with
  | nil => exact List.Sublist.slnil
  | cons a rest ih =>
    rw [List.flatMap_cons, List.map_append, List.map_cons]
    by_cases hc : c a
    · rw [if_pos hc]
      exact List.Sublist.cons _ ih
    · rw [if_neg hc]
      exact List.Sublist.cons₂ _ ih

/-- The suffixes of the paths that the findings of one test binding with `n`
covers entries can carry. -/
theorem bindingSuffixes_nodup (n : Nat) :
    ([".id", ".kind", ".path"] ++
      (List.range n).map (fun j => ".covers[" ++ (toString j ++ "]")) ++
      [".covers"]).Nodup := by
  have hc : ((List.range n).map (fun j => ".covers[" ++ (toString j ++ "]"))).Nodup := by
    refine List.Nodup.map ?_ (List.nodup_range n)
    intro i j hij
    have h2 : ".covers[" ++ toString i ++ "]" ++ "" = ".covers[" ++ toString j ++ "]" ++ "" := by
      simp only [String.append_assoc]
      simpa using hij
    exact ((indexed_path_inj _ _ _ _ _).mp h2).1
  refine List.nodup_append.mpr ⟨List.nodup_append.mpr ⟨by decide, hc, ?_⟩, by simp, ?_⟩
  · intro x hx hy
    obtain ⟨j, _, rfl⟩ := List.mem_map.mp hy
    refine covers_sfx_ne j _ ?_ rfl
    simp only [List.mem_cons, List.mem_singleton, List.not_mem_nil, or_false] at hx
    rcases hx with hx | hx | hx
    · exact Or.inl hx
    · exact Or.inr (Or.inl hx)
    · exact Or.inr (Or.inr (Or.inl hx))
  · intro x hx hy
    rw [List.mem_singleton] at hy
    simp only [List.mem_append, List.mem_cons, List.not_mem_nil, or_false,
      List.mem_map] at hx
    rcases hx with hx | ⟨j, _, hj⟩
    · rw [hy] at hx
      revert hx
      decide
    · exact covers_sfx_ne j _ (Or.inr (Or.inr (Or.inr rfl))) (hj.trans hy)

/-- The paths of the findings of one test binding are among the paths that
the index and the number of covers entries allow, in their order. -/
theorem bindingEntryFindings_sublist (assertions : List Assertion) (seen : List String)
    (k : Nat) (t : TestBinding) :
    List.Sublist ((bindingEntryFindings assertions seen k t).map (fun e => e.Path))
      (([".id", ".kind", ".path"] ++
        (List.range t.Covers.length).map (fun j => ".covers[" ++ (toString j ++ "]")) ++
        [".covers"]).map (fun s => testPfx k ++ s)) := by
  unfold bindingEntryFindings
  simp only [List.map_append]
  have h1 : List.Sublist ((bindingIdFindings seen k t).map (fun e => e.Path))
      [testPfx k ++ ".id"] := by
    unfold bindingIdFindings
    split_ifs <;> simp
  have h2 : List.Sublist ((bindingKindFindings k t).map (fun e => e.Path))
      [testPfx k ++ ".kind"] := by
    unfold bindingKindFindings
    split_ifs <;> simp
  have h3 : List.Sublist ((bindingPathFindings k t).map (fun e => e.Path))
      [testPfx k ++ ".path"] := by
    unfold bindingPathFindings
    split_ifs <;> simp
  have h5 : List.Sublist ((bindingRequiredFindings k t).map (fun e => e.Path))
      [testPfx k ++ ".covers"] := by
    unfold bindingRequiredFindings
    split_ifs <;> simp
  have h4 : List.Sublist ((bindingCoversFindings assertions k t).map (fun e => e.Path))
      (((List.range t.Covers.length).map (fun j => ".covers[" ++ (toString j ++ "]"))).map
        (fun s => testPfx k ++ s)) := by
    unfold bindingCoversFindings
    have := flatMap_ite_sublist (fun p : Nat × String => Resolves assertions p.2)
      (fun p => ({ Path := testPfx k ++ ".covers[" ++ toString p.1 ++ "]",
                   Msg := "unknown assertion id \x27" ++ p.2 ++ "\x27" } : ValidationError))
      (fun e => e.Path) t.Covers.enum
    have heq : t.Covers.enum.map (fun p => testPfx k ++ ".covers[" ++ toString p.1 ++ "]") =
        ((List.range t.Covers.length).map (fun j => ".covers[" ++ (toString j ++ "]"))).map
          (fun s => testPfx k ++ s) := by
      rw [← List.enum_map_fst, List.map_map, List.map_map]
      apply List.map_congr_left
      intro p _
      simp [String.append_assoc]
    rw [← heq]
    exact this
  have := ((h1.append h2).append h3).append h4 |>.append h5
  simpa using this

theorem assertionEntryFindings_nodup (seen : List String) (k : Nat) (a : Assertion) :
    ((assertionEntryFindings seen k a).map (fun e => e.Path)).Nodup := by
  have hne : assertionPfx k ++ ".id" ≠ assertionPfx k ++ ".text" := by
    intro h
    have := (String_append_right_inj _ _ _).mp h
    revert this
    decide
  unfold assertionEntryFindings
  split_ifs <;> simp [hne]

theorem bindingEntryFindings_nodup (assertions : List Assertion) (seen : List String)
    (k : Nat) (t : TestBinding) :
    ((bindingEntryFindings assertions seen k t).map (fun e => e.Path)).Nodup := by
  refine List.Nodup.sublist (bindingEntryFindings_sublist assertions seen k t) ?_
  refine List.Nodup.map ?_ (bindingSuffixes_nodup _)
  intro s1 s2 h
  exact (String_append_right_inj _ _ _).mp h

theorem validateSurface_nodup (s : ContractSurface) :
    ((validateSurface (some s) []).map (fun e => e.Path)).Nodup := by
  unfold validateSurface
  simp only [ValidationErrors.Add]
  split_ifs
  · decide
  · unfold validateHTTP ValidationErrors.Add
    rcases s.HTTP with _ | ⟨m, p, _ | a⟩
    · decide
    · simp only
      split_ifs <;> decide
    · simp only
      split_ifs <;> decide
  · decide

/-- The paths of the findings of a non-nil contract are distinct. -/
theorem findingsInOrder_nodup (c : Contract) :
    ((findingsInOrder c).map (fun e => e.Path)).Nodup := by
  unfold findingsInOrder
  simp only [List.map_append]
  apply nodup_groups
  · split_ifs <;> simp
  · split_ifs <;> simp
  · split_ifs <;> simp
  · split_ifs <;> simp
  · exact validateSurface_nodup _
  · unfold assertionFindingsInOrder
    split_ifs
    · simp
    · refine nodup_paths_enum_flatMap "spec.assertions[" _ _
        (fun p => assertionEntryFindings_nodup _ _ _) ?_
      intro p e he
      rcases assertionEntryFindings_paths _ _ _ e he with h | h
      · exact ⟨".id", h⟩
      · exact ⟨".text", h⟩
  · unfold bindingFindingsInOrder
    split_ifs
    · simp
    · exact nodup_paths_enum_flatMap "spec.bindings.tests[" _ _
        (fun p => bindingEntryFindings_nodup _ _ _ _)
        (fun p e he => bindingEntryFindings_paths _ _ _ _ e he)
  · split_ifs <;> simp
  · split_ifs <;> simp
  · split_ifs <;> simp
  · split_ifs <;> simp
  · intro x hx
    obtain ⟨e, he, rfl⟩ := List.mem_map.mp hx
    exact validateSurface_paths_dot _ e he
  · intro x hx
    obtain ⟨e, he, rfl⟩ := List.mem_map.mp hx
    unfold assertionFindingsInOrder at he
    split_ifs at he
    · rw [List.mem_singleton] at he
      rw [he]
      decide
    · obtain ⟨p, _, hep⟩ := List.mem_flatMap.mp he
      rcases assertionEntryFindings_paths _ _ _ e hep with h | h <;>
        · rw [h]
          simp [assertionPfx, strings.HasPrefix, List.isPrefixOf]
  · intro x hx
    obtain ⟨e, he, rfl⟩ := List.mem_map.mp hx
    exact bindingFindingsInOrder_paths _ _ e he

/-! ## The validator on the Go runtime gives the findings of the embedding -/

theorem StringSet_mem_place (h : String → Nat) (k x : String) (l : List String) :
    x ∈ runtime.StringSet.place h k l ↔ x = k ∨ x ∈ l := by
  induction l with
  | nil => simp [runtime.StringSet.place]
  | cons y ys ih =>
    unfold runtime.StringSet.place
    split_ifs
    · simp
    · simp only [List.mem_cons, ih]
      constructor
      · rintro (h1 | h1 | h1)
        · exact Or.inr (Or.inl h1)
        · exact Or.inl h1
        · exact Or.inr (Or.inr h1)
      · rintro (h1 | h1 | h1)
        · exact Or.inr (Or.inl h1)
        · exact Or.inl h1
        · exact Or.inr (Or.inr h1)

/-- After the assignment `m[k] = struct{}{}` a lookup finds `k` and what it
found before, whatever the seed of the map. -/
theorem StringSet_lookup_store (m : runtime.StringSet) (k x : String) :
    (m.store k).lookup x = true ↔ x = k ∨ m.lookup x = true := by
  unfold runtime.StringSet.store runtime.StringSet.lookup
  split_ifs with hk
  · simp only [decide_eq_true_eq]
    constructor
    · exact Or.inr
    · rintro (h | h)
      · exact h ▸ hk
      · exact h
  · simp only [decide_eq_true_eq, StringSet_mem_place]

/-- A lookup in a new map finds nothing. -/
theorem StringSet_lookup_makeSet (rt : runtime.Runtime) (x : String) :
    ¬ (rt.makeSet.1.lookup x = true) := by
  simp [runtime.Runtime.makeSet, runtime.StringSet.lookup]

/-- The order of the keys of a map depends on its seed: the keys `a` and `bb`
stored in this order lie in one order under one seed and in the other order
under another. -/
theorem StringSet_keys_depend_on_seed :
    ((({ strhash := fun seed k => (seed + k.length) % 2, seeds := fun _ => 0,
         drawn := 0 } : runtime.Runtime).makeSet.1.store "a").store "bb").keys = ["bb", "a"] ∧
    ((({ strhash := fun seed k => (seed + k.length) % 2, seeds := fun _ => 1,
         drawn := 0 } : runtime.Runtime).makeSet.1.store "a").store "bb").keys = ["a", "bb"] := by
  constructor <;> decide

/-- The id set that `validateAssertions` returns depends on the seed: for the
assertions `a` and `bb` its keys lie in one order under one seed and in the
other order under another, while the findings are the same. -/
theorem stateful_id_set_depends_on_seed :
    (stateful.validateAssertions [{ ID := "a", Text := "x" }, { ID := "bb", Text := "y" }] []
      { strhash := fun seed k => (seed + k.length) % 2, seeds := fun _ => 0,
        drawn := 0 }).1.1.keys = ["bb", "a"] ∧
    (stateful.validateAssertions [{ ID := "a", Text := "x" }, { ID := "bb", Text := "y" }] []
      { strhash := fun seed k => (seed + k.length) % 2, seeds := fun _ => 1,
        drawn := 0 }).1.1.keys = ["a", "bb"] ∧
    (stateful.validateAssertions [{ ID := "a", Text := "x" }, { ID := "bb", Text := "y" }] []
      { strhash := fun seed k => (seed + k.length) % 2, seeds := fun _ => 0,
        drawn := 0 }).1.2 =
      (stateful.validateAssertions [{ ID := "a", Text := "x" }, { ID := "bb", Text := "y" }] []
        { strhash := fun seed k => (seed + k.length) % 2, seeds := fun _ => 1,
          drawn := 0 }).1.2 := by
  refine ⟨by decide, by decide, by decide⟩

theorem stateful_assertions_loop (l : List Assertion) :
    ∀ (i : Nat) (m : runtime.StringSet) (ids : AssertionIDSet) (errs : ValidationErrors),
      (∀ x, m.lookup x = true ↔ x ∈ ids) →
      (stateful.validateAssertions.loop l i m errs).2 = (validateAssertions.loop l i ids errs).2 ∧
      ∀ x, (stateful.validateAssertions.loop l i m errs).1.lookup x = true ↔
        x ∈ (validateAssertions.loop l i ids errs).1 := by
  induction l with
  | nil => intro i m ids errs h; exact ⟨rfl, h⟩
  | cons a rest ih =>
    intro i m ids errs h
    simp only [stateful.validateAssertions.loop, validateAssertions.loop]
    by_cases hb : strings.TrimSpace a.ID = ""
    · simp only [hb, if_true]
      exact ih _ _ _ _ h
    · by_cases hm : a.ID ∈ ids
      · have hm2 : m.lookup a.ID = true := (h _).mpr hm
        simp only [hb, hm, hm2, if_true, if_false]
        exact ih _ _ _ _ h
      · have hm2 : ¬ (m.lookup a.ID = true) := fun hh => hm ((h _).mp hh)
        simp only [hb, hm, hm2, if_false, Bool.false_eq_true]
        apply ih
        intro x
        rw [StringSet_lookup_store, h x, List.mem_cons]

theorem stateful_covers (pfx : String) (m : runtime.StringSet) (ids : AssertionIDSet)
    (h : ∀ x, m.lookup x = true ↔ x ∈ ids) (l : List String) :
    ∀ (j : Nat) (errs : ValidationErrors),
      stateful.validateBindings.covers pfx m l j errs =
        validateBindings.covers pfx ids l j errs := by
  induction l with
  | nil => intro j errs; rfl
  | cons x rest ih =>
    intro j errs
    simp only [stateful.validateBindings.covers, validateBindings.covers, h x, ih]

theorem stateful_bindings_loop (m : runtime.StringSet) (ids : AssertionIDSet)
    (h : ∀ x, m.lookup x = true ↔ x ∈ ids) (l : List TestBinding) :
    ∀ (i : Nat) (t1 : runtime.StringSet) (t2 : List String) (errs : ValidationErrors),
      (∀ x, t1.lookup x = true ↔ x ∈ t2) →
      stateful.validateBindings.loop m l i t1 errs = validateBindings.loop ids l i t2 errs := by
  induction l with
  | nil => intro i t1 t2 errs _; rfl
  | cons t rest ih =>
    intro i t1 t2 errs ht
    simp only [stateful.validateBindings.loop, validateBindings.loop, stateful_covers _ m ids h]
    by_cases hb : strings.TrimSpace t.ID = ""
    · simp only [hb, if_true]
      exact ih _ _ _ _ ht
    · by_cases hm : t.ID ∈ t2
      · have hm2 : t1.lookup t.ID = true := (ht _).mpr hm
        simp only [hb, hm, hm2, if_true, if_false]
        exact ih _ _ _ _ ht
      · have hm2 : ¬ (t1.lookup t.ID = true) := fun hh => hm ((ht _).mp hh)
        simp only [hb, hm, hm2, if_false, Bool.false_eq_true]
        apply ih
        intro x
        rw [StringSet_lookup_store, ht x, List.mem_cons]

theorem stateful_validateAssertions (l : List Assertion) (errs : ValidationErrors)
    (rt : runtime.Runtime) :
    (stateful.validateAssertions l errs rt).1.2 = (validateAssertions l errs).2 ∧
    ∀ x, (stateful.validateAssertions l errs rt).1.1.lookup x = true ↔
      x ∈ (validateAssertions l errs).1 := by
  unfold stateful.validateAssertions validateAssertions
  have h0 : ∀ x, rt.makeSet.1.lookup x = true ↔ x ∈ ([] : List String) := fun x =>
    ⟨fun hh => absurd hh (StringSet_lookup_makeSet rt x), fun hh => absurd hh (List.not_mem_nil x)⟩
  split_ifs
  · exact ⟨rfl, h0⟩
  · exact stateful_assertions_loop l 0 _ [] errs h0

theorem stateful_validateBindings (b : Option ContractBindings) (m : runtime.StringSet)
    (ids : AssertionIDSet) (h : ∀ x, m.lookup x = true ↔ x ∈ ids) (errs : ValidationErrors)
    (rt : runtime.Runtime) :
    (stateful.validateBindings b m errs rt).1 = validateBindings b ids errs := by
  rcases b with _ | b
  · rfl
  · simp only [stateful.validateBindings, validateBindings]
    split_ifs
    · rfl
    · exact stateful_bindings_loop m ids h _ _ _ _ _ (fun x =>
        ⟨fun hh => absurd hh (StringSet_lookup_makeSet rt x),
          fun hh => absurd hh (List.not_mem_nil x)⟩)

/-- Whatever the state of the runtime, a call collects the findings of the
embedding that holds the id sets as lists. -/
theorem stateful_errs (c : Option Contract) (rt : runtime.Runtime) :
    (stateful.ValidateContract.errs c rt).1 = ValidateContract.errs c := by
  rcases c with _ | c
  · rfl
  · simp only [stateful.ValidateContract.errs, ValidateContract.errs, stateful.validateSpec,
      validateSpec]
    have h := stateful_validateAssertions c.Spec.Assertions
      (validateSurface (some c.Spec.Surface) (validateParties c.Spec (validateTopLevel c []))) rt
    rw [stateful_validateBindings _ _ _ h.2, h.1]

/-- The seeds a call on a non-nil contract draws: one for the assertion ids,
and one for the test ids unless there is no test binding. -/
theorem stateful_drawn (c : Contract) (rt : runtime.Runtime) :
    (stateful.ValidateContract (some c) rt).2.drawn =
      rt.drawn + (if c.Spec.Bindings.Tests.length = 0 then 1 else 2) := by
  simp only [stateful.ValidateContract, stateful.ValidateContract.errs, stateful.validateSpec,
    stateful.validateBindings, stateful.validateAssertions, runtime.Runtime.makeSet]
  split_ifs <;> rfl

/-! ## The claims on the contract as a whole -/

/-- C28. Through `ValidateContract` the findings never contain a finding at
path `spec`, `spec.surface` or `spec.bindings`: the entry point hands
`validateSpec` the address of the contract's spec, which hands
`validateSurface` and `validateBindings` the addresses of its surface and
bindings, none of them nil. Called with nil, each of the three helpers appends
exactly its `required` finding. -/
theorem nil_guards_unreachable :
    (∀ (c : Option Contract), ∀ e ∈ ValidateContract.errs c,
      e.Path ≠ "spec" ∧ e.Path ≠ "spec.surface" ∧ e.Path ≠ "spec.bindings") ∧
    (∀ c : Contract,
      ValidateContract.errs (some c) = validateSpec (some c.Spec) (validateTopLevel c [])) ∧
    (∀ (spec : ContractSpec) (errs : ValidationErrors),
      validateSpec (some spec) errs =
        validateBindings (some spec.Bindings)
          (validateAssertions spec.Assertions
            (validateSurface (some spec.Surface) (validateParties spec errs))).1
          (validateAssertions spec.Assertions
            (validateSurface (some spec.Surface) (validateParties spec errs))).2) ∧
    (∀ errs : ValidationErrors,
      validateSpec none errs = errs ++ [{ Path := "spec", Msg := "required" }]) ∧
    (∀ errs : ValidationErrors,
      validateSurface none errs = errs ++ [{ Path := "spec.surface", Msg := "required" }]) ∧
    (∀ (ids : AssertionIDSet) (errs : ValidationErrors),
      validateBindings none ids errs =
        errs ++ [{ Path := "spec.bindings", Msg := "required" }]) := by
  refine ⟨?_, fun _ => rfl, fun _ _ => rfl, fun _ => rfl, fun _ => rfl, fun _ _ => rfl⟩
  intro c e he
  rcases c with _ | c
  · simp only [ValidateContract.errs, ValidationErrors.Add, List.nil_append,
      List.mem_singleton] at he
    rw [he]
    decide
  · rw [errs_some,
      validateBindings_eq_inOrder _ c.Spec.Assertions (validateAssertions_ids_Resolves _)] at he
    simp only [List.mem_append] at he
    rcases he with (((he | he) | he) | he) | he
    · rcases validateTopLevel_paths _ e he with h | h <;> rw [h] <;> decide
    · rcases validateParties_paths _ e he with h | h <;> rw [h] <;> decide
    · have h := validateSurface_paths_dot _ e he
      exact ⟨ne_of_HasPrefix _ _ _ h (by decide), ne_of_HasPrefix _ _ _ h (by decide),
        ne_of_HasPrefix _ _ _ h (by decide)⟩
    · have h := validateAssertions_paths _ e he
      exact ⟨ne_of_HasPrefix _ _ _ h (by decide), ne_of_HasPrefix _ _ _ h (by decide),
        ne_of_HasPrefix _ _ _ h (by decide)⟩
    · have h := bindingFindingsInOrder_paths _ _ e he
      exact ⟨ne_of_HasPrefix _ _ _ h (by decide), ne_of_HasPrefix _ _ _ h (by decide),
        ne_of_HasPrefix _ _ _ h (by decide)⟩

/-- C22 as stated fails: the scenario contract with the provider component
set to the consumer's `web-ui` is accepted although the two names are not
distinct. -/
theorem party_invariant_counterexample :
    ValidateContract (some { validContract with
        Spec := { validContract.Spec with Provider := { Component := "web-ui" } } }) = none ∧
    ¬ ∀ c : Contract, ValidateContract (some c) = none →
      c.Spec.Consumer.Component ≠ "" ∧ c.Spec.Provider.Component ≠ "" ∧
        c.Spec.Consumer.Component ≠ c.Spec.Provider.Component := by
  refine ⟨by decide, ?_⟩
  intro h
  exact (h { validContract with
        Spec := { validContract.Spec with Provider := { Component := "web-ui" } } }
    (by decide)).2.2 rfl

/-- C22, amended. Whenever `ValidateContract` returns no error, the contract
is non-nil and its consumer and provider component names are both non-blank,
hence non-empty. -/
theorem party_invariant (c : Option Contract) (h : ValidateContract c = none) :
    ∃ c0, c = some c0 ∧
      strings.TrimSpace c0.Spec.Consumer.Component ≠ "" ∧
      strings.TrimSpace c0.Spec.Provider.Component ≠ "" ∧
      c0.Spec.Consumer.Component ≠ "" ∧ c0.Spec.Provider.Component ≠ "" := by
  unfold ValidateContract at h
  rw [AsError_eq_none_iff] at h
  rcases c with _ | c
  · simp [ValidateContract.errs, ValidationErrors.Add] at h
  · rw [errs_some] at h
    simp only [List.append_eq_nil] at h
    have hp := (validateParties_eq_nil_iff c.Spec).mp h.1.1.1.2
    have hne : ∀ s : String, strings.TrimSpace s ≠ "" → s ≠ "" := by
      intro s hs he
      rw [he] at hs
      exact hs (by decide)
    exact ⟨c, rfl, hp.1, hp.2, hne _ hp.1, hne _ hp.2⟩

/-- C22 amended, at the scenario contract. -/
theorem party_invariant_witness :
    ∃ c0, some validContract = some c0 ∧
      strings.TrimSpace c0.Spec.Consumer.Component ≠ "" ∧
      strings.TrimSpace c0.Spec.Provider.Component ≠ "" ∧
      c0.Spec.Consumer.Component ≠ "" ∧ c0.Spec.Provider.Component ≠ "" :=
  party_invariant (some validContract) (by decide)

/-- C26. Two non-nil contracts that differ only in their metadata have the
same findings and the same error, under both copies of the validator; the
scenario contract is accepted with `is_draft` false and with `is_draft`
true. -/
theorem metadata_irrelevant (c1 c2 : Contract) (hv : c1.APIVersion = c2.APIVersion)
    (hk : c1.Kind = c2.Kind) (hs : c1.Spec = c2.Spec) :
    ValidateContract.errs (some c1) = ValidateContract.errs (some c2) ∧
    ValidateContract (some c1) = ValidateContract (some c2) ∧
    autobots.ValidateContract (some c1) = autobots.ValidateContract (some c2) ∧
    ValidateContract (some { validContract with
      Metadata := { IsDraft := false, Labels := [] } }) = none ∧
    ValidateContract (some { validContract with
      Metadata := { IsDraft := true, Labels := [("team", "billing")] } }) = none := by
  rcases c1 with ⟨v1, k1, m1, s1⟩
  rcases c2 with ⟨v2, k2, m2, s2⟩
  simp only at hv hk hs
  subst hv hk hs
  exact ⟨rfl, rfl, rfl, by decide, by decide⟩

/-- C26, at the scenario contract and its copy with other metadata. -/
theorem metadata_irrelevant_witness :
    ValidateContract.errs (some validContract) =
      ValidateContract.errs (some { validContract with
        Metadata := { IsDraft := true, Labels := [("team", "billing")] } }) :=
  (metadata_irrelevant validContract
    { validContract with Metadata := { IsDraft := true, Labels := [("team", "billing")] } }
    rfl rfl rfl).1

/-- C23. The findings below `spec.bindings` depend on the assertions only
through the set of their non-blank ids: replacing the assertion sequence of a
contract by one with the same non-blank ids, in particular by a permutation
of it, leaves them unchanged; a covers entry resolves to an assertion wherever
that assertion sits in the sequence. -/
theorem bindings_depend_on_id_set (c : Contract) (l : List Assertion) :
    ((∀ x : String,
        (∃ a ∈ l, strings.TrimSpace a.ID ≠ "" ∧ a.ID = x) ↔
          ∃ a ∈ c.Spec.Assertions, strings.TrimSpace a.ID ≠ "" ∧ a.ID = x) →
      (ValidateContract.errs (some { c with Spec := { c.Spec with Assertions := l } })).filter
          (fun e => strings.HasPrefix e.Path "spec.bindings") =
        (ValidateContract.errs (some c)).filter
          (fun e => strings.HasPrefix e.Path "spec.bindings")) ∧
    (l.Perm c.Spec.Assertions →
      (ValidateContract.errs (some { c with Spec := { c.Spec with Assertions := l } })).filter
          (fun e => strings.HasPrefix e.Path "spec.bindings") =
        (ValidateContract.errs (some c)).filter
          (fun e => strings.HasPrefix e.Path "spec.bindings") ∧
      ∀ x : String,
        x ∈ (validateAssertions l []).1 ↔ x ∈ (validateAssertions c.Spec.Assertions []).1) := by
  have key : (∀ x : String, Resolves l x ↔ Resolves c.Spec.Assertions x) →
      (ValidateContract.errs (some { c with Spec := { c.Spec with Assertions := l } })).filter
          (fun e => strings.HasPrefix e.Path "spec.bindings") =
        (ValidateContract.errs (some c)).filter
          (fun e => strings.HasPrefix e.Path "spec.bindings") := by
    intro h
    rw [errs_filter_bindings _ _ (fun e he => he), errs_filter_bindings _ _ (fun e he => he)]
    exact congrArg _ (bindingFindingsInOrder_congr _ _ h _)
  refine ⟨key, ?_⟩
  intro hp
  refine ⟨key (Resolves_perm _ _ hp), ?_⟩
  intro x
  rw [validateAssertions_ids_Resolves, validateAssertions_ids_Resolves]
  exact Resolves_perm _ _ hp x

/-- C23, at a contract with the assertions `a1`, `a2` and a binding that covers
`a2` and `ghost`, against the same contract with the assertions swapped. -/
theorem bindings_depend_on_id_set_witness :
    (ValidateContract.errs (some { validContract with
        Spec := { validContract.Spec with
          Assertions := [{ ID := "a2", Text := "" }, { ID := "a1", Text := "ok" }]
          Bindings := { Tests := [{ ID := "t1", Kind := "sql", Path := "q"
                                    Required := true, Covers := ["a2", "ghost"] }] } } })).filter
        (fun e => strings.HasPrefix e.Path "spec.bindings") =
      (ValidateContract.errs (some { validContract with
        Spec := { validContract.Spec with
          Assertions := [{ ID := "a1", Text := "ok" }, { ID := "a2", Text := "" }]
          Bindings := { Tests := [{ ID := "t1", Kind := "sql", Path := "q"
                                    Required := true, Covers := ["a2", "ghost"] }] } } })).filter
        (fun e => strings.HasPrefix e.Path "spec.bindings") :=
  ((bindings_depend_on_id_set
    { validContract with
      Spec := { validContract.Spec with
        Assertions := [{ ID := "a1", Text := "ok" }, { ID := "a2", Text := "" }]
        Bindings := { Tests := [{ ID := "t1", Kind := "sql", Path := "q"
                                  Required := true, Covers := ["a2", "ghost"] }] } } }
    [{ ID := "a2", Text := "" }, { ID := "a1", Text := "ok" }]).2
    (List.Perm.swap _ _ [])).1

/-- C24. `ValidateContract` is deterministic. A call runs on the state of the
Go runtime, which gives each id set its own hash seed and with it its own key
order, and leaves the runtime in another state. For every contract (nil or
not) and every state of the runtime, a second call on the same contract, run
in the state the first call left, collects the same findings in the same
order and returns the same error with the same rendered message; so do any
two calls, whatever the states of the runtime they run in. The findings of a
call are those of the embedding that holds the id sets as lists. Every call
on a non-nil contract draws a seed, so that the second call does run in
another state. -/
theorem validation_deterministic :
    (∀ (c : Option Contract) (rt : runtime.Runtime),
      (stateful.ValidateContract.errs c (stateful.ValidateContract.errs c rt).2).1 =
        (stateful.ValidateContract.errs c rt).1 ∧
      (stateful.ValidateContract c (stateful.ValidateContract c rt).2).1 =
        (stateful.ValidateContract c rt).1 ∧
      ((stateful.ValidateContract c (stateful.ValidateContract c rt).2).1).map GoError.Error =
        ((stateful.ValidateContract c rt).1).map GoError.Error) ∧
    (∀ (c : Option Contract) (rt1 rt2 : runtime.Runtime),
      (stateful.ValidateContract.errs c rt1).1 = (stateful.ValidateContract.errs c rt2).1 ∧
      (stateful.ValidateContract c rt1).1 = (stateful.ValidateContract c rt2).1 ∧
      ((stateful.ValidateContract c rt1).1).map GoError.Error =
        ((stateful.ValidateContract c rt2).1).map GoError.Error) ∧
    (∀ (c : Option Contract) (rt : runtime.Runtime),
      (stateful.ValidateContract.errs c rt).1 = ValidateContract.errs c ∧
      (stateful.ValidateContract c rt).1 = ValidateContract c) ∧
    (∀ (c : Contract) (rt : runtime.Runtime),
      (stateful.ValidateContract (some c) rt).2.drawn =
        rt.drawn + (if c.Spec.Bindings.Tests.length = 0 then 1 else 2) ∧
      (stateful.ValidateContract (some c) rt).2.drawn ≠ rt.drawn) := by
  have he : ∀ (c : Option Contract) (rt : runtime.Runtime),
      (stateful.ValidateContract c rt).1 = ValidateContract c := by
    intro c rt
    simp only [stateful.ValidateContract, ValidateContract, stateful_errs]
  refine ⟨?_, ?_, ?_, ?_⟩
  · intro c rt
    refine ⟨?_, ?_, ?_⟩
    · rw [stateful_errs, stateful_errs]
    · rw [he, he]
    · rw [he, he]
  · intro c rt1 rt2
    refine ⟨?_, ?_, ?_⟩
    · rw [stateful_errs, stateful_errs]
    · rw [he, he]
    · rw [he, he]
  · intro c rt
    exact ⟨stateful_errs c rt, he c rt⟩
  · intro c rt
    have h := stateful_drawn c rt
    refine ⟨h, ?_⟩
    rw [h]
    split_ifs <;> omega

/-- C21 as stated fails: a covers entry is copied into the message of its
finding as it is, so the entry `a`, newline, `b` that resolves to no
assertion gives a failure with one finding whose rendered message has three
non-empty lines rather than two. -/
theorem rendered_line_count_counterexample :
    (ValidateContract.errs (some (coversContract ["a\nb"]))).length = 1 ∧
    (∃ err, ValidateContract (some (coversContract ["a\nb"])) = some err ∧
      nonEmptyLines err.Error = 3) ∧
    ¬ ∀ (c : Option Contract) (err : GoError), ValidateContract c = some err →
      nonEmptyLines err.Error = (ValidateContract.errs c).length + 1 := by
  refine ⟨by decide, ⟨_, rfl, by decide⟩, ?_⟩
  intro h
  have := h (some (coversContract ["a\nb"])) _ rfl
  revert this
  decide

/-- C21, amended. For every contract (nil or not) on which `ValidateContract`
fails, and in which no covers entry that resolves to no assertion contains a
newline character, the rendered message split at the newline characters is
the header line, then one bullet line per finding in list order, then the
empty piece after the last newline; hence it has `n + 1` non-empty lines for
`n` findings. -/
theorem rendered_line_count (c : Option Contract) (err : GoError)
    (h : ValidateContract c = some err)
    (hcov : ∀ c0, c = some c0 → ∀ t ∈ c0.Spec.Bindings.Tests, ∀ x ∈ t.Covers,
      ¬ Resolves c0.Spec.Assertions x → '\n' ∉ x.data) :
    splitNewline err.Error.data =
      "invalid contract: contract validation failed:".data ::
        ((ValidateContract.errs c).map (fun e => (" - " ++ e.Error).data) ++ [[]]) ∧
    nonEmptyLines err.Error = (ValidateContract.errs c).length + 1 := by
  have hnl : ∀ e ∈ ValidateContract.errs c, '\n' ∉ e.Error.data := by
    intro e he
    rcases c with _ | c0
    · simp only [ValidateContract.errs, ValidationErrors.Add, List.nil_append,
        List.mem_singleton] at he
      rw [he]
      decide
    · obtain ⟨h1, h2⟩ := errs_no_newline c0 (hcov c0 rfl) e he
      exact Error_no_newline e h1 h2
  have hne : ValidateContract.errs c ≠ [] := by
    intro hh
    have := (AsError_eq_none_iff _).mpr hh
    unfold ValidateContract at h
    rw [this] at h
    exact Option.noConfusion h
  have herr : err.Error = "invalid contract: " ++
      ValidationErrors.Error (ValidateContract.errs c) := by
    unfold ValidateContract ValidationErrors.AsError at h
    rw [if_neg (fun hh => hne (List.length_eq_zero.mp hh))] at h
    rw [← Option.some.inj h]
    rfl
  rw [herr]
  exact ⟨splitNewline_message _ hne hnl, nonEmptyLines_message _ hne hnl⟩

theorem rendered_line_count_witness :
    ValidateContract (some (coversContract ["ghost-assertion"])) =
      some (.wrapError ("invalid contract: contract validation failed:\n" ++
        " - spec.bindings.tests[0].covers[0]: unknown assertion id \x27ghost-assertion\x27\n")
        ErrInvalidContract) ∧
    nonEmptyLines (GoError.wrapError ("invalid contract: contract validation failed:\n" ++
        " - spec.bindings.tests[0].covers[0]: unknown assertion id \x27ghost-assertion\x27\n")
        ErrInvalidContract).Error =
      (ValidateContract.errs (some (coversContract ["ghost-assertion"]))).length + 1 :=
  ⟨by decide,
    (rendered_line_count (some (coversContract ["ghost-assertion"]))
      (.wrapError ("invalid contract: contract validation failed:\n" ++
        " - spec.bindings.tests[0].covers[0]: unknown assertion id \x27ghost-assertion\x27\n")
        ErrInvalidContract) (by decide)
      (by
        intro c0 h0
        cases h0
        decide)).2⟩

/-- C25. The two copies of the validator agree on every non-nil contract: the
monolithic `ValidateContract` of `internal/autobots/contract` and the
function-split `ValidateContract` of `internal/contract` collect the same
findings in the same order, and return the same error, which is nil for both
or carries the same rendered message for both. -/
theorem copies_agree (c : Contract) :
    autobots.ValidateContract.errs c = ValidateContract.errs (some c) ∧
    autobots.ValidateContract (some c) = some (ValidateContract (some c)) ∧
    (ValidateContract (some c) = none ↔ autobots.ValidateContract (some c) = some none) ∧
    (autobots.ValidateContract (some c)).map (Option.map GoError.Error) =
      some ((ValidateContract (some c)).map GoError.Error) := by
  have h2 : autobots.ValidateContract (some c) = some (ValidateContract (some c)) := by
    unfold autobots.ValidateContract ValidateContract
    simp only [monolithic_errs_eq c]
  refine ⟨monolithic_errs_eq c, h2, ?_, ?_⟩
  · rw [h2]
    constructor
    · intro h
      rw [h]
    · intro h
      exact Option.some.inj h
  · rw [h2]
    rfl

/-- C27. For every contract, nil or not, no two findings of `ValidateContract`
share a path: the paths of the findings list are pairwise distinct, so that
every path string, the indexed paths of assertions, test bindings and covers
entries included, is the path of at most one finding of the list. -/
theorem finding_paths_distinct (c : Option Contract) :
    ((ValidateContract.errs c).map (fun e => e.Path)).Nodup ∧
    ∀ p : String,
      ((ValidateContract.errs c).filter (fun e => decide (e.Path = p))).length ≤ 1 := by
  have h : ((ValidateContract.errs c).map (fun e => e.Path)).Nodup := by
    rcases c with _ | c
    · decide
    · rw [errs_eq_findingsInOrder]
      exact findingsInOrder_nodup c
  refine ⟨h, fun p => ?_⟩
  have := List.nodup_iff_count_le_one.mp h p
  rw [List.count_eq_countP, List.countP_map, List.countP_eq_length_filter] at this
  have heq : ((fun x => x == p) ∘ fun e : ValidationError => e.Path) =
      fun e => decide (e.Path = p) := by
    funext e
    by_cases hp : e.Path = p <;> simp [hp]
  rw [heq] at this
  exact this

end contract

end Autobots
